import Mathlib

/-!
Verification of the data-block sanitization pipeline and request handling of
the oil-engineering chat application.

The development shallowly embeds the JavaScript/TypeScript code of
`src/app/api/chat/route.ts` (sanitizeGraphData, sanitizeTableData,
processAndEnsureDataFormatting, extractPdfContent, the POST input validation)
and the client-side marker extraction of `src/app/components/Chatbot.tsx`.

JavaScript runtime values are modelled by the inductive `JSVal`.  Numbers are
modelled exactly as rationals (plus signed infinity); every number reachable
in the verified code paths is produced by parsing a decimal literal, which a
rational represents exactly, so no IEEE-754 rounding is observable in the
properties proved here.  JavaScript exceptions (property assignment on a
primitive in strict mode, calling a method on a non-string) are modelled with
`Except`.  Plain JavaScript objects are association lists with unique keys
(which is what `JSON.parse` produces); property enumeration follows the
JavaScript own-key order: canonical array indices in ascending numeric order
first, then the remaining string keys in insertion order.
-/

/-- A JavaScript number that can occur in the verified code paths: a finite
value (exact rational) or a signed infinity.  NaN cannot occur: every numeric
coercion in the source is guarded by `!isNaN(parseFloat(...))` and
`JSON.parse` never produces NaN. -/
inductive JNum where
  | fin (q : Rat)
  | inf (neg : Bool)
deriving DecidableEq, Repr

/-- A JavaScript runtime value as used by the chat route: `undefined`, `null`,
booleans, numbers, strings, arrays and plain objects (association lists of
own enumerable properties in insertion order). -/
inductive JSVal where
  | vundef
  | vnull
  | vbool (b : Bool)
  | vnum (n : JNum)
  | vstr (s : String)
  | varr (xs : List JSVal)
  | vobj (fs : List (String × JSVal))
deriving Repr

mutual

/-- Structural (strict) equality test on `JSVal`. -/
def beqV : JSVal → JSVal → Bool
  | .vundef, .vundef => true
  | .vnull, .vnull => true
  | .vbool a, .vbool b => a == b
  | .vnum a, .vnum b => a == b
  | .vstr a, .vstr b => a == b
  | .varr a, .varr b => beqVL a b
  | .vobj a, .vobj b => beqVF a b
  | _, _ => false

/-- Elementwise equality test on lists of values. -/
def beqVL : List JSVal → List JSVal → Bool
  | [], [] => true
  | x :: xs, y :: ys => beqV x y && beqVL xs ys
  | _, _ => false

/-- Elementwise equality test on association lists. -/
def beqVF : List (String × JSVal) → List (String × JSVal) → Bool
  | [], [] => true
  | (k, x) :: xs, (l, y) :: ys => k == l && beqV x y && beqVF xs ys
  | _, _ => false

end

mutual

theorem beqV_refl : ∀ a : JSVal, beqV a a = true
  | .vundef => rfl
  | .vnull => rfl
  | .vbool b => by simp [beqV]
  | .vnum n => by simp [beqV]
  | .vstr s => by simp [beqV]
  | .varr xs => by simp [beqV, beqVL_refl xs]
  | .vobj fs => by simp [beqV, beqVF_refl fs]

theorem beqVL_refl : ∀ l : List JSVal, beqVL l l = true
  | [] => rfl
  | x :: t => by simp [beqVL, beqV_refl x, beqVL_refl t]

theorem beqVF_refl : ∀ l : List (String × JSVal), beqVF l l = true
  | [] => rfl
  | (k, v) :: t => by simp [beqVF, beqV_refl v, beqVF_refl t]

end

/-- Two values with `beqV a b = false` are distinct. -/
theorem ne_of_beqV_false {a b : JSVal} (h : beqV a b = false) : a ≠ b := by
  intro he
  subst he
  rw [beqV_refl] at h
  cases h

/-- JavaScript truthiness of a value. -/
def jsTruthy : JSVal → Bool
  | .vundef => false
  | .vnull => false
  | .vbool b => b
  | .vnum (.fin q) => !(q == 0)
  | .vnum (.inf _) => true
  | .vstr s => !(s == "")
  | .varr _ => true
  | .vobj _ => true

/-- Does `typeof v` evaluate to the string `object`?  True for `null`, arrays
and plain objects. -/
def typeofObject : JSVal → Bool
  | .vnull => true
  | .varr _ => true
  | .vobj _ => true
  | _ => false

/-- A non-null value of type `object` (array or plain object). -/
def notNullObject : JSVal → Bool
  | .varr _ => true
  | .vobj _ => true
  | _ => false

/-- Is the value an array (`Array.isArray`)? -/
def isArrB : JSVal → Bool
  | .varr _ => true
  | _ => false

/-- Is the value a string (`typeof v === 'string'`)? -/
def isStrB : JSVal → Bool
  | .vstr _ => true
  | _ => false

/-- Is the value a number (`typeof v === 'number'`)? -/
def isNumB : JSVal → Bool
  | .vnum _ => true
  | _ => false

/-- Strict equality `s === v` between a string literal and a value. -/
def strictEqSV (s : String) (v : JSVal) : Bool :=
  match v with
  | .vstr t => s == t
  | _ => false

/-- First value stored under a key in an association list (`undefined` when
the key is absent). -/
def findVal : List (String × JSVal) → String → JSVal
  | [], _ => .vundef
  | (k, v) :: t, key => if k == key then v else findVal t key

/-- Property assignment on an association list: replaces the value of an
existing key in place, otherwise appends the new key at the end.  This is the
behaviour of `obj[k] = v` (and of spread override) on a JavaScript object. -/
def setKey : List (String × JSVal) → String → JSVal → List (String × JSVal)
  | [], k, v => [(k, v)]
  | (k0, v0) :: t, k, v => if k0 == k then (k0, v) :: t else (k0, v0) :: setKey t k v

/-- Value of a list of decimal digit characters. -/
def digitsVal (ds : List Char) : Nat :=
  ds.foldl (fun a c => a * 10 + (c.toNat - 48)) 0

/-- Decimal digits of a natural number (fuel-based). -/
def natDigitsAux : Nat → Nat → List Char
  | 0, _ => []
  | fuel + 1, n =>
    if n < 10 then [Char.ofNat (48 + n)]
    else natDigitsAux fuel (n / 10) ++ [Char.ofNat (48 + n % 10)]

/-- Decimal string of a natural number. -/
def natDecimal (n : Nat) : String :=
  String.mk (natDigitsAux (n + 1) n)

/-- Does the string consist of at least one decimal digit and nothing else? -/
def digitsOnly (s : String) : Bool :=
  !(s.data.isEmpty) && s.data.all Char.isDigit

/-- Numeric value of a digit string (0 for other strings). -/
def idxVal (s : String) : Nat :=
  digitsVal s.data

/-- Is the string the canonical decimal form of an array index (an integer
below 2^32 - 1, no sign, no leading zeros)?  Such keys are enumerated first,
in ascending numeric order, by JavaScript property enumeration. -/
def isCanonicalIndex (s : String) : Bool :=
  digitsOnly s && natDecimal (idxVal s) == s && idxVal s < 4294967295

/-- Insert an entry into a list sorted by the numeric value of its key
(stable insertion sort). -/
def insByIdx {α : Type} (kv : String × α) : List (String × α) → List (String × α)
  | [] => [kv]
  | h :: t => if idxVal kv.fst < idxVal h.fst then kv :: h :: t else h :: insByIdx kv t

/-- Insertion sort of keyed entries by numeric key value. -/
def sortByIdx {α : Type} : List (String × α) → List (String × α)
  | [] => []
  | h :: t => insByIdx h (sortByIdx t)

/-- JavaScript own-property enumeration order of an object's entries:
canonical array-index keys in ascending numeric order first, then all other
keys in insertion order.  This is the order observed by `for (... in ...)`,
`Object.keys` and `JSON.stringify`. -/
def ownOrder {α : Type} (fs : List (String × α)) : List (String × α) :=
  sortByIdx (fs.filter (fun kv => isCanonicalIndex kv.fst))
    ++ fs.filter (fun kv => !isCanonicalIndex kv.fst)

/-- Own enumerable entries of a value in enumeration order; for an array these
are the index/element pairs. -/
def jsOwnEntries : JSVal → List (String × JSVal)
  | .vobj fs => ownOrder fs
  | .varr xs => (List.range xs.length).zip xs |>.map (fun p => (toString p.fst, p.snd))
  | _ => []

/-- `Object.keys` (equally the `for ... in` key sequence) of a value. -/
def jsOwnKeys (v : JSVal) : List String :=
  (jsOwnEntries v).map Prod.fst

/-- Property read `v[k]`, total: absent properties and reads on primitives
yield `undefined`.  (Reads on `null`/`undefined` throw in JavaScript and are
modelled separately at the call sites where they can occur.) -/
def jsGet : JSVal → String → JSVal
  | .vobj fs, k => findVal fs k
  | .varr xs, k =>
    if k == "length" then .vnum (.fin xs.length)
    else if isCanonicalIndex k then xs.getD (idxVal k) .vundef
    else .vundef
  | .vstr s, k => if k == "length" then .vnum (.fin s.length) else .vundef
  | _, _ => (.vundef)

/-- `Object.prototype.hasOwnProperty` for the values of this model. -/
def hasOwnP : JSVal → String → Bool
  | .vobj fs, k => fs.any (fun kv => kv.fst == k)
  | .varr xs, k =>
    k == "length" || (isCanonicalIndex k && idxVal k < xs.length)
  | _, _ => false

/-- Property assignment on an object value (used only where the target is
known to be a plain object). -/
def jsSet (v : JSVal) (k : String) (w : JSVal) : JSVal :=
  match v with
  | .vobj fs => .vobj (setKey fs k w)
  | u => u

/-- Optional chain `v?.k1?.k2`: `undefined` as soon as a link is nullish. -/
def optChain2 (v : JSVal) (k1 k2 : String) : JSVal :=
  match v with
  | .vnull => .vundef
  | .vundef => .vundef
  | w =>
    match jsGet w k1 with
    | .vnull => .vundef
    | .vundef => .vundef
    | u => jsGet u k2

/-- Optional chain `v?.k`. -/
def optChain1 (v : JSVal) (k : String) : JSVal :=
  match v with
  | .vnull => .vundef
  | .vundef => .vundef
  | w => jsGet w k

/-- Membership of a character in the JavaScript `\s` class (also the set
removed by `String.prototype.trim`): ASCII whitespace, line terminators, and
the Unicode space separators. -/
def isJsWhitespaceChar (c : Char) : Bool :=
  let n := c.toNat
  n == 0x20 || n == 0x09 || n == 0x0a || n == 0x0b || n == 0x0c || n == 0x0d ||
  n == 0xa0 || n == 0x1680 || (0x2000 ≤ n && n ≤ 0x200a) ||
  n == 0x2028 || n == 0x2029 || n == 0x202f || n == 0x205f ||
  n == 0x3000 || n == 0xfeff

/-- Membership in the character class `[\s.\-]` used by the key-sanitizing
regular expressions of `sanitizeGraphData`. -/
def isKeySpecialChar (c : Char) : Bool :=
  isJsWhitespaceChar c || c == '.' || c == '-'

/-- The test `/[\s.\-]+/.test(s)`. -/
def hasSpecials (s : String) : Bool :=
  s.data.any isKeySpecialChar

/-- Kernel of `s.replace(/[\s.\-]+/g, '_')`: each maximal run of special
characters is replaced by a single underscore.  The flag records whether the
previous character belonged to a run. -/
def slugAux : Bool → List Char → List Char
  | _, [] => []
  | prev, c :: t =>
    if isKeySpecialChar c then
      if prev then slugAux true t else '_' :: slugAux true t
    else c :: slugAux false t

/-- `s.replace(/[\s.\-]+/g, '_')` as used for graph data keys. -/
def slugKey (s : String) : String :=
  String.mk (slugAux false s.data)

/-- `String.prototype.trim`. -/
def jsTrim (s : String) : String :=
  String.mk (((s.data.dropWhile isJsWhitespaceChar).reverse.dropWhile
    isJsWhitespaceChar).reverse)

/-- The rational `m * 10 ^ e`. -/
def ratScaled (m : Int) (e : Int) : Rat :=
  if 0 ≤ e then ((m * 10 ^ e.toNat : Int) : Rat)
  else (m : Rat) / ((10 ^ (-e).toNat : Nat) : Rat)

/-- Exponent part accepted by `parseFloat` after the significand: `e`/`E`,
optional sign, at least one digit; an incomplete exponent is not consumed
(longest valid prefix semantics).  Returns the exponent value. -/
def parseFloatExp (l : List Char) : Int :=
  match l with
  | c :: t =>
    if c == 'e' || c == 'E' then
      let (eneg, t2) :=
        match t with
        | '-' :: u => (true, u)
        | '+' :: u => (false, u)
        | u => (false, u)
      let ed := t2.takeWhile Char.isDigit
      if ed.isEmpty then 0
      else if eneg then -(digitsVal ed : Int) else (digitsVal ed : Int)
    else 0
  | [] => 0

/-- JavaScript `parseFloat`: skip leading whitespace, optional sign, then the
longest prefix that is a decimal literal or `Infinity`; `none` models `NaN`.
(IEEE-754 overflow of huge finite literals to `Infinity` is not modelled; the
verified code paths never feed such literals to `parseFloat`.) -/
def jsParseFloat (s : String) : Option JNum :=
  let l := s.data.dropWhile isJsWhitespaceChar
  let (neg, l1) :=
    match l with
    | '-' :: t => (true, t)
    | '+' :: t => (false, t)
    | t => (false, t)
  if "Infinity".data.isPrefixOf l1 then some (.inf neg)
  else
    let d1 := l1.takeWhile Char.isDigit
    let r1 := l1.dropWhile Char.isDigit
    let (d2, r2) :=
      match r1 with
      | '.' :: t => (t.takeWhile Char.isDigit, t.dropWhile Char.isDigit)
      | t => ([], t)
    if d1.isEmpty && d2.isEmpty then none
    else
      let e := parseFloatExp r2
      let mabs : Int := (digitsVal d1 * 10 ^ d2.length + digitsVal d2 : Nat)
      let m : Int := if neg then -mabs else mabs
      some (.fin (ratScaled m (e - d2.length)))

/-- Count how many times `p` divides `n` (and the remaining cofactor), with
explicit fuel. -/
def countFactor (p : Nat) : Nat → Nat → Nat × Nat
  | 0, n => (0, n)
  | fuel + 1, n =>
    if n % p == 0 && 1 < n then
      let r := countFactor p fuel (n / p)
      (r.fst + 1, r.snd)
    else (0, n)

/-- Decimal rendering of a non-negative rational whose denominator divides a
power of ten: the exact finite decimal expansion with no trailing zeros, as
JavaScript prints such numbers. -/
def posRatDecimal (q : Rat) : String :=
  let den := q.den
  let (a, r2) := countFactor 2 den den
  let (b, _) := countFactor 5 r2 r2
  let k := max a b
  let scaled : Nat := (q * ((10 : Rat) ^ k)).num.toNat
  if k == 0 then natDecimal scaled
  else
    let ip := scaled / 10 ^ k
    let fp := scaled % 10 ^ k
    let fdigits := natDecimal fp
    let pad := String.mk (List.replicate (k - fdigits.length) '0')
    natDecimal ip ++ "." ++ pad ++ fdigits

/-- JavaScript `Number.prototype.toString` restricted to the numbers reachable
in the verified paths: integers and finite decimal fractions print exactly;
infinities print as `Infinity`.  (Exponential notation for magnitudes outside
`[1e-6, 1e21)` and binary-rounded fractions are not reachable here.) -/
def jnumToString : JNum → String
  | .inf neg => if neg then "-Infinity" else "Infinity"
  | .fin q =>
    if q < 0 then "-" ++ posRatDecimal (-q) else posRatDecimal q

mutual

/-- JavaScript `String(v)` coercion (template-literal coercion). -/
def jsToString : JSVal → String
  | .vundef => "undefined"
  | .vnull => "null"
  | .vbool b => cond b "true" "false"
  | .vnum n => jnumToString n
  | .vstr s => s
  | .varr xs => jsToStringArr xs
  | .vobj _ => "[object Object]"

/-- `Array.prototype.toString`: elements joined by commas, nullish elements
rendered empty. -/
def jsToStringArr : List JSVal → String
  | [] => ""
  | [x] => jsToStringElem x
  | x :: y :: t => jsToStringElem x ++ "," ++ jsToStringArr (y :: t)

/-- One array element inside a join. -/
def jsToStringElem : JSVal → String
  | .vundef => ""
  | .vnull => ""
  | v => jsToString v

end

/-- Index of the first occurrence of `pat` as a contiguous sublist, if any. -/
def findSubIdx (pat : List Char) : List Char → Option Nat
  | [] => if pat.isEmpty then some 0 else none
  | c :: t =>
    if pat.isPrefixOf (c :: t) then some 0
    else (findSubIdx pat t).map (· + 1)

/-- Does `pat` occur as a contiguous substring of `s`? -/
def containsSub (s pat : String) : Bool :=
  (findSubIdx pat.data s.data).isSome

/-- First match of the regular expression `opener([\s\S]*?)-->` (first-match,
lazy, newline-crossing): returns the text before the match, the captured
content and the text after the match.  The leftmost occurrence of the opening
literal together with the first later occurrence of the closing `-->` is
exactly the leftmost-shortest regex match. -/
def findMarker (opener s : String) : Option (String × String × String) :=
  let l := s.data
  let op := opener.data
  match findSubIdx op l with
  | none => none
  | some i =>
    let rest := l.drop (i + op.length)
    match findSubIdx ("-->".data) rest with
    | none => none
    | some j =>
      some (String.mk (l.take i), String.mk (rest.take j),
        String.mk (rest.drop (j + 3)))

/-- Replace the first occurrence of the plain string `pat` in `s` by `repl`
(`String.prototype.replace` with a string pattern and a replacement without
dollar sequences), or return `s` unchanged when `pat` does not occur. -/
def replaceFirstPlain (s pat repl : String) : String :=
  match findSubIdx pat.data s.data with
  | none => s
  | some i =>
    String.mk (s.data.take i) ++ repl ++ String.mk (s.data.drop (i + pat.data.length))

/-- JSON insignificant whitespace (`JSON.parse`): space, tab, LF, CR. -/
def isJsonWs (c : Char) : Bool :=
  c == ' ' || c == '\t' || c == '\n' || c == '\r'

/-- Skip JSON whitespace. -/
def skipWs (l : List Char) : List Char :=
  l.dropWhile isJsonWs

/-- Hexadecimal digit value. -/
def hexVal (c : Char) : Option Nat :=
  if '0' ≤ c && c ≤ '9' then some (c.toNat - 48)
  else if 'a' ≤ c && c ≤ 'f' then some (c.toNat - 87)
  else if 'A' ≤ c && c ≤ 'F' then some (c.toNat - 55)
  else none

/-- Parse the body of a JSON string literal after the opening quote, returning
the decoded characters and the input after the closing quote.  Escaped
surrogate halves decode to the scalar of the same code where valid; the
verified inputs contain none. -/
def pStringBody : Nat → List Char → Option (List Char × List Char)
  | 0, _ => none
  | _ + 1, [] => none
  | fuel + 1, c :: t =>
    if c == '"' then some ([], t)
    else if c == '\\' then
      match t with
      | [] => none
      | e :: t2 =>
        let cont (decoded : Char) (rest : List Char) : Option (List Char × List Char) :=
          match pStringBody fuel rest with
          | some (cs, r) => some (decoded :: cs, r)
          | none => none
        if e == '"' then cont '"' t2
        else if e == '\\' then cont '\\' t2
        else if e == '/' then cont '/' t2
        else if e == 'b' then cont '\x08' t2
        else if e == 'f' then cont '\x0c' t2
        else if e == 'n' then cont '\n' t2
        else if e == 'r' then cont '\r' t2
        else if e == 't' then cont '\t' t2
        else if e == 'u' then
          match t2 with
          | h1 :: h2 :: h3 :: h4 :: t3 =>
            match hexVal h1, hexVal h2, hexVal h3, hexVal h4 with
            | some a, some b, some c2, some d =>
              cont (Char.ofNat (((a * 16 + b) * 16 + c2) * 16 + d)) t3
            | _, _, _, _ => none
          | _ => none
        else none
    else if c.toNat < 0x20 then none
    else
      match pStringBody fuel t with
      | some (cs, r) => some (c :: cs, r)
      | none => none

/-- Parse a JSON number (strict JSON grammar: optional minus, integer part
without leading zeros, optional fraction with at least one digit, optional
exponent with at least one digit). -/
def pNumber (l : List Char) : Option (JNum × List Char) :=
  let (neg, l1) :=
    match l with
    | '-' :: t => (true, t)
    | t => (false, t)
  let intPart : Option (List Char × List Char) :=
    match l1 with
    | '0' :: t => some (['0'], t)
    | c :: t =>
      if '1' ≤ c && c ≤ '9' then some (c :: t.takeWhile Char.isDigit, t.dropWhile Char.isDigit)
      else none
    | [] => none
  match intPart with
  | none => none
  | some (d1, r1) =>
    let fracPart : Option (List Char × List Char) :=
      match r1 with
      | '.' :: t =>
        let d2 := t.takeWhile Char.isDigit
        if d2.isEmpty then none else some (d2, t.dropWhile Char.isDigit)
      | t => some ([], t)
    match fracPart with
    | none => none
    | some (d2, r2) =>
      let expPart : Option (Int × List Char) :=
        match r2 with
        | c :: t =>
          if c == 'e' || c == 'E' then
            let (eneg, t2) :=
              match t with
              | '-' :: u => (true, u)
              | '+' :: u => (false, u)
              | u => (false, u)
            let ed := t2.takeWhile Char.isDigit
            if ed.isEmpty then none
            else some ((if eneg then -(digitsVal ed : Int) else (digitsVal ed : Int)),
              t2.dropWhile Char.isDigit)
          else some (0, c :: t)
        | [] => some (0, [])
      match expPart with
      | none => none
      | some (e, r3) =>
        let mabs : Int := (digitsVal d1 * 10 ^ d2.length + digitsVal d2 : Nat)
        let m : Int := if neg then -mabs else mabs
        some (.fin (ratScaled m (e - d2.length)), r3)

mutual

/-- Parse one JSON value (after leading whitespace has been skipped). -/
def pVal : Nat → List Char → Option (JSVal × List Char)
  | 0, _ => none
  | _ + 1, [] => none
  | fuel + 1, c :: t =>
    if c == 't' then
      if ['r', 'u', 'e'].isPrefixOf t then some (.vbool true, t.drop 3) else none
    else if c == 'f' then
      if ['a', 'l', 's', 'e'].isPrefixOf t then some (.vbool false, t.drop 4) else none
    else if c == 'n' then
      if ['u', 'l', 'l'].isPrefixOf t then some (.vnull, t.drop 3) else none
    else if c == '"' then
      match pStringBody (t.length + 1) t with
      | some (cs, r) => some (.vstr (String.mk cs), r)
      | none => none
    else if c == '[' then
      match skipWs t with
      | ']' :: r => some (.varr [], r)
      | t2 => pArrItems fuel t2
    else if c == '\x7b' then
      match skipWs t with
      | '\x7d' :: r => some (.vobj [], r)
      | t2 => pObjItems fuel [] t2
    else
      match pNumber (c :: t) with
      | some (n, r) => some (.vnum n, r)
      | none => none

/-- Parse the remaining items of a non-empty JSON array. -/
def pArrItems : Nat → List Char → Option (JSVal × List Char)
  | 0, _ => none
  | fuel + 1, l =>
    match pVal fuel l with
    | none => none
    | some (v, r) =>
      match skipWs r with
      | ',' :: r2 =>
        match pArrItems fuel (skipWs r2) with
        | some (.varr vs, r3) => some (.varr (v :: vs), r3)
        | _ => none
      | ']' :: r2 => some (.varr [v], r2)
      | _ => none

/-- Parse the remaining members of a non-empty JSON object.  A repeated key
overwrites the value kept under the first occurrence of that key, as in
JavaScript. -/
def pObjItems : Nat → List (String × JSVal) → List Char → Option (JSVal × List Char)
  | 0, _, _ => none
  | fuel + 1, acc, l =>
    match l with
    | '"' :: t =>
      match pStringBody (t.length + 1) t with
      | none => none
      | some (cs, r) =>
        match skipWs r with
        | ':' :: r2 =>
          match pVal fuel (skipWs r2) with
          | none => none
          | some (v, r3) =>
            let acc2 := setKey acc (String.mk cs) v
            match skipWs r3 with
            | ',' :: r4 => pObjItems fuel acc2 (skipWs r4)
            | '\x7d' :: r4 => some (.vobj acc2, r4)
            | _ => none
        | _ => none
    | _ => none

end

/-- `JSON.parse`: parse a complete JSON text (with surrounding whitespace),
`none` models a thrown `SyntaxError`. -/
def jsonParse (s : String) : Option JSVal :=
  match pVal (s.data.length + 1) (skipWs s.data) with
  | some (v, rest) => if (skipWs rest).isEmpty then some v else none
  | none => none

/-- JSON string escaping used by `JSON.stringify`. -/
def jsonQuoteChar (c : Char) : List Char :=
  if c == '"' then ['\\', '"']
  else if c == '\\' then ['\\', '\\']
  else if c == '\x08' then ['\\', 'b']
  else if c == '\x0c' then ['\\', 'f']
  else if c == '\n' then ['\\', 'n']
  else if c == '\r' then ['\\', 'r']
  else if c == '\t' then ['\\', 't']
  else if c.toNat < 0x20 then
    let lo := c.toNat % 16
    let hi := c.toNat / 16
    ['\\', 'u', '0', '0', Char.ofNat (if hi < 10 then 48 + hi else 87 + hi),
      Char.ofNat (if lo < 10 then 48 + lo else 87 + lo)]
  else [c]

/-- Quoted JSON string literal for `s`. -/
def jsonQuote (s : String) : String :=
  "\"" ++ String.mk (s.data.flatMap jsonQuoteChar) ++ "\""

/-- Indentation of `JSON.stringify(v, null, 2)` at nesting depth `ind`. -/
def gap2 (ind : Nat) : String :=
  String.mk (List.replicate (2 * ind) ' ')

mutual

/-- `JSON.stringify(v, null, 2)` at nesting depth `ind`; `none` models the
`undefined` result (an `undefined` value, which is dropped inside objects and
rendered `null` inside arrays). -/
def jsonStringify (ind : Nat) : JSVal → Option String
  | .vundef => none
  | .vnull => some "null"
  | .vbool b => some (cond b "true" "false")
  | .vnum (.fin q) => some (jnumToString (.fin q))
  | .vnum (.inf _) => some "null"
  | .vstr s => some (jsonQuote s)
  | .varr xs =>
    let items := jsonStringifyArr ind xs
    some (if items.isEmpty then "[]"
      else "[\n" ++ String.intercalate ",\n" (items.map (fun it => gap2 (ind + 1) ++ it))
        ++ "\n" ++ gap2 ind ++ "]")
  | .vobj fs =>
    let pairs := jsonStringifyObj ind fs
    let items := (ownOrder pairs).filterMap
      (fun kv => kv.snd.map (fun s => jsonQuote kv.fst ++ ": " ++ s))
    some (if items.isEmpty then "\x7b\x7d"
      else "\x7b\n" ++ String.intercalate ",\n" (items.map (fun it => gap2 (ind + 1) ++ it))
        ++ "\n" ++ gap2 ind ++ "\x7d")

/-- Serialized array elements (an `undefined` element renders as `null`). -/
def jsonStringifyArr (ind : Nat) : List JSVal → List String
  | [] => []
  | x :: t =>
    (match jsonStringify (ind + 1) x with
     | some s => s
     | none => "null") :: jsonStringifyArr ind t

/-- Serialized object members in insertion order, prior to enumeration-order
sorting (members with `undefined` values carry `none` and are omitted). -/
def jsonStringifyObj (ind : Nat) : List (String × JSVal) → List (String × Option String)
  | [] => []
  | (k, v) :: t => (k, jsonStringify (ind + 1) v) :: jsonStringifyObj ind t

end

/-- `JSON.stringify(v, null, 2)` as used on sanitized payloads (always defined
there: the payloads come from `JSON.parse`, so they are never `undefined`). -/
def jsonStringifyTop (v : JSVal) : String :=
  (jsonStringify 0 v).getD "undefined"

/-! ## Embedding of `sanitizeGraphData` (route.ts lines 65-238) -/

/-- Gate of the key-renaming step of the general sanitization pass (route.ts
lines 181-182): keys `x`/`y` of a scatter chart and the category, `label` and
`value` keys are never renamed. -/
def renameGateB (gt ck k : String) : Bool :=
  ((gt != "scatter") || ((k != "x") && (k != "y"))) &&
    (k != ck) && (k != "label") && (k != "value")

/-- The key actually stored for an incoming key `k` by the general pass: the
slug-sanitized key when the rename gate and the `/[\s.\-]+/` test allow it,
otherwise `k` itself (route.ts lines 180-191). -/
def currentKeyOf (gt ck k : String) : String :=
  if renameGateB gt ck k && hasSpecials k then slugKey k else k

/-- Is the (possibly renamed) key one whose values are expected to be numeric
(route.ts lines 194-197)? -/
def isPotNumKeyB (gt ck k2 : String) : Bool :=
  (gt == "pie" && k2 == "value") ||
  (gt == "scatter" && (k2 == "x" || k2 == "y")) ||
  ((gt != "pie") && (gt != "scatter") && (k2 != ck) && (k2 != "label"))

/-- Coerce a numeric-looking string to a number when `b` holds (route.ts
lines 199-201): `typeof value === 'string' && !isNaN(parseFloat(value))`. -/
def coerceNumeric (b : Bool) (v : JSVal) : JSVal :=
  if b then
    match v with
    | .vstr s =>
      match jsParseFloat s with
      | some n => .vnum n
      | none => v
    | _ => v
  else v

/-- One iteration of the `for (const key in dataPoint)` loop of the general
pass (route.ts lines 180-203): store the entry under its (possibly
slug-sanitized) key with its (possibly coerced) value, and record whether the
key was renamed. -/
def pointStep (gt ck : String) (acc : List (String × JSVal) × Bool)
    (kv : String × JSVal) : List (String × JSVal) × Bool :=
  let k2 := currentKeyOf gt ck kv.fst
  (setKey acc.fst k2 (coerceNumeric (isPotNumKeyB gt ck k2) kv.snd),
    acc.snd || (k2 != kv.fst))

/-- Body of the `for (const key in dataPoint)` loop of the general pass: build
the new data point by property assignment, tracking whether any key was
renamed (route.ts lines 171-204). -/
def sanitizePointFold (gt ck : String) (entries : List (String × JSVal)) :
    List (String × JSVal) × Bool :=
  entries.foldl (pointStep gt ck) ([], false)

/-- General sanitization of one data point (route.ts lines 168-209):
non-object points pass through; object points are rebuilt with sanitized keys
and coerced values.  The flag reports `keysSanitizedInPoint`. -/
def sanitizePoint (gt ck : String) (dp : JSVal) : JSVal × Bool :=
  if notNullObject dp then
    let r := sanitizePointFold gt ck (jsOwnEntries dp)
    (.vobj r.fst, r.snd)
  else (dp, false)

/-- The general pass over the whole data array, also reporting whether any
point had a key sanitized (which is what ends up deciding the note for
non-scatter charts, route.ts lines 206-208). -/
def sanitizeDataGeneral (gt ck : String) (pts : List JSVal) : List JSVal × Bool :=
  let rs := pts.map (sanitizePoint gt ck)
  (rs.map Prod.fst, rs.any Prod.snd)

/-- Category key determination for non-scatter charts (route.ts lines
156-165): `name` for pie charts, `name` when the first point has it, else the
first string-valued key of the first point, else the empty string. -/
def categoryKeyOf (gt : String) (fp : JSVal) : String :=
  if gt == "pie" then "name"
  else if hasOwnP fp "name" then "name"
  else
    match (jsOwnKeys fp).find? (fun k => isStrB (jsGet fp k)) with
    | some k => k
    | none => ""

/-- Message attached when non-scatter keys are slug-sanitized (route.ts
line 207). -/
def keysSanitizedMsg : String :=
  "Keys sanitized (e.g., spaces replaced with underscores)."

/-- Left-to-right effectful map over a list (the body of
`options.chartConfig.map` with a possibly-throwing body). -/
def exceptMapList (f : JSVal → Except Unit JSVal) : List JSVal → Except Unit (List JSVal)
  | [] => .ok []
  | x :: t =>
    match f x with
    | .error e => .error e
    | .ok y =>
      match exceptMapList f t with
      | .error e => .error e
      | .ok ys => .ok (y :: ys)

/-- The per-config body of the chartConfig remap (route.ts lines 222-234):
a truthy `dataKey` whose string coercion contains specials is slug-sanitized
when the sanitized key exists in the first final data point; reading
`dataKey` on a nullish config or calling `replace` on a truthy non-string
`dataKey` throws. -/
def remapConfig (finalData : List JSVal) (cfg : JSVal) : Except Unit JSVal :=
  match cfg with
  | .vnull => .error ()
  | .vundef => .error ()
  | c =>
    let dk := jsGet c "dataKey"
    if jsTruthy dk && hasSpecials (jsToString dk) then
      match dk with
      | .vstr s =>
        let sk := slugKey s
        if hasOwnP (finalData.headD .vundef) sk then
          match c with
          | .vobj cfs => .ok (.vobj (setKey cfs "dataKey" (.vstr sk)))
          | _ => .ok c
        else .ok c
      | _ => .error ()
    else .ok c

/-- The note write of `sanitizeGraphData` (route.ts lines 212-217): assigning
`options.note` on a truthy non-object `options` throws `TypeError` in strict
mode and is modelled as `.error`; a falsy `options` is replaced by a fresh
`\x7b note \x7d` object. -/
def writeNote (g : JSVal) (note : String) : Except Unit JSVal :=
  if note != "" then
    let ov := jsGet g "options"
    if !(jsTruthy ov) then
      .ok (jsSet g "options" (.vobj [("note", .vstr (jsTrim note))]))
    else
      match ov with
      | .vobj ofs => .ok (jsSet g "options" (.vobj (setKey ofs "note" (.vstr (jsTrim note)))))
      | _ => .error ()
  else .ok g

/-- The test `graphData.options?.note?.includes('Keys sanitized')` (route.ts
line 219): `false` when a link is nullish, a throw when `note` is a truthy
non-string. -/
def noteIncludesTest (ov : JSVal) : Except Unit Bool :=
  match ov with
  | .vnull => .ok false
  | .vundef => .ok false
  | w =>
    match jsGet w "note" with
    | .vnull => .ok false
    | .vundef => .ok false
    | .vstr ns => .ok (containsSub ns "Keys sanitized")
    | _ => .error ()

/-- Note writing and chartConfig remapping at the end of `sanitizeGraphData`
(route.ts lines 212-237), followed by the final spread
`return \x7b ...graphData, data: finalSanitizedData \x7d`. -/
def applyNoteAndConfig (g : JSVal) (note : String) (finalData : List JSVal) :
    Except Unit JSVal :=
  match writeNote g note with
  | .error e => .error e
  | .ok g1 =>
    let ov := jsGet g1 "options"
    match noteIncludesTest ov with
    | .error e => .error e
    | .ok cond =>
      match (if cond then optChain1 ov "chartConfig" else .vundef) with
      | .varr cfgs =>
        match exceptMapList (remapConfig finalData) cfgs with
        | .error e => .error e
        | .ok cfgs2 =>
          match ov with
          | .vobj ofs =>
            .ok (jsSet (jsSet g1 "options" (.vobj (setKey ofs "chartConfig" (.varr cfgs2))))
              "data" (.varr finalData))
          | _ => .ok (jsSet g1 "data" (.varr finalData))
      | _ => .ok (jsSet g1 "data" (.varr finalData))

/-- Source keys feeding the scatter `x`/`y` axes (route.ts lines 87-115):
first the `options.xAxis.name`/`options.yAxis.name` hints when the first
point has such a property, then the first two numeric-valued keys of the
first point. -/
def scatterSources (g fp : JSVal) : Option JSVal × Option JSVal :=
  let xh := optChain2 (jsGet g "options") "xAxis" "name"
  let yh := optChain2 (jsGet g "options") "yAxis" "name"
  let xs0 : Option JSVal :=
    if jsTruthy xh && hasOwnP fp (jsToString xh) then some xh else none
  let ys0 : Option JSVal :=
    if jsTruthy yh && hasOwnP fp (jsToString yh) then some yh else none
  if xs0.isNone || ys0.isNone then
    let nk := (jsOwnKeys fp).filter (fun k => isNumB (jsGet fp k))
    let xs1 : Option JSVal :=
      match xs0 with
      | some v => some v
      | none => (nk.get? 0).map .vstr
    let ys1 : Option JSVal :=
      match ys0 with
      | some v => some v
      | none =>
        match nk.get? 1 with
        | some k1 =>
          if (match xs1 with
              | some xv => !(strictEqSV k1 xv)
              | none => true) then
            some (.vstr k1)
          else none
        | none => none
    (xs1, ys1)
  else (xs0, ys0)

/-- Remap one scatter data point to canonical `x`/`y` keys (route.ts lines
123-149).  The flag records whether some other key was slug-sanitized. -/
def scatterMapPoint (xsrc ysrc : JSVal) (dp : JSVal) : JSVal × Bool :=
  if notNullObject dp then
    let xv := coerceNumeric true (jsGet dp (jsToString xsrc))
    let yv := coerceNumeric true (jsGet dp (jsToString ysrc))
    let r := (jsOwnEntries dp).foldl
      (fun acc kv =>
        if !(strictEqSV kv.fst xsrc) && !(strictEqSV kv.fst ysrc) then
          let sok := slugKey kv.fst
          (setKey acc.fst sok kv.snd, acc.snd || (sok != kv.fst))
        else acc)
      ([("x", xv), ("y", yv)], false)
    (.vobj r.fst, r.snd)
  else (dp, false)

/-- Scatter remapping over the whole data array. -/
def scatterMapPoints (xsrc ysrc : JSVal) (pts : List JSVal) : List JSVal × Bool :=
  let rs := pts.map (scatterMapPoint xsrc ysrc)
  (rs.map Prod.fst, rs.any Prod.snd)

/-- Note produced by scatter key mapping (route.ts lines 143-150). -/
def scatterNote (xsrc ysrc : JSVal) (otherFlag : Bool) : String :=
  "Keys mapped: \x27" ++ jsToString xsrc ++ "\x27 -> \x27x\x27, \x27" ++
    jsToString ysrc ++ "\x27 -> \x27y\x27." ++
    (if otherFlag then " Other keys sanitized (e.g., spaces replaced with underscores)." else "")

/-- Axis label fixup of route.ts lines 153-154: when the current
`options.xAxis.name` is the generic `X` (`Y` for the y axis) and a hint
existed, the hint is written back. -/
def axisNameFixup (g : JSVal) (axis generic : String) (hint : JSVal) : JSVal :=
  if strictEqSV generic (optChain2 (jsGet g "options") axis "name") && jsTruthy hint then
    match jsGet g "options" with
    | .vobj ofs =>
      match findVal ofs axis with
      | .vobj afs =>
        jsSet g "options" (.vobj (setKey ofs axis (.vobj (setKey afs "name" hint))))
      | _ => g
    | _ => g
  else g

/-- Scatter branch of `sanitizeGraphData` (route.ts lines 85-155 followed by
the general pass and the note/chartConfig epilogue). -/
def sanitizeScatter (g : JSVal) (gt : String) (fp : JSVal) (dataArray : List JSVal) :
    Except Unit JSVal :=
  let xh := optChain2 (jsGet g "options") "xAxis" "name"
  let yh := optChain2 (jsGet g "options") "yAxis" "name"
  match scatterSources g fp with
  | (some xsrc, some ysrc) =>
    let mappedR := scatterMapPoints xsrc ysrc dataArray
    let note := scatterNote xsrc ysrc mappedR.snd
    let g1 := axisNameFixup (axisNameFixup g "xAxis" "X" xh) "yAxis" "Y" yh
    let finalData := (sanitizeDataGeneral gt "" mappedR.fst).fst
    applyNoteAndConfig g1 note finalData
  | _ =>
    -- source keys could not be identified: mapping is skipped, the general
    -- pass still runs (with the empty category key), and no note is written
    let finalData := (sanitizeDataGeneral gt "" dataArray).fst
    applyNoteAndConfig g "" finalData

/-- Non-scatter branch of `sanitizeGraphData`: category key determination,
general pass, note for sanitized keys, epilogue. -/
def sanitizeNonScatter (g : JSVal) (gt : String) (fp : JSVal) (dataArray : List JSVal) :
    Except Unit JSVal :=
  let ck := categoryKeyOf gt fp
  let r := sanitizeDataGeneral gt ck dataArray
  let note := if r.snd && (gt != "scatter") then keysSanitizedMsg else ""
  applyNoteAndConfig g note r.fst

/-- `sanitizeGraphData` (route.ts lines 65-238).  `.error ()` models a thrown
`TypeError` (for example `graphData.type.toLowerCase()` on a truthy
non-string `type`, or strict-mode property assignment on a primitive
`options`); inside `processAndEnsureDataFormatting` such a throw is caught
and the original content is returned. -/
def sanitizeGraphData (g : JSVal) : Except Unit JSVal :=
  if !(jsTruthy g) || !(typeofObject g) || !(jsTruthy (jsGet g "type")) ||
      !(isArrB (jsGet g "data")) then
    .ok g
  else
    match jsGet g "type" with
    | .vstr tys =>
      let gt := tys.toLower
      match jsGet g "data" with
      | .varr dataArray =>
        match dataArray with
        | [] => .ok g
        | fp :: _ =>
          if !(notNullObject fp) then .ok g
          else if gt == "scatter" then sanitizeScatter g gt fp dataArray
          else sanitizeNonScatter g gt fp dataArray
      | _ => .ok g
    | _ => .error ()

/-! ## Embedding of `sanitizeTableData` (route.ts lines 243-277) -/

/-- Note attached when table rows had to be corrected (route.ts line 273). -/
def tableNoteMsg : String :=
  "Table rows were corrected for consistency."

/-- Row repair of `sanitizeTableData`: a non-array row becomes an all-null row
of header length; an array row of the wrong length is truncated and padded
with nulls; a row of the right length is returned unchanged. -/
def fixTableRow (hc : Nat) (r : JSVal) : JSVal :=
  match r with
  | .varr cells =>
    if cells.length == hc then r
    else .varr (cells.take hc ++ List.replicate (hc - cells.length) .vnull)
  | _ => .varr (List.replicate hc .vnull)

/-- Did a row need no correction? -/
def rowOkB (hc : Nat) (r : JSVal) : Bool :=
  match r with
  | .varr cells => cells.length == hc
  | _ => false

/-- `sanitizeTableData` (route.ts lines 243-277).  `.error ()` models the
strict-mode `TypeError` thrown by `tableData.options.note = ...` when
`options` is a truthy primitive. -/
def sanitizeTableData (t : JSVal) : Except Unit JSVal :=
  if !(jsTruthy t) || !(typeofObject t) || !(isArrB (jsGet t "headers")) ||
      !(isArrB (jsGet t "rows")) then
    .ok t
  else
    match jsGet t "headers", jsGet t "rows" with
    | .varr hs, .varr rows =>
      let hc := hs.length
      let fixed := rows.map (fixTableRow hc)
      let issues := rows.any (fun r => !(rowOkB hc r))
      if issues && !(jsTruthy (optChain1 (jsGet t "options") "note")) then
        let ov := jsGet t "options"
        if !(jsTruthy ov) then
          .ok (jsSet (jsSet t "options" (.vobj [("note", .vstr tableNoteMsg)]))
            "rows" (.varr fixed))
        else
          match ov with
          | .vobj ofs =>
            .ok (jsSet (jsSet t "options" (.vobj (setKey ofs "note" (.vstr tableNoteMsg))))
              "rows" (.varr fixed))
          | _ => .error ()
      else .ok (jsSet t "rows" (.varr fixed))
    | _, _ => .ok t

/-! ## Embedding of `processAndEnsureDataFormatting` (route.ts lines 283-362) -/

/-- Dollar-sequence expansion performed by `String.prototype.replace` on a
replacement string (one capture group): `$$`, the whole match, the preceding
and following portions, and the first capture group; other sequences stay
literal. -/
def dollarSubst (repl : List Char) (matched pre post cap1 : String) : String :=
  match repl with
  | [] => ""
  | [c] => if c == '$' then "$" else String.mk [c]
  | c :: d :: t2 =>
    if c == '$' then
      if d == '$' then "$" ++ dollarSubst t2 matched pre post cap1
      else if d == '&' then matched ++ dollarSubst t2 matched pre post cap1
      else if d == '\x60' then pre ++ dollarSubst t2 matched pre post cap1
      else if d == '\x27' then post ++ dollarSubst t2 matched pre post cap1
      else if d == '1' then cap1 ++ dollarSubst t2 matched pre post cap1
      else String.mk [c] ++ dollarSubst (d :: t2) matched pre post cap1
    else String.mk [c] ++ dollarSubst (d :: t2) matched pre post cap1

/-- Line terminator characters recognised by the `m` regex flag. -/
def isLineTerm (c : Char) : Bool :=
  c == '\n' || c == '\r' || c.toNat == 0x2028 || c.toNat == 0x2029

/-- Can a match of `^\s*` end right before position `a` (is `a` preceded only
by whitespace since some line start)? -/
def qualifiesStart (l : List Char) (a : Nat) : Bool :=
  let back := (l.take a).reverse.takeWhile isJsWhitespaceChar
  back.length == a || back.any isLineTerm

/-- Can `\s*$` (multiline) match starting at position `e`? -/
def qualifiesEnd (l : List Char) (e : Nat) : Bool :=
  let run := (l.drop e).takeWhile isJsWhitespaceChar
  ((l.drop e).drop run.length).isEmpty || run.any isLineTerm

/-- Quoted key names whose presence the unmarked-JSON heuristic requires
inside an object literal (route.ts line 317). -/
def braceKeywords : List String :=
  ["\"type\"", "\"data\"", "\"options\"", "\"title\"", "\"headers\"", "\"rows\""]

/-- Quoted key names required inside an array literal. -/
def bracketKeywords : List String :=
  ["\"name\"", "\"value\"", "\"x\"", "\"y\"", "\"label\""]

/-- Candidate literals at one start position for one bracket pair, shortest
first (lazy quantifier), keyword-filtered. -/
def candidatesAt (l : List Char) (a : Nat) (op cl : Char) (kws : List String) :
    List String :=
  if l.getD a ' ' == op && qualifiesStart l a then
    (List.range (l.length + 1)).filterMap (fun e =>
      if a + 2 ≤ e && l.getD (e - 1) ' ' == cl && qualifiesEnd l e then
        let sl := String.mk ((l.drop a).take (e - a))
        if kws.any (fun kw => containsSub sl kw) then some sl else none
      else none)
  else []

/-- All candidate literals of the unmarked-JSON scan, in match order (start
position ascending, object alternative before array alternative, shortest
extension first).  This models the candidate enumeration of the global regex
of route.ts line 317; overlap suppression between successive `exec` calls is
not modelled (it affects none of the verified properties, which all concern
inputs carrying explicit markers). -/
def unmarkedCandidates (content : String) : List String :=
  let l := content.data
  (List.range l.length).flatMap (fun a =>
    candidatesAt l a '\x7b' '\x7d' braceKeywords ++
      candidatesAt l a '[' ']' bracketKeywords)

/-- First candidate that parses as JSON with a graph or table shape (route.ts
lines 322-338); the Bool is true for a graph shape. -/
def findUnmarkedBlock (content : String) : Option (JSVal × String × Bool) :=
  (unmarkedCandidates content).findSome? (fun sl =>
    let js := jsTrim sl
    match jsonParse js with
    | none => none
    | some parsed =>
      if jsTruthy parsed && typeofObject parsed then
        if jsTruthy (jsGet parsed "type") && jsTruthy (jsGet parsed "data") &&
            isArrB (jsGet parsed "data") then
          some (parsed, js, true)
        else if jsTruthy (jsGet parsed "headers") && jsTruthy (jsGet parsed "rows") &&
            isArrB (jsGet parsed "headers") && isArrB (jsGet parsed "rows") then
          some (parsed, js, false)
        else none
      else none)

/-- `processAndEnsureDataFormatting` (route.ts lines 283-362): rewrite the
first graph marker if present, else the first table marker, else search for
an unmarked JSON block; all parse and sanitization failures are caught and
return the original content, so the function is total and never throws to
its caller. -/
def processAndEnsureDataFormatting (content : String) : String :=
  match findMarker "<!--GRAPH_DATA:" content with
  | some (pre, cap, post) =>
    match jsonParse (jsTrim cap) with
    | none => content
    | some gd =>
      match sanitizeGraphData gd with
      | .error _ => content
      | .ok gd2 =>
        let repl := "<!--GRAPH_DATA:" ++ jsonStringifyTop gd2 ++ "-->"
        pre ++ dollarSubst repl.data ("<!--GRAPH_DATA:" ++ cap ++ "-->") pre post cap ++ post
  | none =>
    match findMarker "<!--TABLE_DATA:" content with
    | some (pre, cap, post) =>
      match jsonParse (jsTrim cap) with
      | none => content
      | some td =>
        match sanitizeTableData td with
        | .error _ => content
        | .ok td2 =>
          let repl := "<!--TABLE_DATA:" ++ jsonStringifyTop td2 ++ "-->"
          pre ++ dollarSubst repl.data ("<!--TABLE_DATA:" ++ cap ++ "-->") pre post cap ++ post
    | none =>
      match findUnmarkedBlock content with
      | none => content
      | some (parsed, orig, isGraph) =>
        let sanitized : Except Unit JSVal :=
          if isGraph then sanitizeGraphData parsed else sanitizeTableData parsed
        match sanitized with
        | .error _ => content
        | .ok d2 =>
          let marker := if isGraph then "<!--GRAPH_DATA:" else "<!--TABLE_DATA:"
          jsTrim (replaceFirstPlain content orig "") ++
            "\n\n" ++ marker ++ jsonStringifyTop d2 ++ "-->"

/-! ## Embedding of `extractPdfContent` (route.ts lines 13-57) -/

/-- `extractPdfContent`, modelled on the cache-miss path as a function of the
imported `pdf-content.json` value (the module-level cache only short-circuits
recomputation of the same result and never changes it).  A missing or
non-string `content` key throws, is caught, and is re-thrown wrapped in the
user-facing message; an empty string `content` only triggers a
`console.warn` and is returned as the context. -/
def extractPdfContent (pdfData : JSVal) : Except String String :=
  match jsGet pdfData "content" with
  | .vstr content => .ok content
  | _ =>
    .error ("Failed to load required PDF context from pre-generated data: " ++
      "Pre-extracted PDF content is invalid or missing \x27content\x27 key.")

/-! ## Embedding of the POST input validation (route.ts lines 371-382) -/

/-- Outcome of the input-validation prefix of the POST handler, before any
contact with the PDF context loader or the upstream LLM. -/
inductive PostValidation where
  | badRequest (error details : String)
  | internalError
  | proceed
deriving DecidableEq, Repr

/-- HTTP status of an early response (`0` marks `proceed`: no early
response). -/
def postStatus : PostValidation → Nat
  | .badRequest _ _ => 400
  | .internalError => 500
  | .proceed => 0

/-- The validation prefix of the POST handler (route.ts lines 371-382): a
missing, non-array or empty `messages` yields the 400 `Invalid request body`
response; reading `.role` on a `null` (or `undefined`) last entry throws a
`TypeError` that the handler's catch-all turns into the 500
`Internal Server Error` response; any other last entry whose `role` is not
strictly `user` yields the 400 `Invalid message sequence` response; otherwise
validation passes and the handler proceeds (PDF context, upstream call). -/
def validateMessages (messages : JSVal) : PostValidation :=
  match messages with
  | .varr (m0 :: ms) =>
    let lm := (m0 :: ms).getLast?.getD .vundef
    match lm with
    | .vnull => .internalError
    | .vundef => .internalError
    | w =>
      if strictEqSV "user" (jsGet w "role") then .proceed
      else .badRequest "Invalid message sequence" "Last message must be from user"
  | _ => .badRequest "Invalid request body" "Missing or invalid messages array"

/-! ## Embedding of the client-side marker extraction
(Chatbot.tsx, `callChatApi`, lines 254-292) -/

/-- Result of the client-side extraction: the optional graph payload, the
optional table payload, and the final message content. -/
structure ClientParsed where
  graphData : Option JSVal
  tableData : Option JSVal
  content : String
deriving Repr

/-- Table-marker extraction (Chatbot.tsx lines 272-285), reached only when no
graph payload was extracted. -/
def clientParseTable (content : String) : Option JSVal × String :=
  match findMarker "<!--TABLE_DATA:" content with
  | some (pre, cap, post) =>
    match jsonParse cap with
    | some td =>
      if jsTruthy (jsGet td "headers") && isArrB (jsGet td "headers") &&
          jsTruthy (jsGet td "rows") && isArrB (jsGet td "rows") then
        (some td, jsTrim (pre ++ post))
      else (none, content)
    | none => (none, content)
  | none => (none, content)

/-- The no-graph path of `callChatApiExtract`: no graph payload, table
extraction attempted on the unmodified content, final trim applied. -/
def clientNoGraph (content0 : String) : ClientParsed :=
  ⟨none, (clientParseTable content0).fst, jsTrim (clientParseTable content0).snd⟩

/-- The data-extraction part of `callChatApi` (Chatbot.tsx lines 254-292): at
most one payload is attached, the graph marker is tried first, and the table
marker is parsed only when no graph payload was extracted; the final message
content is trimmed. -/
def callChatApiExtract (content0 : String) : ClientParsed :=
  match findMarker "<!--GRAPH_DATA:" content0 with
  | some (pre, cap, post) =>
    match jsonParse cap with
    | some gd =>
      if jsTruthy (jsGet gd "type") && jsTruthy (jsGet gd "data") then
        ⟨some gd, none, jsTrim (jsTrim (pre ++ post))⟩
      else clientNoGraph content0
    | none => clientNoGraph content0
  | none => clientNoGraph content0

/-! ## Basic lemmas about association lists and property assignment -/

theorem beqStr_false_of_ne {k k2 : String} (h : k ≠ k2) : (k == k2) = false :=
  beq_eq_false_iff_ne.mpr h

theorem findVal_setKey_self (fs : List (String × JSVal)) (k : String) (v : JSVal) :
    findVal (setKey fs k v) k = v := by
  induction fs with
  | nil => simp [setKey, findVal]
  | cons hd t ih =>
    obtain ⟨k0, v0⟩ := hd
    by_cases hk : k0 = k
    · subst hk
      simp [setKey, findVal]
    · simp [setKey, findVal, beqStr_false_of_ne hk, ih]

theorem findVal_setKey_ne (fs : List (String × JSVal)) (k k2 : String) (v : JSVal)
    (h : k2 ≠ k) : findVal (setKey fs k v) k2 = findVal fs k2 := by
  have hkk : (k == k2) = false := beqStr_false_of_ne (fun he => h he.symm)
  induction fs with
  | nil => simp [setKey, findVal, hkk]
  | cons hd t ih =>
    obtain ⟨k0, v0⟩ := hd
    by_cases hk : k0 = k
    · subst hk
      simp [setKey, findVal, hkk]
    · by_cases hk2 : k0 = k2
      · subst hk2
        simp [setKey, findVal, beqStr_false_of_ne hk]
      · simp [setKey, findVal, beqStr_false_of_ne hk, beqStr_false_of_ne hk2, ih]

/-- Does an association list carry a key? -/
def hasKeyB (fs : List (String × JSVal)) (k : String) : Bool :=
  fs.any (fun kv => kv.fst == k)

theorem setKey_same (fs : List (String × JSVal)) (k : String) (v : JSVal)
    (hmem : hasKeyB fs k = true) (hv : findVal fs k = v) : setKey fs k v = fs := by
  induction fs with
  | nil => simp [hasKeyB] at hmem
  | cons hd t ih =>
    obtain ⟨k0, v0⟩ := hd
    by_cases hk : k0 = k
    · subst hk
      simp only [findVal, beq_self_eq_true, if_true] at hv
      simp [setKey, hv]
    · simp only [hasKeyB, List.any_cons, Bool.or_eq_true] at hmem
      rcases hmem with hmem | hmem
      · exact absurd (by simpa using hmem) hk
      · simp only [findVal, beqStr_false_of_ne hk, Bool.false_eq_true, if_false] at hv
        simp [setKey, beqStr_false_of_ne hk, ih (by simpa [hasKeyB] using hmem) hv]

theorem hasKeyB_of_findVal_ne (fs : List (String × JSVal)) (k : String)
    (h : findVal fs k ≠ .vundef) : hasKeyB fs k = true := by
  induction fs with
  | nil => simp [findVal] at h
  | cons hd t ih =>
    obtain ⟨k0, v0⟩ := hd
    by_cases hk : k0 = k
    · simp [hasKeyB, hk]
    · simp only [findVal, beqStr_false_of_ne hk, Bool.false_eq_true, if_false] at h
      simp only [hasKeyB, List.any_cons, Bool.or_eq_true]
      exact Or.inr (by simpa [hasKeyB] using ih h)

theorem jsGet_jsSet_self (fs : List (String × JSVal)) (k : String) (v : JSVal) :
    jsGet (jsSet (.vobj fs) k v) k = v := by
  simp [jsSet, jsGet, findVal_setKey_self]

theorem jsGet_jsSet_ne (fs : List (String × JSVal)) (k k2 : String) (v : JSVal)
    (h : k2 ≠ k) : jsGet (jsSet (.vobj fs) k v) k2 = jsGet (.vobj fs) k2 := by
  simp [jsSet, jsGet, findVal_setKey_ne _ _ _ _ h]

/-! ## Claim C3 -/

/-- Claim C3: for every input text containing a graph marker (the first-match
span of the `GRAPH_DATA` regular expression) whose enclosed content does not
parse as JSON, `processAndEnsureDataFormatting` returns the original text
unchanged.  The parse failure is caught inside the function (it is total in
this model, mirroring the `try/catch` that only logs), so nothing is thrown
to the caller and no payload is produced. -/
theorem claim_C3_malformed_marker_returns_input (s p c suf : String)
    (hm : findMarker "<!--GRAPH_DATA:" s = some (p, c, suf))
    (hp : jsonParse (jsTrim c) = none) :
    processAndEnsureDataFormatting s = s := by
  simp [processAndEnsureDataFormatting, hm, hp]

/-- Witness for claim C3 at a concrete reply whose graph marker holds
non-JSON content. -/
theorem claim_C3_witness :
    processAndEnsureDataFormatting "abc <!--GRAPH_DATA: nope --> def" =
      "abc <!--GRAPH_DATA: nope --> def" :=
  claim_C3_malformed_marker_returns_input
    "abc <!--GRAPH_DATA: nope --> def" "abc " " nope " " def"
    (by with_unfolding_all rfl) (by with_unfolding_all rfl)

/-! ## Claim C10 -/

/-- Counterexample to claim C10 as stated: the payload
`\x7b"type": 5, "data": []\x7d` has an (empty) array `data` field, so the claim
promises that `sanitizeGraphData` returns it unchanged without raising; but
the code reaches `graphData.type.toLowerCase()` before the empty-data check
and throws a `TypeError` on the numeric `type`. -/
theorem claim_C10_counterexample :
    jsGet (.vobj [("type", JSVal.vnum (.fin 5)), ("data", JSVal.varr [])]) "data" =
      .varr [] ∧
    sanitizeGraphData (.vobj [("type", JSVal.vnum (.fin 5)), ("data", JSVal.varr [])]) =
      .error () ∧
    ∀ w, sanitizeGraphData (.vobj [("type", JSVal.vnum (.fin 5)), ("data", JSVal.varr [])]) ≠
      .ok w := by
  refine ⟨by with_unfolding_all rfl, by with_unfolding_all rfl, ?_⟩
  intro w h
  rw [show sanitizeGraphData (.vobj [("type", JSVal.vnum (.fin 5)), ("data", JSVal.varr [])]) =
    .error () from by with_unfolding_all rfl] at h
  cases h

/-- Claim C10, amended: `sanitizeGraphData` returns its argument unchanged
without raising when the input is not a non-null object, or lacks a truthy
`type`, or its `data` is not an array; and, provided `type` holds a string,
also when the `data` array is empty or its first element is not a non-null
object.  When `type` is truthy but not a string while `data` is an array, the
function instead throws a `TypeError` (`type.toLowerCase()`), which is the
correction the counterexample forces. -/
theorem claim_C10_amended (g : JSVal) :
    (notNullObject g = false → sanitizeGraphData g = .ok g) ∧
    (jsTruthy (jsGet g "type") = false → sanitizeGraphData g = .ok g) ∧
    (isArrB (jsGet g "data") = false → sanitizeGraphData g = .ok g) ∧
    (∀ tys, jsGet g "type" = .vstr tys → jsGet g "data" = .varr [] →
      sanitizeGraphData g = .ok g) ∧
    (∀ tys fp rest, jsGet g "type" = .vstr tys → jsGet g "data" = .varr (fp :: rest) →
      notNullObject fp = false → sanitizeGraphData g = .ok g) ∧
    (∀ fs xs, g = .vobj fs → jsTruthy (jsGet g "type") = true →
      isStrB (jsGet g "type") = false → jsGet g "data" = .varr xs →
      sanitizeGraphData g = .error ()) := by
  refine ⟨?_, ?_, ?_, ?_, ?_, ?_⟩
  · intro h
    cases g <;> simp_all [sanitizeGraphData, notNullObject, typeofObject, jsTruthy]
  · intro h
    simp [sanitizeGraphData, h]
  · intro h
    simp [sanitizeGraphData, h]
  · intro tys hty hdata
    simp only [sanitizeGraphData, hty, hdata]
    split <;> rfl
  · intro tys fp rest hty hdata hfp
    simp only [sanitizeGraphData, hty, hdata]
    split <;> simp [hfp]
  · intro fs xs hg htr hstr hdata
    subst hg
    simp only [sanitizeGraphData, hdata]
    have h1 : jsTruthy (JSVal.vobj fs) = true := rfl
    have h2 : typeofObject (JSVal.vobj fs) = true := rfl
    rw [if_neg]
    · cases hty : jsGet (JSVal.vobj fs) "type" with
      | vstr s => rw [hty] at hstr; simp [isStrB] at hstr
      | vundef => exact absurd (hty ▸ htr) (by decide)
      | vnull => exact absurd (hty ▸ htr) (by decide)
      | vbool b => rfl
      | vnum n => rfl
      | varr a => rfl
      | vobj o => rfl
    · simp [h1, h2, htr, isArrB]

/-! ## Claim C7 -/

/-- Counterexample to claim C7 as stated: the history `[null]` is a non-empty
array whose last entry does not have role `user`, so the claim promises an
HTTP 400 `InvalidRequest` envelope; but `lastMessage.role` throws a
`TypeError` on `null`, which the handler's catch-all converts into the
HTTP 500 `Internal Server Error` envelope. -/
theorem claim_C7_counterexample :
    strictEqSV "user" (jsGet .vnull "role") = false ∧
    validateMessages (.varr [.vnull]) = .internalError ∧
    postStatus (validateMessages (.varr [.vnull])) = 500 ∧
    ∀ e d, validateMessages (.varr [.vnull]) ≠ .badRequest e d := by
  refine ⟨rfl, rfl, rfl, ?_⟩
  intro e d h
  rw [show validateMessages (.varr [.vnull]) = .internalError from rfl] at h
  cases h

/-- Claim C7, amended: a missing, non-array or empty message history yields
the 400 `Invalid request body` response without contacting the upstream LLM;
a non-empty history whose last entry is `null` (or `undefined`) makes the
role read throw, surfacing as the 500 catch-all response rather than a 400;
any other last entry without strict role `user` yields the 400
`Invalid message sequence` response; and a last entry with role `user`
passes validation so that processing continues. -/
theorem claim_C7_amended (m : JSVal) :
    ((isArrB m = false ∨ m = .varr []) →
      validateMessages m = .badRequest "Invalid request body" "Missing or invalid messages array" ∧
      postStatus (validateMessages m) = 400) ∧
    (∀ ms, m = .varr ms → ms.getLast?.getD .vundef = .vnull →
      validateMessages m = .internalError ∧ postStatus (validateMessages m) = 500) ∧
    (∀ ms lm, m = .varr ms → ms.getLast?.getD .vundef = lm → lm ≠ .vnull → lm ≠ .vundef →
      strictEqSV "user" (jsGet lm "role") = false →
      validateMessages m = .badRequest "Invalid message sequence" "Last message must be from user" ∧
      postStatus (validateMessages m) = 400) ∧
    (∀ ms lm, m = .varr ms → ms.getLast?.getD .vundef = lm →
      strictEqSV "user" (jsGet lm "role") = true →
      validateMessages m = .proceed) := by
  refine ⟨?_, ?_, ?_, ?_⟩
  · rintro (h | h)
    · cases m <;> simp_all [validateMessages, isArrB, postStatus]
    · subst h
      exact ⟨by rfl, by rfl⟩
  · intro ms hm hlast
    subst hm
    cases ms with
    | nil => simp at hlast
    | cons m0 t =>
      simp only [validateMessages, hlast]
      simp [postStatus]
  · intro ms lm hm hlast hnn hnu hrole
    subst hm
    cases ms with
    | nil =>
      simp only [List.getLast?] at hlast
      exact absurd hlast.symm hnu
    | cons m0 t =>
      simp only [validateMessages, hlast]
      cases lm <;> simp_all [strictEqSV, postStatus]
  · intro ms lm hm hlast hrole
    subst hm
    cases ms with
    | nil =>
      simp only [List.getLast?] at hlast
      rw [← hlast] at hrole
      simp [jsGet, strictEqSV] at hrole
    | cons m0 t =>
      simp only [validateMessages, hlast]
      cases lm <;> simp_all [strictEqSV, jsGet]

/-- Witness for the amended claim C7 at concrete histories covering each
branch: a non-array body, a null last entry, a wrong-role last entry and a
valid last entry. -/
theorem claim_C7_witness :
    validateMessages (.vstr "x") =
      .badRequest "Invalid request body" "Missing or invalid messages array" ∧
    validateMessages (.varr [.vnull]) = .internalError ∧
    validateMessages (.varr [.vobj [("role", .vstr "assistant")]]) =
      .badRequest "Invalid message sequence" "Last message must be from user" ∧
    validateMessages (.varr [.vobj [("role", .vstr "user")]]) = .proceed :=
  ⟨((claim_C7_amended (.vstr "x")).1 (Or.inl rfl)).1,
   ((claim_C7_amended (.varr [.vnull])).2.1 [.vnull] rfl rfl).1,
   ((claim_C7_amended (.varr [.vobj [("role", .vstr "assistant")]])).2.2.1
      [.vobj [("role", .vstr "assistant")]] (.vobj [("role", .vstr "assistant")])
      rfl rfl (ne_of_beqV_false (by with_unfolding_all rfl))
      (ne_of_beqV_false (by with_unfolding_all rfl)) (by with_unfolding_all rfl)).1,
   (claim_C7_amended (.varr [.vobj [("role", .vstr "user")]])).2.2.2
      [.vobj [("role", .vstr "user")]] (.vobj [("role", .vstr "user")])
      rfl rfl (by with_unfolding_all rfl)⟩

/-! ## Claim C8 -/

/-- Counterexample to claim C8 as stated: when the pre-extracted source
yields the empty string, `extractPdfContent` only warns and returns the empty
context to the gateway instead of failing; the claim promises a failure and a
non-empty context, and both promises fail at this input. -/
theorem claim_C8_counterexample :
    extractPdfContent (.vobj [("content", .vstr "")]) = .ok "" ∧
    ∀ e, extractPdfContent (.vobj [("content", .vstr "")]) ≠ .error e := by
  refine ⟨rfl, ?_⟩
  intro e h
  rw [show extractPdfContent (.vobj [("content", .vstr "")]) = .ok "" from rfl] at h
  cases h

/-- Claim C8, amended: `extractPdfContent` fails (with the user-facing
`Failed to load required PDF context` error, surfaced by the POST catch-all
as a fatal 500 response with no retry) exactly when the pre-extracted source
is missing or not a string; a string context, including the empty string
(which only triggers a warning log), is returned to the gateway as-is. -/
theorem claim_C8_amended (d : JSVal) :
    (∀ s, jsGet d "content" = .vstr s → extractPdfContent d = .ok s) ∧
    (isStrB (jsGet d "content") = false →
      extractPdfContent d =
        .error ("Failed to load required PDF context from pre-generated data: " ++
          "Pre-extracted PDF content is invalid or missing \x27content\x27 key.")) := by
  constructor
  · intro s h
    simp [extractPdfContent, h]
  · intro h
    cases hc : jsGet d "content" <;> simp_all [extractPdfContent, isStrB]

/-- Witness for the amended claim C8: a present string context is returned
(empty included) and a missing `content` key fails. -/
theorem claim_C8_witness :
    extractPdfContent (.vobj [("content", .vstr "pdf text")]) = .ok "pdf text" ∧
    extractPdfContent (.vobj []) =
      .error ("Failed to load required PDF context from pre-generated data: " ++
        "Pre-extracted PDF content is invalid or missing \x27content\x27 key.") :=
  ⟨(claim_C8_amended (.vobj [("content", .vstr "pdf text")])).1 "pdf text" rfl,
   (claim_C8_amended (.vobj [])).2 rfl⟩

/-! ## Claims C1 and C9 -/

/-- Is the value a plain object? -/
def isObjB : JSVal → Bool
  | .vobj _ => true
  | _ => false

/-- Well-formedness of a table payload's optional `options` member per the
spec data model: absent, falsy, or an options object.  (A truthy primitive
`options` would make the strict-mode note assignment throw.) -/
def tableOptionsOk (t : JSVal) : Bool :=
  !(jsTruthy (jsGet t "options")) || isObjB (jsGet t "options")

theorem fixTableRow_length (hc : Nat) (row : JSVal) :
    ∃ cells, fixTableRow hc row = .varr cells ∧ cells.length = hc := by
  cases row with
  | varr cells =>
    by_cases h : cells.length = hc
    · exact ⟨cells, by simp [fixTableRow, h], h⟩
    · refine ⟨cells.take hc ++ List.replicate (hc - cells.length) .vnull, ?_, ?_⟩
      · simp [fixTableRow, h]
      · simp only [List.length_append, List.length_take, List.length_replicate]
        omega
  | vundef => exact ⟨_, rfl, by simp⟩
  | vnull => exact ⟨_, rfl, by simp⟩
  | vbool b => exact ⟨_, rfl, by simp⟩
  | vnum n => exact ⟨_, rfl, by simp⟩
  | vstr s => exact ⟨_, rfl, by simp⟩
  | vobj fs => exact ⟨_, rfl, by simp⟩

theorem options_vobj_of_truthy (t : JSVal) (hopt : tableOptionsOk t = true)
    (hov : jsTruthy (jsGet t "options") = true) :
    ∃ ofs, jsGet t "options" = .vobj ofs := by
  unfold tableOptionsOk at hopt
  rw [Bool.or_eq_true] at hopt
  rcases hopt with h | h
  · rw [hov] at h
    exact absurd h (by decide)
  · rcases h2 : jsGet t "options" with _ | _ | b | n | s | xs | ofs <;> rw [h2] at h <;>
      first
        | exact ⟨_, rfl⟩
        | exact absurd h (by simp [isObjB])

theorem sanitizeTableData_cases (fs : List (String × JSVal)) (hs rows : List JSVal)
    (hh : jsGet (.vobj fs) "headers" = .varr hs)
    (hr : jsGet (.vobj fs) "rows" = .varr rows)
    (hopt : tableOptionsOk (.vobj fs) = true) :
    ((rows.any (fun r => !(rowOkB hs.length r)) &&
        !(jsTruthy (optChain1 (jsGet (JSVal.vobj fs) "options") "note"))) = false ∧
      sanitizeTableData (.vobj fs) =
        .ok (jsSet (.vobj fs) "rows" (.varr (rows.map (fixTableRow hs.length))))) ∨
    ((rows.any (fun r => !(rowOkB hs.length r)) &&
        !(jsTruthy (optChain1 (jsGet (JSVal.vobj fs) "options") "note"))) = true ∧
      jsTruthy (jsGet (JSVal.vobj fs) "options") = false ∧
      sanitizeTableData (.vobj fs) =
        .ok (jsSet (jsSet (.vobj fs) "options" (.vobj [("note", .vstr tableNoteMsg)]))
          "rows" (.varr (rows.map (fixTableRow hs.length))))) ∨
    (∃ ofs, (rows.any (fun r => !(rowOkB hs.length r)) &&
        !(jsTruthy (optChain1 (jsGet (JSVal.vobj fs) "options") "note"))) = true ∧
      jsGet (JSVal.vobj fs) "options" = .vobj ofs ∧
      sanitizeTableData (.vobj fs) =
        .ok (jsSet (jsSet (.vobj fs) "options" (.vobj (setKey ofs "note" (.vstr tableNoteMsg))))
          "rows" (.varr (rows.map (fixTableRow hs.length))))) := by
  have e1 : jsTruthy (JSVal.vobj fs) = true := rfl
  have e2 : typeofObject (JSVal.vobj fs) = true := rfl
  have e3 : isArrB (JSVal.varr hs) = true := rfl
  have e4 : isArrB (JSVal.varr rows) = true := rfl
  by_cases hcond : (rows.any (fun r => !(rowOkB hs.length r)) &&
      !(jsTruthy (optChain1 (jsGet (JSVal.vobj fs) "options") "note"))) = true
  · by_cases hov : jsTruthy (jsGet (JSVal.vobj fs) "options") = true
    · obtain ⟨ofs, hofs⟩ := options_vobj_of_truthy _ hopt hov
      refine Or.inr (Or.inr ⟨ofs, hcond, hofs, ?_⟩)
      rw [hofs] at hcond
      have e5 : jsTruthy (JSVal.vobj ofs) = true := rfl
      simp only [sanitizeTableData, hh, hr, e1, e2, e3, e4, Bool.not_true, Bool.or_false,
        Bool.false_or, Bool.or_self, Bool.false_eq_true, if_false, hcond, if_true, hofs,
        e5]
    · rw [Bool.not_eq_true] at hov
      refine Or.inr (Or.inl ⟨hcond, hov, ?_⟩)
      simp only [sanitizeTableData, hh, hr, e1, e2, e3, e4, Bool.not_true, Bool.or_false,
        Bool.false_or, Bool.or_self, Bool.false_eq_true, if_false, hcond, if_true, hov,
        Bool.not_false]
  · rw [Bool.not_eq_true] at hcond
    refine Or.inl ⟨hcond, ?_⟩
    simp only [sanitizeTableData, hh, hr, e1, e2, e3, e4, Bool.not_true, Bool.or_false,
      Bool.false_or, Bool.or_self, Bool.false_eq_true, if_false, hcond]

/-- Claim C1: for every table payload (an object with an array `headers` of
length H, an array `rows`, and per the data model at most an options object)
`sanitizeTableData` succeeds and returns a payload whose every row is an
array of length exactly H; a shorter array row is null-padded at the end, a
longer one is truncated to its first H cells, a non-array row becomes an
all-null row of length H, and an exact-length row is returned unchanged.
The final conjunct checks the spec's concrete example: the table
`\x7b"headers": ["A", "B"], "rows": [["x"], [1, 2, 3]]\x7d` sanitizes to rows
`[["x", null], [1, 2]]` (with the correction note attached). -/
theorem claim_C1_rows_forced_to_header_length
    (fs : List (String × JSVal)) (hs rows : List JSVal)
    (hh : jsGet (.vobj fs) "headers" = .varr hs)
    (hr : jsGet (.vobj fs) "rows" = .varr rows)
    (hopt : tableOptionsOk (.vobj fs) = true) :
    (∃ r, sanitizeTableData (.vobj fs) = .ok r ∧
      jsGet r "rows" = .varr (rows.map (fixTableRow hs.length)) ∧
      (∀ row ∈ rows.map (fixTableRow hs.length),
        ∃ cells, row = .varr cells ∧ cells.length = hs.length)) ∧
    (∀ cells : List JSVal, cells.length < hs.length →
      fixTableRow hs.length (.varr cells) =
        .varr (cells ++ List.replicate (hs.length - cells.length) .vnull)) ∧
    (∀ cells : List JSVal, hs.length < cells.length →
      fixTableRow hs.length (.varr cells) = .varr (cells.take hs.length)) ∧
    (∀ cells : List JSVal, cells.length = hs.length →
      fixTableRow hs.length (.varr cells) = .varr cells) ∧
    (∀ row, isArrB row = false →
      fixTableRow hs.length row = .varr (List.replicate hs.length .vnull)) ∧
    sanitizeTableData (.vobj [("headers", .varr [.vstr "A", .vstr "B"]),
        ("rows", .varr [.varr [.vstr "x"],
          .varr [.vnum (.fin 1), .vnum (.fin 2), .vnum (.fin 3)]])]) =
      .ok (.vobj [("headers", .varr [.vstr "A", .vstr "B"]),
        ("rows", .varr [.varr [.vstr "x", .vnull], .varr [.vnum (.fin 1), .vnum (.fin 2)]]),
        ("options", .vobj [("note", .vstr tableNoteMsg)])]) := by
  refine ⟨?_, ?_, ?_, ?_, ?_, ?_⟩
  · have hcases := sanitizeTableData_cases fs hs rows hh hr hopt
    have hrowsfact : ∀ row ∈ rows.map (fixTableRow hs.length),
        ∃ cells, row = .varr cells ∧ cells.length = hs.length := by
      intro row hrow
      rcases List.mem_map.mp hrow with ⟨r0, _, hmap⟩
      obtain ⟨cells, hc1, hc2⟩ := fixTableRow_length hs.length r0
      exact ⟨cells, by rw [← hmap, hc1], hc2⟩
    rcases hcases with ⟨_, heq⟩ | ⟨_, _, heq⟩ | ⟨ofs, _, _, heq⟩
    · exact ⟨_, heq, by simp [jsSet, jsGet, findVal_setKey_self], hrowsfact⟩
    · exact ⟨_, heq, by simp [jsSet, jsGet, findVal_setKey_self], hrowsfact⟩
    · exact ⟨_, heq, by simp [jsSet, jsGet, findVal_setKey_self], hrowsfact⟩
  · intro cells hlt
    have hne : (cells.length == hs.length) = false := by
      simp only [beq_eq_false_iff_ne]
      omega
    simp [fixTableRow, hne, List.take_of_length_le (Nat.le_of_lt hlt)]
  · intro cells hlt
    have hne : (cells.length == hs.length) = false := by
      simp only [beq_eq_false_iff_ne]
      omega
    have hz : hs.length - cells.length = 0 := by omega
    simp [fixTableRow, hne, hz]
  · intro cells helen
    simp [fixTableRow, helen]
  · intro row hrow
    cases row <;> simp_all [fixTableRow, isArrB]
  · with_unfolding_all rfl

/-- Witness for claim C1: its concrete-example conjunct, extracted by
applying the theorem at the example payload itself. -/
theorem claim_C1_witness :
    sanitizeTableData (.vobj [("headers", .varr [.vstr "A", .vstr "B"]),
        ("rows", .varr [.varr [.vstr "x"],
          .varr [.vnum (.fin 1), .vnum (.fin 2), .vnum (.fin 3)]])]) =
      .ok (.vobj [("headers", .varr [.vstr "A", .vstr "B"]),
        ("rows", .varr [.varr [.vstr "x", .vnull], .varr [.vnum (.fin 1), .vnum (.fin 2)]]),
        ("options", .vobj [("note", .vstr tableNoteMsg)])]) :=
  (claim_C1_rows_forced_to_header_length
    [("headers", .varr [.vstr "A", .vstr "B"]),
     ("rows", .varr [.varr [.vstr "x"], .varr [.vnum (.fin 1), .vnum (.fin 2), .vnum (.fin 3)]])]
    [.vstr "A", .vstr "B"]
    [.varr [.vstr "x"], .varr [.vnum (.fin 1), .vnum (.fin 2), .vnum (.fin 3)]]
    (by with_unfolding_all rfl) (by with_unfolding_all rfl) (by rfl)).2.2.2.2.2

/-- Claim C9 (frame property of `sanitizeTableData`): on a table payload with
array `headers` and `rows` (and at most an options object, per the data
model), only the `rows` field and `options.note` can change: every other
field reads identically, `rows` becomes the repaired rows, `options` is
untouched unless a row correction occurred while `options?.note` was not
truthy (the source's `!tableData.options?.note` test, which treats an absent,
null, or empty-string note as absent), in which case the note message is
written - into a fresh options object when `options` was falsy, otherwise
into the existing options object, whose other members are preserved. -/
theorem claim_C9_only_rows_and_note_change
    (fs : List (String × JSVal)) (hs rows : List JSVal)
    (hh : jsGet (.vobj fs) "headers" = .varr hs)
    (hr : jsGet (.vobj fs) "rows" = .varr rows)
    (hopt : tableOptionsOk (.vobj fs) = true) :
    ∃ r, sanitizeTableData (.vobj fs) = .ok r ∧
      (∀ k, k ≠ "rows" → k ≠ "options" → jsGet r k = jsGet (.vobj fs) k) ∧
      jsGet r "rows" = .varr (rows.map (fixTableRow hs.length)) ∧
      ((rows.any (fun row => !(rowOkB hs.length row)) &&
          !(jsTruthy (optChain1 (jsGet (JSVal.vobj fs) "options") "note"))) = false →
        jsGet r "options" = jsGet (.vobj fs) "options") ∧
      ((rows.any (fun row => !(rowOkB hs.length row)) &&
          !(jsTruthy (optChain1 (jsGet (JSVal.vobj fs) "options") "note"))) = true →
        (jsTruthy (jsGet (.vobj fs) "options") = false →
          jsGet r "options" = .vobj [("note", .vstr tableNoteMsg)]) ∧
        (∀ ofs, jsGet (.vobj fs) "options" = .vobj ofs →
          jsGet r "options" = .vobj (setKey ofs "note" (.vstr tableNoteMsg)) ∧
          ∀ k2, k2 ≠ "note" →
            findVal (setKey ofs "note" (.vstr tableNoteMsg)) k2 = findVal ofs k2)) := by
  have hcases := sanitizeTableData_cases fs hs rows hh hr hopt
  rcases hcases with ⟨hcond, heq⟩ | ⟨hcond, hov, heq⟩ | ⟨ofs, hcond, hofs, heq⟩
  · refine ⟨_, heq, ?_, ?_, ?_, ?_⟩
    · intro k hk1 hk2
      simp [jsSet, jsGet, findVal_setKey_ne _ _ _ _ hk1]
    · simp [jsSet, jsGet, findVal_setKey_self]
    · intro _
      simp [jsSet, jsGet,
        findVal_setKey_ne _ _ _ _ (show "options" ≠ "rows" by decide)]
    · intro habs
      rw [habs] at hcond
      cases hcond
  · refine ⟨_, heq, ?_, ?_, ?_, ?_⟩
    · intro k hk1 hk2
      simp [jsSet, jsGet, findVal_setKey_ne _ _ _ _ hk1,
        findVal_setKey_ne _ _ _ _ hk2]
    · simp [jsSet, jsGet, findVal_setKey_self]
    · intro habs
      rw [hcond] at habs
      cases habs
    · intro _
      constructor
      · intro _
        simp [jsSet, jsGet,
          findVal_setKey_ne _ _ _ _ (show "options" ≠ "rows" by decide),
          findVal_setKey_self]
      · intro ofs hofs
        rw [hofs] at hov
        simp [jsTruthy] at hov
  · refine ⟨_, heq, ?_, ?_, ?_, ?_⟩
    · intro k hk1 hk2
      simp [jsSet, jsGet, findVal_setKey_ne _ _ _ _ hk1,
        findVal_setKey_ne _ _ _ _ hk2]
    · simp [jsSet, jsGet, findVal_setKey_self]
    · intro habs
      rw [hcond] at habs
      cases habs
    · intro _
      constructor
      · intro hfalsy
        rw [hofs] at hfalsy
        simp [jsTruthy] at hfalsy
      · intro ofs2 hofs2
        rw [hofs] at hofs2
        cases hofs2
        constructor
        · simp [jsSet, jsGet,
            findVal_setKey_ne _ _ _ _ (show "options" ≠ "rows" by decide),
            findVal_setKey_self]
        · intro k2 hk2
          exact findVal_setKey_ne _ _ _ _ hk2
  
/-- Witness for claim C9: a correction with no prior `options` adds exactly
the note object. -/
theorem claim_C9_witness :
    ∃ r, sanitizeTableData (.vobj [("headers", .varr [.vstr "A"]),
        ("rows", .varr [.varr []])]) = .ok r ∧
      jsGet r "headers" = .varr [.vstr "A"] ∧
      jsGet r "options" = .vobj [("note", .vstr tableNoteMsg)] := by
  obtain ⟨r, heq, hframe, _, _, hnote⟩ :=
    claim_C9_only_rows_and_note_change
      [("headers", .varr [.vstr "A"]), ("rows", .varr [.varr []])]
      [.vstr "A"] [.varr []]
      (by with_unfolding_all rfl) (by with_unfolding_all rfl) (by rfl)
  refine ⟨r, heq, ?_, ?_⟩
  · rw [hframe "headers" (by decide) (by decide)]
    with_unfolding_all rfl
  · exact (hnote (by with_unfolding_all rfl)).1 (by with_unfolding_all rfl)

/-! ## Claim C5 -/

set_option maxRecDepth 100000 in
/-- Claim C5: sanitizing the spec's scatter example (with `type: "scatter"`,
which routes it through the scatter branch) yields records exposing numeric
`x`/`y` keys equal to the original `depth`/`pressure` values; the source keys
feeding the axes are taken from the `options.xAxis.name`/`options.yAxis.name`
hints when the first record has such properties, and otherwise fall back to
the first two numeric-valued keys of the first record, as the second,
hint-free payload of the conjunction shows. -/
theorem claim_C5_scatter_axis_mapping :
    sanitizeGraphData (.vobj [("type", .vstr "scatter"),
        ("data", .varr [.vobj [("depth", .vnum (.fin 10)), ("pressure", .vnum (.fin 200))],
          .vobj [("depth", .vnum (.fin 20)), ("pressure", .vnum (.fin 400))]]),
        ("options", .vobj [("xAxis", .vobj [("name", .vstr "depth")]),
          ("yAxis", .vobj [("name", .vstr "pressure")])])]) =
      .ok (.vobj [("type", .vstr "scatter"),
        ("data", .varr [.vobj [("x", .vnum (.fin 10)), ("y", .vnum (.fin 200))],
          .vobj [("x", .vnum (.fin 20)), ("y", .vnum (.fin 400))]]),
        ("options", .vobj [("xAxis", .vobj [("name", .vstr "depth")]),
          ("yAxis", .vobj [("name", .vstr "pressure")]),
          ("note", .vstr ("Keys mapped: \x27depth\x27 -> \x27x\x27, " ++
            "\x27pressure\x27 -> \x27y\x27."))])]) ∧
    scatterSources (.vobj [("type", .vstr "scatter"),
        ("data", .varr [.vobj [("depth", .vnum (.fin 10)), ("pressure", .vnum (.fin 200))]]),
        ("options", .vobj [("xAxis", .vobj [("name", .vstr "depth")]),
          ("yAxis", .vobj [("name", .vstr "pressure")])])])
      (.vobj [("depth", .vnum (.fin 10)), ("pressure", .vnum (.fin 200))]) =
      (some (.vstr "depth"), some (.vstr "pressure")) ∧
    scatterSources (.vobj [("type", .vstr "scatter"),
        ("data", .varr [.vobj [("depth", .vnum (.fin 10)), ("pressure", .vnum (.fin 200))]])])
      (.vobj [("depth", .vnum (.fin 10)), ("pressure", .vnum (.fin 200))]) =
      (some (.vstr "depth"), some (.vstr "pressure")) ∧
    sanitizeGraphData (.vobj [("type", .vstr "scatter"),
        ("data", .varr [.vobj [("depth", .vnum (.fin 10)), ("pressure", .vnum (.fin 200))],
          .vobj [("depth", .vnum (.fin 20)), ("pressure", .vnum (.fin 400))]])]) =
      .ok (.vobj [("type", .vstr "scatter"),
        ("data", .varr [.vobj [("x", .vnum (.fin 10)), ("y", .vnum (.fin 200))],
          .vobj [("x", .vnum (.fin 20)), ("y", .vnum (.fin 400))]]),
        ("options", .vobj [("note", .vstr ("Keys mapped: \x27depth\x27 -> \x27x\x27, " ++
          "\x27pressure\x27 -> \x27y\x27."))])]) := by
  refine ⟨?_, ?_, ?_, ?_⟩ <;> with_unfolding_all rfl

/-! ## Claim C6 -/

set_option maxRecDepth 100000 in
/-- Claim C6: processing a reply carrying the pie marker
`<!--GRAPH_DATA: \x7b"type":"pie","data":[\x7b"name":"A","value":"10"\x7d]\x7d -->`
coerces the string `"10"` to the number `10` in the record's `value` field,
and the returned text carries a graph marker whose enclosed content is the
re-serialized sanitized payload - valid JSON that parses back to exactly
that payload. -/
theorem claim_C6_pie_value_coercion :
    sanitizeGraphData (.vobj [("type", .vstr "pie"),
        ("data", .varr [.vobj [("name", .vstr "A"), ("value", .vstr "10")]])]) =
      .ok (.vobj [("type", .vstr "pie"),
        ("data", .varr [.vobj [("name", .vstr "A"), ("value", .vnum (.fin 10))]])]) ∧
    processAndEnsureDataFormatting
        ("Here is the chart.\n\n<!--GRAPH_DATA: \x7b\"type\":\"pie\"," ++
          "\"data\":[\x7b\"name\":\"A\",\"value\":\"10\"\x7d]\x7d -->") =
      "Here is the chart.\n\n<!--GRAPH_DATA:" ++
        jsonStringifyTop (.vobj [("type", .vstr "pie"),
          ("data", .varr [.vobj [("name", .vstr "A"), ("value", .vnum (.fin 10))]])]) ++
        "-->" ∧
    findMarker "<!--GRAPH_DATA:"
        (processAndEnsureDataFormatting
          ("Here is the chart.\n\n<!--GRAPH_DATA: \x7b\"type\":\"pie\"," ++
            "\"data\":[\x7b\"name\":\"A\",\"value\":\"10\"\x7d]\x7d -->")) =
      some ("Here is the chart.\n\n",
        jsonStringifyTop (.vobj [("type", .vstr "pie"),
          ("data", .varr [.vobj [("name", .vstr "A"), ("value", .vnum (.fin 10))]])]),
        "") ∧
    jsonParse (jsonStringifyTop (.vobj [("type", .vstr "pie"),
        ("data", .varr [.vobj [("name", .vstr "A"), ("value", .vnum (.fin 10))]])])) =
      some (.vobj [("type", .vstr "pie"),
        ("data", .varr [.vobj [("name", .vstr "A"), ("value", .vnum (.fin 10))]])]) := by
  refine ⟨?_, ?_, ?_, ?_⟩ <;> with_unfolding_all rfl

/-! ## Claim C4 -/

theorem strMk_cons_append (c : Char) (l : List Char) :
    String.mk [c] ++ String.mk l = String.mk (c :: l) := rfl

/-- A replacement string without dollar characters is inserted literally by
`String.prototype.replace`. -/
theorem dollarSubst_no_dollar (repl : List Char) (m pre post cap : String)
    (h : ∀ ch ∈ repl, ch ≠ '$') :
    dollarSubst repl m pre post cap = String.mk repl := by
  induction repl with
  | nil => rfl
  | cons c t ih =>
    have hc : (c == '$') = false :=
      beq_eq_false_iff_ne.mpr (h c (List.mem_cons_self c t))
    cases t with
    | nil => simp [dollarSubst, hc]
    | cons d t2 =>
      have ht : ∀ x ∈ d :: t2, x ≠ '$' := fun x hx => h x (List.mem_cons_of_mem _ hx)
      simp only [dollarSubst, hc, Bool.false_eq_true, if_false, ih ht,
        strMk_cons_append]

/-- Counterexample to claim C4 as stated: a reply in which the table marker
span overlaps the graph marker span.  The text contains both a graph marker
and a table marker; the pipeline processes the graph marker, and in doing so
rewrites text inside the table marker span, so the table marker text is not
left untouched. -/
theorem claim_C4_counterexample :
    (findMarker "<!--GRAPH_DATA:"
      "<!--TABLE_DATA: <!--GRAPH_DATA: \x7b\"a\":1\x7d --> -->").isSome = true ∧
    findMarker "<!--TABLE_DATA:"
        "<!--TABLE_DATA: <!--GRAPH_DATA: \x7b\"a\":1\x7d --> -->" =
      some ("", " <!--GRAPH_DATA: \x7b\"a\":1\x7d ", " -->") ∧
    containsSub "<!--TABLE_DATA: <!--GRAPH_DATA: \x7b\"a\":1\x7d --> -->"
      "<!--TABLE_DATA: <!--GRAPH_DATA: \x7b\"a\":1\x7d -->" = true ∧
    processAndEnsureDataFormatting
        "<!--TABLE_DATA: <!--GRAPH_DATA: \x7b\"a\":1\x7d --> -->" =
      "<!--TABLE_DATA: <!--GRAPH_DATA:\x7b\n  \"a\": 1\n\x7d--> -->" ∧
    containsSub "<!--TABLE_DATA: <!--GRAPH_DATA:\x7b\n  \"a\": 1\n\x7d--> -->"
      "<!--TABLE_DATA: <!--GRAPH_DATA: \x7b\"a\":1\x7d -->" = false ∧
    processAndEnsureDataFormatting
        "<!--TABLE_DATA: <!--GRAPH_DATA: \x7b\"a\":1\x7d --> -->" ≠
      "<!--TABLE_DATA: <!--GRAPH_DATA: \x7b\"a\":1\x7d --> -->" := by
  refine ⟨?_, ?_, ?_, ?_, ?_, ?_⟩
  · with_unfolding_all rfl
  · with_unfolding_all rfl
  · with_unfolding_all rfl
  · with_unfolding_all rfl
  · with_unfolding_all rfl
  · with_unfolding_all decide

set_option maxRecDepth 100000 in
/-- Claim C4, amended: when a reply carries a graph marker, the pipeline
honors only the graph marker - it rewrites the graph block in place (the
re-serialized payload is inserted literally provided it contains no dollar
character) and the text before and after the graph match is kept verbatim,
so any table marker lying entirely outside the graph match survives
untouched (when the table marker overlaps the graph match, as in the
counterexample, its text can be rewritten); and the client attaches at most
one of `graphData`/`tableData`, parsing the table marker only when no graph
payload was extracted. -/
theorem claim_C4_graph_priority_amended (s p c suf : String) (gd gd2 : JSVal) (tm : String)
    (hm : findMarker "<!--GRAPH_DATA:" s = some (p, c, suf))
    (hp : jsonParse (jsTrim c) = some gd)
    (hsan : sanitizeGraphData gd = .ok gd2)
    (hdollar : ∀ ch ∈ ("<!--GRAPH_DATA:" ++ jsonStringifyTop gd2 ++ "-->").data, ch ≠ '$') :
    processAndEnsureDataFormatting s =
      p ++ ("<!--GRAPH_DATA:" ++ jsonStringifyTop gd2 ++ "-->") ++ suf ∧
    ((∃ u v, p = u ++ tm ++ v) ∨ (∃ u v, suf = u ++ tm ++ v) →
      ∃ u2 v2, processAndEnsureDataFormatting s = u2 ++ tm ++ v2) ∧
    (∀ content, ((callChatApiExtract content).graphData).isSome = true →
      (callChatApiExtract content).tableData = none) := by
  have h1 : processAndEnsureDataFormatting s =
      p ++ ("<!--GRAPH_DATA:" ++ jsonStringifyTop gd2 ++ "-->") ++ suf := by
    simp only [processAndEnsureDataFormatting, hm, hp, hsan]
    rw [dollarSubst_no_dollar _ _ _ _ _ hdollar]
  refine ⟨h1, ?_, ?_⟩
  · rintro (⟨u, v, huv⟩ | ⟨u, v, huv⟩)
    · refine ⟨u, v ++ ("<!--GRAPH_DATA:" ++ jsonStringifyTop gd2 ++ "-->") ++ suf, ?_⟩
      rw [h1, huv]
      simp [String.append_assoc]
    · refine ⟨p ++ ("<!--GRAPH_DATA:" ++ jsonStringifyTop gd2 ++ "-->") ++ u, v, ?_⟩
      rw [h1, huv]
      simp [String.append_assoc]
  · intro content h
    unfold callChatApiExtract at h ⊢
    cases hg : findMarker "<!--GRAPH_DATA:" content with
    | none =>
      rw [hg] at h
      simp [clientNoGraph] at h
    | some x =>
      obtain ⟨pre, cap, post⟩ := x
      rw [hg] at h
      dsimp only at h ⊢
      cases hj : jsonParse cap with
      | none =>
        simp [clientNoGraph, hj] at h
      | some gd0 =>
        rw [hj] at h
        dsimp only at h ⊢
        by_cases hb : (jsTruthy (jsGet gd0 "type") && jsTruthy (jsGet gd0 "data")) = true
        · rw [if_pos hb]
        · rw [if_neg hb] at h
          simp [clientNoGraph] at h

set_option maxRecDepth 100000 in
/-- Witness for the amended claim C4: a reply holding a graph marker followed
by a disjoint table marker; the graph block is rewritten and the table
marker text survives verbatim in the output. -/
theorem claim_C4_witness :
    processAndEnsureDataFormatting
        ("A<!--GRAPH_DATA:\x7b\"a\":1\x7d-->B" ++
          "<!--TABLE_DATA:\x7b\"headers\":[],\"rows\":[]\x7d-->C") =
      "A" ++ ("<!--GRAPH_DATA:" ++ jsonStringifyTop (.vobj [("a", .vnum (.fin 1))]) ++ "-->") ++
        "B<!--TABLE_DATA:\x7b\"headers\":[],\"rows\":[]\x7d-->C" ∧
    ∃ u2 v2, processAndEnsureDataFormatting
        ("A<!--GRAPH_DATA:\x7b\"a\":1\x7d-->B" ++
          "<!--TABLE_DATA:\x7b\"headers\":[],\"rows\":[]\x7d-->C") =
      u2 ++ "<!--TABLE_DATA:\x7b\"headers\":[],\"rows\":[]\x7d-->" ++ v2 := by
  have happ := claim_C4_graph_priority_amended
    ("A<!--GRAPH_DATA:\x7b\"a\":1\x7d-->B" ++
      "<!--TABLE_DATA:\x7b\"headers\":[],\"rows\":[]\x7d-->C")
    "A" "\x7b\"a\":1\x7d"
    "B<!--TABLE_DATA:\x7b\"headers\":[],\"rows\":[]\x7d-->C"
    (.vobj [("a", .vnum (.fin 1))]) (.vobj [("a", .vnum (.fin 1))])
    "<!--TABLE_DATA:\x7b\"headers\":[],\"rows\":[]\x7d-->"
    (by with_unfolding_all rfl) (by with_unfolding_all rfl)
    (by with_unfolding_all rfl) (by with_unfolding_all decide)
  exact ⟨happ.1, happ.2.1 (Or.inr ⟨"B", "C", by with_unfolding_all rfl⟩)⟩

/-- Witness for the amended claim C10 at concrete inputs covering a
non-object input, a missing type, a string type with empty data, and the
throwing truthy non-string type. -/
theorem claim_C10_witness :
    sanitizeGraphData (.vstr "hello") = .ok (.vstr "hello") ∧
    sanitizeGraphData (.vobj [("data", .varr [])]) = .ok (.vobj [("data", .varr [])]) ∧
    sanitizeGraphData (.vobj [("type", .vstr "line"), ("data", .varr [])]) =
      .ok (.vobj [("type", .vstr "line"), ("data", .varr [])]) ∧
    sanitizeGraphData (.vobj [("type", .vnum (.fin 5)), ("data", .varr [])]) = .error () :=
  ⟨(claim_C10_amended (.vstr "hello")).1 rfl,
   (claim_C10_amended (.vobj [("data", .varr [])])).2.1 (by with_unfolding_all rfl),
   (claim_C10_amended (.vobj [("type", .vstr "line"), ("data", .varr [])])).2.2.2.1
     "line" (by with_unfolding_all rfl) (by with_unfolding_all rfl),
   (claim_C10_amended (.vobj [("type", .vnum (.fin 5)), ("data", .varr [])])).2.2.2.2.2
     [("type", .vnum (.fin 5)), ("data", .varr [])] [] rfl (by with_unfolding_all rfl)
     (by with_unfolding_all rfl) (by with_unfolding_all rfl)⟩

/-! ## Claim C2 -/

/-- Pairwise-distinct keys of an association list (JavaScript objects, and in
particular every object produced by `JSON.parse`, have unique keys). -/
def distinctKeysB : List (String × JSVal) → Bool
  | [] => true
  | (k, _) :: t => !(t.any (fun kv => kv.fst == k)) && distinctKeysB t

/-- Pairwise-distinct strings. -/
def distinctStringsB : List String → Bool
  | [] => true
  | s :: t => !(t.any (fun x => x == s)) && distinctStringsB t

/-- The note member of an options object, when present, is textual (a truthy
non-string note makes `note?.includes(...)` throw). -/
def noteOkB (ov : JSVal) : Bool :=
  match jsGet ov "note" with
  | .vundef => true
  | .vnull => true
  | .vstr _ => true
  | _ => false

/-- The chartConfig member, when it is an array, holds per-series config
objects whose `dataKey`, when truthy, is a string (as the system prompt
requires); a truthy non-string `dataKey` whose coercion contains specials
would make `dataKey.replace(...)` throw. -/
def chartConfigOkB (ov : JSVal) : Bool :=
  match jsGet ov "chartConfig" with
  | .varr cfgs =>
    cfgs.all (fun c =>
      match c with
      | .vobj cfs =>
        (match findVal cfs "dataKey" with
         | .vstr _ => true
         | dk => !(jsTruthy dk))
      | _ => false)
  | _ => true

/-- Well-formedness of the optional `options` member of a graph payload. -/
def optionsOkB (g : JSVal) : Bool :=
  if jsTruthy (jsGet g "options") then
    match jsGet g "options" with
    | .vobj _ => noteOkB (jsGet g "options") && chartConfigOkB (jsGet g "options")
    | _ => false
  else true

/-- The lower-cased chart type of a payload (empty for non-string types). -/
def graphTypeOf (g : JSVal) : String :=
  match jsGet g "type" with
  | .vstr tys => tys.toLower
  | _ => ""

/-- Does the payload's `type` hold a string whose lower-casing is `line`,
`bar` or `area`? -/
def lbaTypeB (g : JSVal) : Bool :=
  match jsGet g "type" with
  | .vstr tys =>
    tys.toLower == "line" || tys.toLower == "bar" || tys.toLower == "area"
  | _ => false

/-- The claim's record conditions: each data record is an object (with the
unique keys `JSON.parse` guarantees) that carries the category key with a
string value and at least one numeric series key. -/
def recordsOkB (ck : String) (data : List JSVal) : Bool :=
  data.all (fun r =>
    match r with
    | .vobj rfs =>
      distinctKeysB rfs && isStrB (jsGet r ck) &&
        (jsOwnKeys r).any (fun k => !(k == ck) && isNumB (jsGet r k))
    | _ => false)

/-- A valid `line`/`bar`/`area` graph payload in the sense of claim C2: an
object (unique keys) with such a type, a non-empty data array of records
containing a string category key and at least one numeric series key, and
well-formed rendering options. -/
def validLBA (g : JSVal) : Bool :=
  match g with
  | .vobj _ =>
    distinctKeysB (match g with | .vobj fs => fs | _ => []) && lbaTypeB g &&
      (match jsGet g "data" with
       | .varr (fp :: rest) =>
         recordsOkB (categoryKeyOf (graphTypeOf g) fp) (fp :: rest)
       | _ => false) &&
      optionsOkB g
  | _ => false

/-- Category-key stability, the hypothesis the counterexample forces: either
the first record has a `name` key, or no two of its keys are identified by
the sanitizer's key renaming (so no renamed key can collide with, and in
particular steal, the category key). -/
def catStable (g : JSVal) : Bool :=
  match jsGet g "data" with
  | .varr (fp :: _) =>
    hasOwnP fp "name" ||
      distinctStringsB ((jsOwnKeys fp).map
        (currentKeyOf (graphTypeOf g) (categoryKeyOf (graphTypeOf g) fp)))
  | _ => false

set_option maxRecDepth 100000 in
/-- Counterexample to claim C2 as stated: a valid line payload in which the
key `a b` of the first record slug-sanitizes to `a_b`, colliding with (and
overwriting) the category key `a_b`.  After one sanitization the first
record's `a_b` holds the number 2, so re-sanitization picks `s` as the
category key and now coerces the second record's category value `"3"` to the
number 3: the twice-sanitized payload differs from the once-sanitized one. -/
theorem claim_C2_counterexample :
    validLBA (.vobj [("type", .vstr "line"),
      ("data", .varr [
        .vobj [("a_b", .vstr "1"), ("a b", .vnum (.fin 2)), ("s", .vstr "t")],
        .vobj [("a_b", .vstr "3"), ("s", .vstr "u"), ("v", .vnum (.fin 7))]])]) = true ∧
    sanitizeGraphData (.vobj [("type", .vstr "line"),
      ("data", .varr [
        .vobj [("a_b", .vstr "1"), ("a b", .vnum (.fin 2)), ("s", .vstr "t")],
        .vobj [("a_b", .vstr "3"), ("s", .vstr "u"), ("v", .vnum (.fin 7))]])]) =
      .ok (.vobj [("type", .vstr "line"),
        ("data", .varr [
          .vobj [("a_b", .vnum (.fin 2)), ("s", .vstr "t")],
          .vobj [("a_b", .vstr "3"), ("s", .vstr "u"), ("v", .vnum (.fin 7))]]),
        ("options", .vobj [("note", .vstr keysSanitizedMsg)])]) ∧
    sanitizeGraphData (.vobj [("type", .vstr "line"),
        ("data", .varr [
          .vobj [("a_b", .vnum (.fin 2)), ("s", .vstr "t")],
          .vobj [("a_b", .vstr "3"), ("s", .vstr "u"), ("v", .vnum (.fin 7))]]),
        ("options", .vobj [("note", .vstr keysSanitizedMsg)])]) =
      .ok (.vobj [("type", .vstr "line"),
        ("data", .varr [
          .vobj [("a_b", .vnum (.fin 2)), ("s", .vstr "t")],
          .vobj [("a_b", .vnum (.fin 3)), ("s", .vstr "u"), ("v", .vnum (.fin 7))]]),
        ("options", .vobj [("note", .vstr keysSanitizedMsg)])]) ∧
    (JSVal.vobj [("type", .vstr "line"),
        ("data", .varr [
          .vobj [("a_b", .vnum (.fin 2)), ("s", .vstr "t")],
          .vobj [("a_b", .vnum (.fin 3)), ("s", .vstr "u"), ("v", .vnum (.fin 7))]]),
        ("options", .vobj [("note", .vstr keysSanitizedMsg)])]) ≠
      (JSVal.vobj [("type", .vstr "line"),
        ("data", .varr [
          .vobj [("a_b", .vnum (.fin 2)), ("s", .vstr "t")],
          .vobj [("a_b", .vstr "3"), ("s", .vstr "u"), ("v", .vnum (.fin 7))]]),
        ("options", .vobj [("note", .vstr keysSanitizedMsg)])]) := by
  refine ⟨?_, ?_, ?_, ne_of_beqV_false (by with_unfolding_all rfl)⟩
  · with_unfolding_all rfl
  · with_unfolding_all rfl
  · with_unfolding_all rfl

/-! ## Stability of the general sanitization pass (towards claim C2) -/

/-- An entry of a data point that the general pass stores unchanged: its key
is a fixed point of the key renaming and its value a fixed point of the
numeric coercion. -/
def StableEntry (gt ck : String) (kv : String × JSVal) : Prop :=
  currentKeyOf gt ck kv.fst = kv.fst ∧
  coerceNumeric (isPotNumKeyB gt ck kv.fst) kv.snd = kv.snd

theorem digit_toNat_bounds (c : Char) (h : c.isDigit = true) :
    48 ≤ c.toNat ∧ c.toNat ≤ 57 := by
  simp only [Char.isDigit, Bool.and_eq_true, decide_eq_true_eq] at h
  exact h

theorem special_false_of_digit (c : Char) (h : c.isDigit = true) :
    isKeySpecialChar c = false := by
  obtain ⟨h1, h2⟩ := digit_toNat_bounds c h
  have hdot : c ≠ '.' := by
    intro he; subst he; simp at h1
  have hdash : c ≠ '-' := by
    intro he; subst he; simp at h1
  simp only [isKeySpecialChar, isJsWhitespaceChar, Bool.or_eq_false_iff,
    beq_eq_false_iff_ne, ne_eq, Bool.and_eq_false_iff, decide_eq_false_iff_not, not_le]
  exact ⟨⟨by omega, hdot⟩, hdash⟩

theorem slugAux_all_nonspecial (l : List Char) : ∀ p : Bool,
    (slugAux p l).all (fun c => !isKeySpecialChar c) = true := by
  have hu : isKeySpecialChar '_' = false := by decide
  induction l with
  | nil => intro p; rfl
  | cons c t ih =>
    intro p
    by_cases hc : isKeySpecialChar c = true
    · cases p <;> simp [slugAux, hc, ih, hu]
    · simp only [Bool.not_eq_true] at hc
      simp [slugAux, hc, ih]

theorem hasSpecials_slugKey (s : String) : hasSpecials (slugKey s) = false := by
  have h := slugAux_all_nonspecial s.data false
  show (slugAux false s.data).any isKeySpecialChar = false
  rw [List.any_eq_false]
  intro c hcmem
  have hc := List.all_eq_true.mp h c hcmem
  simp only [Bool.not_eq_eq_eq_not, Bool.not_true] at hc
  simp [hc]

theorem underscore_mem_slugAux (l : List Char) (h : l.any isKeySpecialChar = true) :
    '_' ∈ slugAux false l := by
  induction l with
  | nil => simp at h
  | cons c t ih =>
    by_cases hc : isKeySpecialChar c = true
    · simp [slugAux, hc]
    · simp only [Bool.not_eq_true] at hc
      simp only [List.any_cons, hc, Bool.false_or] at h
      simp [slugAux, hc, ih h]

theorem underscore_mem_slugKey (s : String) (h : hasSpecials s = true) :
    '_' ∈ (slugKey s).data :=
  underscore_mem_slugAux s.data h

theorem isCanonicalIndex_false_of_underscore (s : String) (h : '_' ∈ s.data) :
    isCanonicalIndex s = false := by
  have hd : digitsOnly s = false := by
    have hall : s.data.all Char.isDigit = false := by
      rw [List.all_eq_false]
      exact ⟨'_', h, by decide⟩
    simp [digitsOnly, hall]
  simp [isCanonicalIndex, hd]

theorem hasSpecials_false_of_canonical (s : String) (h : isCanonicalIndex s = true) :
    hasSpecials s = false := by
  simp only [isCanonicalIndex, Bool.and_eq_true] at h
  obtain ⟨⟨h1, _⟩, _⟩ := h
  simp only [digitsOnly, Bool.and_eq_true] at h1
  obtain ⟨_, hall⟩ := h1
  rw [hasSpecials, List.any_eq_false]
  intro c hcmem
  have hc := List.all_eq_true.mp hall c hcmem
  simp [special_false_of_digit c hc]

theorem currentKeyOf_id_of_nospecials (gt ck k : String) (h : hasSpecials k = false) :
    currentKeyOf gt ck k = k := by
  simp [currentKeyOf, h]

theorem currentKeyOf_idem (gt ck k : String) :
    currentKeyOf gt ck (currentKeyOf gt ck k) = currentKeyOf gt ck k := by
  by_cases hc : (renameGateB gt ck k && hasSpecials k) = true
  · have he : currentKeyOf gt ck k = slugKey k := by simp [currentKeyOf, hc]
    rw [he]
    exact currentKeyOf_id_of_nospecials _ _ _ (hasSpecials_slugKey k)
  · have he : currentKeyOf gt ck k = k := by simp [currentKeyOf, hc]
    rw [he]
    exact he

theorem coerceNumeric_idem (b : Bool) (v : JSVal) :
    coerceNumeric b (coerceNumeric b v) = coerceNumeric b v := by
  cases b
  · rfl
  · cases v <;> try rfl
    case vstr s =>
      cases hp : jsParseFloat s with
      | some n => simp [coerceNumeric, hp]
      | none => simp [coerceNumeric, hp]

theorem coerceNumeric_of_not_str (b : Bool) (v : JSVal) (h : isStrB v = false) :
    coerceNumeric b v = v := by
  cases b
  · rfl
  · cases v <;> first | rfl | simp [isStrB] at h

theorem slugKey_ne_empty (s : String) (h : s ≠ "") : slugKey s ≠ "" := by
  cases s with
  | mk l =>
    cases l with
    | nil => exact absurd rfl h
    | cons c t =>
      intro he
      have hdata : slugAux false (c :: t) = [] := congrArg String.data he
      rw [slugAux] at hdata
      by_cases hc : isKeySpecialChar c = true <;> simp [hc] at hdata

theorem currentKeyOf_noncanonical (gt ck k : String) (h : isCanonicalIndex k = false) :
    isCanonicalIndex (currentKeyOf gt ck k) = false := by
  by_cases hc : (renameGateB gt ck k && hasSpecials k) = true
  · have hs : hasSpecials k = true := by
      rw [Bool.and_eq_true] at hc
      exact hc.2
    rw [Bool.and_eq_true] at hc
    replace hc : (renameGateB gt ck k && hasSpecials k) = true := by
      simp [hc.1, hc.2]
    have he : currentKeyOf gt ck k = slugKey k := by simp [currentKeyOf, hc]
    rw [he]
    exact isCanonicalIndex_false_of_underscore _ (underscore_mem_slugKey _ hs)
  · have he : currentKeyOf gt ck k = k := by simp [currentKeyOf, hc]
    rw [he]
    exact h

/-- Comparison of keyed entries by numeric key value (non-strict). -/
def IdxLE {α : Type} (a b : String × α) : Prop := idxVal a.fst ≤ idxVal b.fst

/-- Comparison of keyed entries by numeric key value (strict). -/
def IdxLT {α : Type} (a b : String × α) : Prop := idxVal a.fst < idxVal b.fst

theorem insByIdx_perm {α : Type} (kv : String × α) (l : List (String × α)) :
    List.Perm (insByIdx kv l) (kv :: l) := by
  induction l with
  | nil => exact List.Perm.refl _
  | cons h t ih =>
    rw [insByIdx]
    by_cases hlt : idxVal kv.fst < idxVal h.fst
    · rw [if_pos hlt]
    · rw [if_neg hlt]
      exact (ih.cons h).trans (List.Perm.swap kv h t)

theorem sortByIdx_perm {α : Type} (l : List (String × α)) :
    List.Perm (sortByIdx l) l := by
  induction l with
  | nil => exact List.Perm.refl _
  | cons h t ih =>
    rw [sortByIdx]
    exact (insByIdx_perm h (sortByIdx t)).trans (ih.cons h)

theorem ownOrder_perm {α : Type} (fs : List (String × α)) :
    List.Perm (ownOrder fs) fs := by
  rw [ownOrder]
  have h1 := sortByIdx_perm (fs.filter (fun kv => isCanonicalIndex kv.fst))
  have h2 := List.filter_append_perm (fun kv => isCanonicalIndex kv.fst) fs
  exact (h1.append_right _).trans h2

theorem mem_insByIdx {α : Type} {x kv : String × α} {l : List (String × α)}
    (h : x ∈ insByIdx kv l) : x = kv ∨ x ∈ l := by
  have hm := (insByIdx_perm kv l).mem_iff.mp h
  simpa using hm

theorem insByIdx_sorted {α : Type} (kv : String × α) (l : List (String × α))
    (h : l.Pairwise IdxLE) : (insByIdx kv l).Pairwise IdxLE := by
  induction l with
  | nil => simp [insByIdx]
  | cons hd t ih =>
    rw [insByIdx]
    rcases List.pairwise_cons.mp h with ⟨hhd, ht⟩
    by_cases hlt : idxVal kv.fst < idxVal hd.fst
    · rw [if_pos hlt]
      refine List.pairwise_cons.mpr ⟨?_, h⟩
      intro b hb
      rcases List.mem_cons.mp hb with rfl | hb
      · exact Nat.le_of_lt hlt
      · exact Nat.le_trans (Nat.le_of_lt hlt) (hhd b hb)
    · rw [if_neg hlt]
      refine List.pairwise_cons.mpr ⟨?_, ih ht⟩
      intro b hb
      rcases mem_insByIdx hb with rfl | hb
      · exact Nat.le_of_not_lt hlt
      · exact hhd b hb

theorem sortByIdx_sorted {α : Type} (l : List (String × α)) :
    (sortByIdx l).Pairwise IdxLE := by
  induction l with
  | nil => exact List.Pairwise.nil
  | cons h t ih => exact insByIdx_sorted h _ ih

theorem insByIdx_of_lt {α : Type} (kv : String × α) (l : List (String × α))
    (h : ∀ b ∈ l, IdxLT kv b) : insByIdx kv l = kv :: l := by
  cases l with
  | nil => rfl
  | cons hd t =>
    rw [insByIdx,
      if_pos (show idxVal kv.fst < idxVal hd.fst from h hd (List.mem_cons_self hd t))]

theorem sortByIdx_eq_self {α : Type} (l : List (String × α)) (h : l.Pairwise IdxLT) :
    sortByIdx l = l := by
  induction l with
  | nil => rfl
  | cons hd t ih =>
    rcases List.pairwise_cons.mp h with ⟨hhd, ht⟩
    rw [sortByIdx, ih ht, insByIdx_of_lt hd t hhd]

theorem canonical_inj (s t : String) (hs : isCanonicalIndex s = true)
    (ht : isCanonicalIndex t = true) (h : idxVal s = idxVal t) : s = t := by
  simp only [isCanonicalIndex, Bool.and_eq_true] at hs ht
  have hs2 : natDecimal (idxVal s) = s := eq_of_beq hs.1.2
  have ht2 : natDecimal (idxVal t) = t := eq_of_beq ht.1.2
  rw [← hs2, ← ht2, h]

theorem pairwise_strict_of_sorted {α : Type} (l : List (String × α))
    (hs : l.Pairwise IdxLE) (hcan : ∀ kv ∈ l, isCanonicalIndex kv.fst = true)
    (hnd : (l.map Prod.fst).Nodup) : l.Pairwise IdxLT := by
  have hne : l.Pairwise (fun a b => a.fst ≠ b.fst) := List.pairwise_map.mp hnd
  refine List.Pairwise.imp_of_mem ?_ (hs.and hne)
  intro a b ha hb hr
  exact Nat.lt_of_le_of_ne hr.1
    (fun he => hr.2 (canonical_inj _ _ (hcan a ha) (hcan b hb) he))

theorem ownOrder_append {α : Type} (X Y : List (String × α))
    (hX : ∀ kv ∈ X, isCanonicalIndex kv.fst = true)
    (hXs : X.Pairwise IdxLT)
    (hY : ∀ kv ∈ Y, isCanonicalIndex kv.fst = false) :
    ownOrder (X ++ Y) = X ++ Y := by
  rw [ownOrder, List.filter_append, List.filter_append]
  have h1 : X.filter (fun kv => isCanonicalIndex kv.fst) = X :=
    List.filter_eq_self.mpr hX
  have h2 : Y.filter (fun kv => isCanonicalIndex kv.fst) = [] := by
    rw [List.filter_eq_nil_iff]
    intro kv hkv
    simp [hY kv hkv]
  have h3 : X.filter (fun kv => !isCanonicalIndex kv.fst) = [] := by
    rw [List.filter_eq_nil_iff]
    intro kv hkv
    simp [hX kv hkv]
  have h4 : Y.filter (fun kv => !isCanonicalIndex kv.fst) = Y := by
    rw [List.filter_eq_self]
    intro kv hkv
    simp [hY kv hkv]
  rw [h1, h2, h3, h4, List.append_nil, List.nil_append, sortByIdx_eq_self X hXs]

theorem distinctKeysB_iff (fs : List (String × JSVal)) :
    distinctKeysB fs = true ↔ (fs.map Prod.fst).Nodup := by
  induction fs with
  | nil => simp [distinctKeysB]
  | cons hd t ih =>
    obtain ⟨k, v⟩ := hd
    simp only [distinctKeysB, Bool.and_eq_true, List.map_cons, List.nodup_cons, ih]
    constructor
    · rintro ⟨h1, h2⟩
      refine ⟨?_, h2⟩
      intro hmem
      rcases List.mem_map.mp hmem with ⟨kv, hkv, hfst⟩
      have ha : t.any (fun kv => kv.fst == k) = true :=
        List.any_eq_true.mpr ⟨kv, hkv, by simp [hfst]⟩
      simp [ha] at h1
    · rintro ⟨h1, h2⟩
      refine ⟨?_, h2⟩
      have ha : t.any (fun kv => kv.fst == k) = false := by
        rw [List.any_eq_false]
        intro kv hkv hbeq
        exact h1 (List.mem_map.mpr ⟨kv, hkv, eq_of_beq hbeq⟩)
      simp [ha]

theorem distinctKeysB_of_perm {fs1 fs2 : List (String × JSVal)}
    (hp : List.Perm fs1 fs2) (h : distinctKeysB fs1 = true) :
    distinctKeysB fs2 = true := by
  rw [distinctKeysB_iff] at h ⊢
  exact ((hp.map Prod.fst).nodup_iff).mp h

theorem hasKeyB_iff_mem (fs : List (String × JSVal)) (k : String) :
    hasKeyB fs k = true ↔ k ∈ fs.map Prod.fst := by
  rw [hasKeyB, List.any_eq_true]
  constructor
  · rintro ⟨kv, hkv, hbeq⟩
    exact List.mem_map.mpr ⟨kv, hkv, eq_of_beq hbeq⟩
  · intro h
    rcases List.mem_map.mp h with ⟨kv, hkv, hfst⟩
    exact ⟨kv, hkv, by simp [hfst]⟩

theorem findVal_eq_of_mem {fs : List (String × JSVal)} {k : String} {v : JSVal}
    (hdk : distinctKeysB fs = true) (hm : (k, v) ∈ fs) : findVal fs k = v := by
  induction fs with
  | nil => simp at hm
  | cons hd t ih =>
    obtain ⟨k0, v0⟩ := hd
    simp only [distinctKeysB, Bool.and_eq_true] at hdk
    obtain ⟨h1, h2⟩ := hdk
    rcases List.mem_cons.mp hm with heq | hmem
    · cases heq
      simp [findVal]
    · by_cases hk : k0 = k
      · subst hk
        have ha : t.any (fun kv => kv.fst == k0) = true :=
          List.any_eq_true.mpr ⟨(k0, v), hmem, by simp⟩
        simp [ha] at h1
      · simp only [findVal, beqStr_false_of_ne hk, Bool.false_eq_true, if_false]
        exact ih h2 hmem

theorem mem_of_hasKeyB {fs : List (String × JSVal)} {k : String}
    (h : hasKeyB fs k = true) : (k, findVal fs k) ∈ fs := by
  induction fs with
  | nil => simp [hasKeyB] at h
  | cons hd t ih =>
    obtain ⟨k0, v0⟩ := hd
    by_cases hk : k0 = k
    · subst hk
      simp [findVal]
    · simp only [findVal, beqStr_false_of_ne hk, Bool.false_eq_true, if_false]
      simp only [hasKeyB, List.any_cons, Bool.or_eq_true] at h
      rcases h with h | h
      · exact absurd (eq_of_beq h) hk
      · exact List.mem_cons_of_mem _ (ih (by simpa [hasKeyB] using h))

theorem findVal_of_hasKeyB_false {fs : List (String × JSVal)} {k : String}
    (h : hasKeyB fs k = false) : findVal fs k = .vundef := by
  induction fs with
  | nil => rfl
  | cons hd t ih =>
    obtain ⟨k0, v0⟩ := hd
    simp only [hasKeyB, List.any_cons, Bool.or_eq_false_iff] at h
    obtain ⟨h1, h2⟩ := h
    simp only [findVal, h1, Bool.false_eq_true, if_false]
    exact ih (by simpa [hasKeyB] using h2)

theorem hasKeyB_eq_of_perm {fs1 fs2 : List (String × JSVal)}
    (hp : List.Perm fs1 fs2) (k : String) : hasKeyB fs1 k = hasKeyB fs2 k := by
  have hm : k ∈ fs1.map Prod.fst ↔ k ∈ fs2.map Prod.fst := (hp.map Prod.fst).mem_iff
  by_cases h1 : hasKeyB fs1 k = true
  · rw [h1]
    symm
    rw [hasKeyB_iff_mem]
    exact hm.mp ((hasKeyB_iff_mem _ _).mp h1)
  · rw [Bool.not_eq_true] at h1
    rw [h1]
    symm
    rw [← Bool.not_eq_true]
    intro h2
    rw [hasKeyB_iff_mem] at h2
    have h3 := hm.mpr h2
    rw [← hasKeyB_iff_mem] at h3
    rw [h1] at h3
    exact Bool.false_ne_true h3

theorem findVal_eq_of_perm {fs1 fs2 : List (String × JSVal)}
    (hp : List.Perm fs1 fs2) (hdk : distinctKeysB fs2 = true) (k : String) :
    findVal fs1 k = findVal fs2 k := by
  by_cases h : hasKeyB fs2 k = true
  · have hm : (k, findVal fs2 k) ∈ fs1 := hp.mem_iff.mpr (mem_of_hasKeyB h)
    exact findVal_eq_of_mem (distinctKeysB_of_perm hp.symm hdk) hm
  · rw [Bool.not_eq_true] at h
    rw [findVal_of_hasKeyB_false h,
      findVal_of_hasKeyB_false (by rw [hasKeyB_eq_of_perm hp]; exact h)]

theorem find?_congr_mem {α : Type} (l : List α) (p q : α → Bool)
    (h : ∀ x ∈ l, p x = q x) : l.find? p = l.find? q := by
  induction l with
  | nil => rfl
  | cons hd t ih =>
    cases hq : q hd with
    | false =>
      have hp : p hd = false := by rw [h hd (List.mem_cons_self hd t)]; exact hq
      rw [List.find?_cons_of_neg _ (by simp [hp]), List.find?_cons_of_neg _ (by simp [hq])]
      exact ih (fun x hx => h x (List.mem_cons_of_mem _ hx))
    | true =>
      have hp : p hd = true := by rw [h hd (List.mem_cons_self hd t)]; exact hq
      rw [List.find?_cons_of_pos _ hp, List.find?_cons_of_pos _ hq]

theorem find?_append_left_false {α : Type} (l1 l2 : List α) (p : α → Bool)
    (h : ∀ x ∈ l1, p x = false) : (l1 ++ l2).find? p = l2.find? p := by
  induction l1 with
  | nil => rfl
  | cons hd t ih =>
    rw [List.cons_append,
      List.find?_cons_of_neg _ (by simp [h hd (List.mem_cons_self hd t)])]
    exact ih (fun x hx => h x (List.mem_cons_of_mem _ hx))

theorem find?_split {α : Type} {l : List α} {p : α → Bool} {x : α}
    (h : l.find? p = some x) :
    ∃ l1 l2, l = l1 ++ x :: l2 ∧ (∀ y ∈ l1, p y = false) ∧ p x = true := by
  induction l with
  | nil => simp at h
  | cons hd t ih =>
    cases hp : p hd with
    | false =>
      rw [List.find?_cons_of_neg _ (by simp [hp])] at h
      rcases ih h with ⟨l1, l2, he, hf, hx⟩
      refine ⟨hd :: l1, l2, by rw [he, List.cons_append], ?_, hx⟩
      intro y hy
      rcases List.mem_cons.mp hy with rfl | hy
      · exact hp
      · exact hf y hy
    | true =>
      rw [List.find?_cons_of_pos _ hp] at h
      have hx := Option.some.inj h
      subst hx
      exact ⟨[], t, rfl, by simp, hp⟩

theorem find?_keys_assoc (fs : List (String × JSVal)) (p : JSVal → Bool)
    (hdk : distinctKeysB fs = true) :
    (fs.map Prod.fst).find? (fun k => p (findVal fs k)) =
      (fs.find? (fun kv => p kv.snd)).map Prod.fst := by
  induction fs with
  | nil => rfl
  | cons hd t ih =>
    obtain ⟨k0, v0⟩ := hd
    simp only [distinctKeysB, Bool.and_eq_true] at hdk
    obtain ⟨h1, h2⟩ := hdk
    have hv0 : findVal ((k0, v0) :: t) k0 = v0 := by simp [findVal]
    rw [List.map_cons]
    cases hp : p v0 with
    | false =>
      rw [show List.find? (fun k => p (findVal ((k0, v0) :: t) k)) (k0 :: List.map Prod.fst t)
            = List.find? (fun k => p (findVal ((k0, v0) :: t) k)) (List.map Prod.fst t) from
          List.find?_cons_of_neg _ (by simp [hv0, hp]),
        show List.find? (fun kv : String × JSVal => p kv.snd) ((k0, v0) :: t)
            = List.find? (fun kv : String × JSVal => p kv.snd) t from
          List.find?_cons_of_neg _ (by simp [hp])]
      rw [find?_congr_mem (t.map Prod.fst) _ (fun k => p (findVal t k)) ?hcong]
      · exact ih h2
      case hcong =>
        intro k hk
        have hne : k0 ≠ k := by
          intro he
          subst he
          rcases List.mem_map.mp hk with ⟨kv, hkv, hfst⟩
          have ha : t.any (fun kv => kv.fst == k0) = true :=
            List.any_eq_true.mpr ⟨kv, hkv, by simp [hfst]⟩
          simp [ha] at h1
        simp [findVal, beqStr_false_of_ne hne]
    | true =>
      rw [show List.find? (fun k => p (findVal ((k0, v0) :: t) k)) (k0 :: List.map Prod.fst t)
            = some k0 from
          List.find?_cons_of_pos _ (by simp [hv0, hp]),
        show List.find? (fun kv : String × JSVal => p kv.snd) ((k0, v0) :: t)
            = some (k0, v0) from
          List.find?_cons_of_pos _ (by simp [hp])]
      rfl

theorem setKey_append_of_no_key (X Y : List (String × JSVal)) (k : String) (v : JSVal)
    (h : hasKeyB X k = false) : setKey (X ++ Y) k v = X ++ setKey Y k v := by
  induction X with
  | nil => rfl
  | cons hd t ih =>
    obtain ⟨k0, v0⟩ := hd
    simp only [hasKeyB, List.any_cons, Bool.or_eq_false_iff] at h
    obtain ⟨h1, h2⟩ := h
    have hrec := ih (by simpa [hasKeyB] using h2)
    simp only [List.cons_append, setKey, h1, Bool.false_eq_true, if_false,
      List.append_eq, hrec]

theorem setKey_append_new (fs : List (String × JSVal)) (k : String) (v : JSVal)
    (h : hasKeyB fs k = false) : setKey fs k v = fs ++ [(k, v)] := by
  have hs := setKey_append_of_no_key fs [] k v h
  rw [List.append_nil] at hs
  rw [hs]
  rfl

theorem mem_setKey {fs : List (String × JSVal)} {k : String} {v : JSVal}
    {kv2 : String × JSVal} (h : kv2 ∈ setKey fs k v) : kv2 ∈ fs ∨ kv2 = (k, v) := by
  induction fs with
  | nil =>
    simp only [setKey, List.mem_singleton] at h
    exact Or.inr h
  | cons hd t ih =>
    obtain ⟨k0, v0⟩ := hd
    by_cases hk : k0 = k
    · subst hk
      simp only [setKey, beq_self_eq_true, if_true] at h
      rcases List.mem_cons.mp h with rfl | hmem
      · exact Or.inr rfl
      · exact Or.inl (List.mem_cons_of_mem _ hmem)
    · simp only [setKey, beqStr_false_of_ne hk, Bool.false_eq_true, if_false] at h
      rcases List.mem_cons.mp h with rfl | hmem
      · exact Or.inl (List.mem_cons_self _ _)
      · rcases ih hmem with hm | hm
        · exact Or.inl (List.mem_cons_of_mem _ hm)
        · exact Or.inr hm

theorem mem_keys_setKey {fs : List (String × JSVal)} {k k2 : String} {v : JSVal}
    (h : k2 ∈ (setKey fs k v).map Prod.fst) : k2 ∈ fs.map Prod.fst ∨ k2 = k := by
  rcases List.mem_map.mp h with ⟨kv, hkv, hfst⟩
  rcases mem_setKey hkv with hm | he
  · exact Or.inl (List.mem_map.mpr ⟨kv, hm, hfst⟩)
  · refine Or.inr ?_
    rw [← hfst, he]

theorem distinctKeysB_setKey (fs : List (String × JSVal)) (k : String) (v : JSVal)
    (h : distinctKeysB fs = true) : distinctKeysB (setKey fs k v) = true := by
  induction fs with
  | nil => simp [setKey, distinctKeysB]
  | cons hd t ih =>
    obtain ⟨k0, v0⟩ := hd
    simp only [distinctKeysB, Bool.and_eq_true] at h
    obtain ⟨h1, h2⟩ := h
    by_cases hk : k0 = k
    · subst hk
      simp only [setKey, beq_self_eq_true, if_true]
      simp only [distinctKeysB, Bool.and_eq_true]
      exact ⟨h1, h2⟩
    · simp only [setKey, beqStr_false_of_ne hk, Bool.false_eq_true, if_false]
      simp only [distinctKeysB, Bool.and_eq_true]
      refine ⟨?_, ih h2⟩
      have ha : (setKey t k v).any (fun kv => kv.fst == k0) = false := by
        rw [List.any_eq_false]
        intro kv hkv hbeq
        have hfst : kv.fst = k0 := eq_of_beq hbeq
        rcases mem_setKey hkv with hm | he
        · have ht : t.any (fun kv => kv.fst == k0) = true :=
            List.any_eq_true.mpr ⟨kv, hm, by simp [hfst]⟩
          simp [ht] at h1
        · rw [he] at hfst
          exact hk hfst.symm
      simp [ha]

theorem hasKeyB_setKey_self (fs : List (String × JSVal)) (k : String) (v : JSVal) :
    hasKeyB (setKey fs k v) k = true := by
  induction fs with
  | nil => simp [setKey, hasKeyB]
  | cons hd t ih =>
    obtain ⟨k0, v0⟩ := hd
    by_cases hk : k0 = k
    · subst hk
      simp [setKey, hasKeyB]
    · simp only [setKey, beqStr_false_of_ne hk, Bool.false_eq_true, if_false,
        hasKeyB, List.any_cons, Bool.or_eq_true]
      exact Or.inr (by simpa [hasKeyB] using ih)

theorem setKey_setKey_self (fs : List (String × JSVal)) (k : String) (v : JSVal) :
    setKey (setKey fs k v) k v = setKey fs k v :=
  setKey_same _ _ _ (hasKeyB_setKey_self fs k v) (findVal_setKey_self fs k v)

theorem map_eq_self_of_mem {α : Type} (l : List α) (f : α → α)
    (h : ∀ x ∈ l, f x = x) : l.map f = l := by
  induction l with
  | nil => rfl
  | cons hd t ih =>
    rw [List.map_cons, h hd (List.mem_cons_self hd t),
      ih (fun x hx => h x (List.mem_cons_of_mem _ hx))]

theorem foldl_pointStep_map (gt ck : String) (E : List (String × JSVal)) :
    ∀ (acc : List (String × JSVal)) (flag : Bool),
    (∀ kv ∈ E, currentKeyOf gt ck kv.fst = kv.fst) →
    distinctKeysB E = true →
    (∀ kv ∈ E, hasKeyB acc kv.fst = false) →
    List.foldl (pointStep gt ck) (acc, flag) E =
      (acc ++ E.map (fun kv => (kv.fst, coerceNumeric (isPotNumKeyB gt ck kv.fst) kv.snd)),
        flag) := by
  induction E with
  | nil =>
    intro acc flag _ _ _
    simp
  | cons kv t ih =>
    intro acc flag hid hdk hdisj
    obtain ⟨k, v⟩ := kv
    have hk : currentKeyOf gt ck k = k := hid (k, v) (List.mem_cons_self _ _)
    rw [List.foldl_cons]
    have hstep : pointStep gt ck (acc, flag) (k, v) =
        (acc ++ [(k, coerceNumeric (isPotNumKeyB gt ck k) v)], flag) := by
      show (setKey acc (currentKeyOf gt ck k)
          (coerceNumeric (isPotNumKeyB gt ck (currentKeyOf gt ck k)) v),
          flag || (currentKeyOf gt ck k != k)) = _
      rw [hk, setKey_append_new acc k _ (hdisj (k, v) (List.mem_cons_self _ _))]
      simp [bne_self_eq_false]
    rw [hstep]
    simp only [distinctKeysB, Bool.and_eq_true] at hdk
    obtain ⟨h1, h2⟩ := hdk
    have h1' : t.any (fun kv => kv.fst == k) = false := by simpa using h1
    rw [ih (acc ++ [(k, coerceNumeric (isPotNumKeyB gt ck k) v)]) flag
        (fun kv hkv => hid kv (List.mem_cons_of_mem _ hkv)) h2 ?hdisj2]
    · simp [List.append_assoc]
    case hdisj2 =>
      intro kv2 hkv2
      have hacc : hasKeyB acc kv2.fst = false := hdisj kv2 (List.mem_cons_of_mem _ hkv2)
      have hne : (kv2.fst == k) = false :=
        Bool.eq_false_iff.mpr (List.any_eq_false.mp h1' kv2 hkv2)
      have hkk : (k == kv2.fst) = false := by
        rw [beq_eq_false_iff_ne] at hne ⊢
        exact fun he => hne he.symm
      show hasKeyB (acc ++ [(k, coerceNumeric (isPotNumKeyB gt ck k) v)]) kv2.fst = false
      rw [hasKeyB] at hacc ⊢
      rw [List.any_append]
      simp [hacc, hkk]

theorem foldl_pointStep_stable (gt ck : String) (E : List (String × JSVal))
    (hE : ∀ kv ∈ E, StableEntry gt ck kv) (hdk : distinctKeysB E = true)
    (acc : List (String × JSVal)) (flag : Bool)
    (hdisj : ∀ kv ∈ E, hasKeyB acc kv.fst = false) :
    List.foldl (pointStep gt ck) (acc, flag) E = (acc ++ E, flag) := by
  rw [foldl_pointStep_map gt ck E acc flag (fun kv hkv => (hE kv hkv).1) hdk hdisj]
  rw [map_eq_self_of_mem]
  intro kv hkv
  have h2 := (hE kv hkv).2
  obtain ⟨k, v⟩ := kv
  simp only at h2 ⊢
  rw [h2]

theorem foldl_pointStep_invariant (gt ck : String) (E : List (String × JSVal)) :
    ∀ (acc : List (String × JSVal)) (flag : Bool),
    distinctKeysB acc = true →
    (∀ kv ∈ acc, StableEntry gt ck kv) →
    distinctKeysB (List.foldl (pointStep gt ck) (acc, flag) E).fst = true ∧
    (∀ kv ∈ (List.foldl (pointStep gt ck) (acc, flag) E).fst, StableEntry gt ck kv) := by
  induction E with
  | nil =>
    intro acc flag h1 h2
    exact ⟨h1, h2⟩
  | cons kv t ih =>
    intro acc flag h1 h2
    obtain ⟨k, v⟩ := kv
    rw [List.foldl_cons]
    have hstep : pointStep gt ck (acc, flag) (k, v) =
        (setKey acc (currentKeyOf gt ck k)
          (coerceNumeric (isPotNumKeyB gt ck (currentKeyOf gt ck k)) v),
         flag || (currentKeyOf gt ck k != k)) := rfl
    rw [hstep]
    refine ih _ _ (distinctKeysB_setKey _ _ _ h1) ?_
    intro kv2 hkv2
    rcases mem_setKey hkv2 with hm | he
    · exact h2 kv2 hm
    · rw [he]
      exact ⟨currentKeyOf_idem gt ck k, coerceNumeric_idem _ _⟩

theorem foldl_pointStep_noncanon (gt ck : String) (B : List (String × JSVal)) :
    ∀ (X Y : List (String × JSVal)) (flag : Bool),
    (∀ kv ∈ X, isCanonicalIndex kv.fst = true) →
    (∀ kv ∈ Y, isCanonicalIndex kv.fst = false) →
    (∀ kv ∈ B, isCanonicalIndex (currentKeyOf gt ck kv.fst) = false) →
    ∃ Y2 flag2, List.foldl (pointStep gt ck) (X ++ Y, flag) B = (X ++ Y2, flag2) ∧
      ∀ kv ∈ Y2, isCanonicalIndex kv.fst = false := by
  induction B with
  | nil =>
    intro X Y flag _ hY _
    exact ⟨Y, flag, rfl, hY⟩
  | cons kv t ih =>
    intro X Y flag hX hY hB
    obtain ⟨k, v⟩ := kv
    have hk2 : isCanonicalIndex (currentKeyOf gt ck k) = false :=
      hB (k, v) (List.mem_cons_self _ _)
    have hnoX : hasKeyB X (currentKeyOf gt ck k) = false := by
      cases hx : hasKeyB X (currentKeyOf gt ck k) with
      | false => rfl
      | true =>
        exfalso
        have hcan : isCanonicalIndex (currentKeyOf gt ck k) = true :=
          hX _ (mem_of_hasKeyB hx)
        rw [hk2] at hcan
        exact Bool.false_ne_true hcan
    rw [List.foldl_cons]
    have hstep : pointStep gt ck (X ++ Y, flag) (k, v) =
        (X ++ setKey Y (currentKeyOf gt ck k)
          (coerceNumeric (isPotNumKeyB gt ck (currentKeyOf gt ck k)) v),
         flag || (currentKeyOf gt ck k != k)) := by
      show (setKey (X ++ Y) (currentKeyOf gt ck k) _, _) = _
      rw [setKey_append_of_no_key _ _ _ _ hnoX]
    rw [hstep]
    refine ih X _ _ hX ?_ (fun kv2 hkv2 => hB kv2 (List.mem_cons_of_mem _ hkv2))
    intro kv2 hkv2
    rcases mem_setKey hkv2 with hm | he
    · exact hY kv2 hm
    · rw [he]
      exact hk2

theorem keys_setKey_superset (fs : List (String × JSVal)) (k : String) (v : JSVal)
    {k2 : String} (h : k2 ∈ fs.map Prod.fst) : k2 ∈ (setKey fs k v).map Prod.fst := by
  induction fs with
  | nil => simp at h
  | cons hd t ih =>
    obtain ⟨k0, v0⟩ := hd
    by_cases hk : k0 = k
    · subst hk
      simp only [setKey, beq_self_eq_true, if_true]
      simpa using h
    · rw [List.map_cons] at h
      simp only [setKey, beqStr_false_of_ne hk, Bool.false_eq_true, if_false, List.map_cons]
      rcases List.mem_cons.mp h with rfl | hm
      · exact List.mem_cons_self _ _
      · exact List.mem_cons_of_mem _ (ih hm)

theorem mem_keys_setKey_self (fs : List (String × JSVal)) (k : String) (v : JSVal) :
    k ∈ (setKey fs k v).map Prod.fst :=
  (hasKeyB_iff_mem _ _).mp (hasKeyB_setKey_self fs k v)

theorem foldl_pointStep_keymem (gt ck : String) (E : List (String × JSVal)) :
    ∀ (acc : List (String × JSVal)) (flag : Bool) (k0 : String),
    (k0 ∈ acc.map Prod.fst ∨ ∃ kv ∈ E, currentKeyOf gt ck kv.fst = k0) →
    k0 ∈ (List.foldl (pointStep gt ck) (acc, flag) E).fst.map Prod.fst := by
  induction E with
  | nil =>
    intro acc flag k0 h
    rcases h with h | ⟨kv, hkv, _⟩
    · exact h
    · simp at hkv
  | cons kv t ih =>
    intro acc flag k0 h
    obtain ⟨k, v⟩ := kv
    rw [List.foldl_cons]
    have hstep : pointStep gt ck (acc, flag) (k, v) =
        (setKey acc (currentKeyOf gt ck k)
          (coerceNumeric (isPotNumKeyB gt ck (currentKeyOf gt ck k)) v),
         flag || (currentKeyOf gt ck k != k)) := rfl
    rw [hstep]
    rcases h with h | ⟨kv2, hkv2, hck2⟩
    · exact ih _ _ k0 (Or.inl (keys_setKey_superset _ _ _ h))
    · rcases List.mem_cons.mp hkv2 with rfl | hmem
      · refine ih _ _ k0 (Or.inl ?_)
        rw [← hck2]
        exact mem_keys_setKey_self _ _ _
      · exact ih _ _ k0 (Or.inr ⟨kv2, hmem, hck2⟩)

theorem foldl_ownOrder_shape (gt ck : String) (rfs : List (String × JSVal))
    (hdk : distinctKeysB rfs = true) :
    distinctKeysB (List.foldl (pointStep gt ck) ([], false) (ownOrder rfs)).fst = true ∧
    (∀ kv ∈ (List.foldl (pointStep gt ck) ([], false) (ownOrder rfs)).fst,
      StableEntry gt ck kv) ∧
    ownOrder (List.foldl (pointStep gt ck) ([], false) (ownOrder rfs)).fst =
      (List.foldl (pointStep gt ck) ([], false) (ownOrder rfs)).fst := by
  obtain ⟨hd1, hs1⟩ := foldl_pointStep_invariant gt ck (ownOrder rfs) [] false rfl
    (by intro kv h; simp at h)
  refine ⟨hd1, hs1, ?_⟩
  have hsplit : ownOrder rfs =
      sortByIdx (rfs.filter (fun kv => isCanonicalIndex kv.fst)) ++
        rfs.filter (fun kv => !isCanonicalIndex kv.fst) := rfl
  have hApm := sortByIdx_perm (rfs.filter (fun kv => isCanonicalIndex kv.fst))
  have hAcan : ∀ kv ∈ sortByIdx (rfs.filter (fun kv => isCanonicalIndex kv.fst)),
      isCanonicalIndex kv.fst = true := by
    intro kv hkv
    exact (List.mem_filter.mp (hApm.mem_iff.mp hkv)).2
  have hAnodup : ((sortByIdx (rfs.filter
      (fun kv => isCanonicalIndex kv.fst))).map Prod.fst).Nodup := by
    have hnd : (rfs.map Prod.fst).Nodup := (distinctKeysB_iff rfs).mp hdk
    have hsub : ((rfs.filter (fun kv => isCanonicalIndex kv.fst)).map
        Prod.fst).Sublist (rfs.map Prod.fst) :=
      (List.filter_sublist _).map Prod.fst
    exact ((hApm.map Prod.fst).nodup_iff).mpr (hnd.sublist hsub)
  have hAdk : distinctKeysB (sortByIdx (rfs.filter
      (fun kv => isCanonicalIndex kv.fst))) = true :=
    (distinctKeysB_iff _).mpr hAnodup
  have hAlt : (sortByIdx (rfs.filter (fun kv => isCanonicalIndex kv.fst))).Pairwise
      IdxLT :=
    pairwise_strict_of_sorted _ (sortByIdx_sorted _) hAcan hAnodup
  have hAid : ∀ kv ∈ sortByIdx (rfs.filter (fun kv => isCanonicalIndex kv.fst)),
      currentKeyOf gt ck kv.fst = kv.fst := by
    intro kv hkv
    exact currentKeyOf_id_of_nospecials _ _ _
      (hasSpecials_false_of_canonical _ (hAcan kv hkv))
  rw [hsplit, List.foldl_append,
    foldl_pointStep_map gt ck _ [] false hAid hAdk (by intro kv h; rfl),
    List.nil_append]
  have hXcan : ∀ kv ∈ (sortByIdx (rfs.filter (fun kv => isCanonicalIndex kv.fst))).map
      (fun kv => (kv.fst, coerceNumeric (isPotNumKeyB gt ck kv.fst) kv.snd)),
      isCanonicalIndex kv.fst = true := by
    intro kv hkv
    rcases List.mem_map.mp hkv with ⟨kv0, hkv0, heq⟩
    rw [← heq]
    exact hAcan kv0 hkv0
  have hBnc : ∀ kv ∈ rfs.filter (fun kv => !isCanonicalIndex kv.fst),
      isCanonicalIndex (currentKeyOf gt ck kv.fst) = false := by
    intro kv hkv
    exact currentKeyOf_noncanonical _ _ _ (by simpa using (List.mem_filter.mp hkv).2)
  obtain ⟨Y2, flag2, hfold2, hY2⟩ :=
    foldl_pointStep_noncanon gt ck (rfs.filter (fun kv => !isCanonicalIndex kv.fst))
      ((sortByIdx (rfs.filter (fun kv => isCanonicalIndex kv.fst))).map
        (fun kv => (kv.fst, coerceNumeric (isPotNumKeyB gt ck kv.fst) kv.snd)))
      [] false hXcan (by intro kv h; simp at h) hBnc
  rw [List.append_nil] at hfold2
  rw [hfold2]
  have hXlt : ((sortByIdx (rfs.filter (fun kv => isCanonicalIndex kv.fst))).map
      (fun kv => (kv.fst, coerceNumeric (isPotNumKeyB gt ck kv.fst) kv.snd))).Pairwise
      IdxLT := by
    rw [List.pairwise_map]
    exact hAlt.imp (fun h => h)
  exact ownOrder_append _ _ hXcan hXlt hY2

theorem sanitizePoint_output (gt ck : String) (rfs : List (String × JSVal))
    (hdk : distinctKeysB rfs = true) :
    ∃ P flag, sanitizePoint gt ck (.vobj rfs) = (.vobj P, flag) ∧
      distinctKeysB P = true ∧ (∀ kv ∈ P, StableEntry gt ck kv) ∧
      ownOrder P = P := by
  obtain ⟨h1, h2, h3⟩ := foldl_ownOrder_shape gt ck rfs hdk
  exact ⟨(List.foldl (pointStep gt ck) ([], false) (ownOrder rfs)).fst,
    (List.foldl (pointStep gt ck) ([], false) (ownOrder rfs)).snd, rfl, h1, h2, h3⟩

theorem sanitizePoint_stable (gt ck : String) (P : List (String × JSVal))
    (h1 : distinctKeysB P = true) (h2 : ∀ kv ∈ P, StableEntry gt ck kv)
    (h3 : ownOrder P = P) :
    sanitizePoint gt ck (.vobj P) = (.vobj P, false) := by
  have hfold : sanitizePoint gt ck (.vobj P) =
      (.vobj (List.foldl (pointStep gt ck) ([], false) (ownOrder P)).fst,
        (List.foldl (pointStep gt ck) ([], false) (ownOrder P)).snd) := rfl
  rw [hfold, h3, foldl_pointStep_stable gt ck P h2 h1 [] false (by intro kv h; rfl)]
  rw [List.nil_append]

theorem foldl_pointStep_inj (gt ck : String) (E : List (String × JSVal)) :
    ∀ (acc : List (String × JSVal)) (flag : Bool),
    distinctStringsB (E.map (fun kv => currentKeyOf gt ck kv.fst)) = true →
    (∀ kv ∈ E, hasKeyB acc (currentKeyOf gt ck kv.fst) = false) →
    ∃ flag2, List.foldl (pointStep gt ck) (acc, flag) E =
      (acc ++ E.map (fun kv =>
        (currentKeyOf gt ck kv.fst,
         coerceNumeric (isPotNumKeyB gt ck (currentKeyOf gt ck kv.fst)) kv.snd)),
       flag2) := by
  induction E with
  | nil =>
    intro acc flag _ _
    exact ⟨flag, by simp⟩
  | cons kv t ih =>
    intro acc flag hinj hdisj
    obtain ⟨k, v⟩ := kv
    rw [List.foldl_cons]
    have hstep : pointStep gt ck (acc, flag) (k, v) =
        (acc ++ [(currentKeyOf gt ck k,
          coerceNumeric (isPotNumKeyB gt ck (currentKeyOf gt ck k)) v)],
         flag || (currentKeyOf gt ck k != k)) := by
      show (setKey acc (currentKeyOf gt ck k) _, _) = _
      rw [setKey_append_new acc _ _ (hdisj (k, v) (List.mem_cons_self _ _))]
    rw [hstep]
    simp only [List.map_cons, distinctStringsB, Bool.and_eq_true] at hinj
    obtain ⟨h1, h2⟩ := hinj
    have h1' : (t.map (fun kv => currentKeyOf gt ck kv.fst)).any
        (fun x => x == currentKeyOf gt ck k) = false := by simpa using h1
    have hdisj2 : ∀ kv2 ∈ t, hasKeyB (acc ++ [(currentKeyOf gt ck k,
        coerceNumeric (isPotNumKeyB gt ck (currentKeyOf gt ck k)) v)])
        (currentKeyOf gt ck kv2.fst) = false := by
      intro kv2 hkv2
      have hacc : hasKeyB acc (currentKeyOf gt ck kv2.fst) = false :=
        hdisj kv2 (List.mem_cons_of_mem _ hkv2)
      have hne : (currentKeyOf gt ck kv2.fst == currentKeyOf gt ck k) = false :=
        Bool.eq_false_iff.mpr (List.any_eq_false.mp h1' _
          (List.mem_map.mpr ⟨kv2, hkv2, rfl⟩))
      have hkk : (currentKeyOf gt ck k == currentKeyOf gt ck kv2.fst) = false := by
        rw [beq_eq_false_iff_ne] at hne ⊢
        exact fun he => hne he.symm
      rw [hasKeyB] at hacc ⊢
      rw [List.any_append]
      simp [hacc, hkk]
    obtain ⟨flag2, hrec⟩ := ih
      (acc ++ [(currentKeyOf gt ck k,
        coerceNumeric (isPotNumKeyB gt ck (currentKeyOf gt ck k)) v)])
      (flag || (currentKeyOf gt ck k != k)) h2 hdisj2
    refine ⟨flag2, ?_⟩
    rw [hrec]
    simp [List.append_assoc]

theorem currentKey_eq_name (gt ck k : String)
    (h : currentKeyOf gt ck k = "name") : k = "name" := by
  by_cases hc : (renameGateB gt ck k && hasSpecials k) = true
  · exfalso
    have hs : hasSpecials k = true := by
      rw [Bool.and_eq_true] at hc
      exact hc.2
    have he : currentKeyOf gt ck k = slugKey k := by simp [currentKeyOf, hc]
    rw [he] at h
    have hu := underscore_mem_slugKey k hs
    rw [h] at hu
    exact absurd hu (by decide)
  · have he : currentKeyOf gt ck k = k := by simp [currentKeyOf, hc]
    rw [he] at h
    exact h

theorem categoryKey_map_output (gt ck : String) (E0 l1 l2 : List (String × JSVal))
    (ckk : String) (v0 : JSVal)
    (hpie : (gt == "pie") = false)
    (hE0 : E0 = l1 ++ (ckk, v0) :: l2)
    (hl1 : ∀ y ∈ l1, isStrB y.snd = false)
    (hp0 : isStrB v0 = true)
    (hid : currentKeyOf gt ck ckk = ckk)
    (hpot : isPotNumKeyB gt ck ckk = false)
    (hnoname : ∀ kv ∈ E0, currentKeyOf gt ck kv.fst ≠ "name")
    (hdP : distinctKeysB (E0.map (fun kv =>
      (currentKeyOf gt ck kv.fst,
       coerceNumeric (isPotNumKeyB gt ck (currentKeyOf gt ck kv.fst)) kv.snd))) = true)
    (hoP : ownOrder (E0.map (fun kv =>
      (currentKeyOf gt ck kv.fst,
       coerceNumeric (isPotNumKeyB gt ck (currentKeyOf gt ck kv.fst)) kv.snd))) =
      E0.map (fun kv =>
      (currentKeyOf gt ck kv.fst,
       coerceNumeric (isPotNumKeyB gt ck (currentKeyOf gt ck kv.fst)) kv.snd))) :
    categoryKeyOf gt (.vobj (E0.map (fun kv =>
      (currentKeyOf gt ck kv.fst,
       coerceNumeric (isPotNumKeyB gt ck (currentKeyOf gt ck kv.fst)) kv.snd)))) = ckk := by
  have hPsplit : E0.map (fun kv =>
      (currentKeyOf gt ck kv.fst,
       coerceNumeric (isPotNumKeyB gt ck (currentKeyOf gt ck kv.fst)) kv.snd)) =
      l1.map (fun kv =>
      (currentKeyOf gt ck kv.fst,
       coerceNumeric (isPotNumKeyB gt ck (currentKeyOf gt ck kv.fst)) kv.snd)) ++
      (ckk, v0) :: l2.map (fun kv =>
      (currentKeyOf gt ck kv.fst,
       coerceNumeric (isPotNumKeyB gt ck (currentKeyOf gt ck kv.fst)) kv.snd)) := by
    rw [hE0, List.map_append, List.map_cons]
    dsimp only
    rw [hid, hpot]
    simp [coerceNumeric]
  have hnoname2 : hasOwnP (JSVal.vobj (E0.map (fun kv =>
      (currentKeyOf gt ck kv.fst,
       coerceNumeric (isPotNumKeyB gt ck (currentKeyOf gt ck kv.fst)) kv.snd)))) "name"
      = false := by
    cases hy : hasKeyB (E0.map (fun kv =>
        (currentKeyOf gt ck kv.fst,
         coerceNumeric (isPotNumKeyB gt ck (currentKeyOf gt ck kv.fst)) kv.snd))) "name" with
    | false => exact hy
    | true =>
      exfalso
      have hm := (hasKeyB_iff_mem _ _).mp hy
      rcases List.mem_map.mp hm with ⟨kv1, hkv1, hfst⟩
      rcases List.mem_map.mp hkv1 with ⟨kv0, hkv0, hT0⟩
      rw [← hT0] at hfst
      exact hnoname kv0 hkv0 hfst
  have hfindP : ((E0.map (fun kv =>
      (currentKeyOf gt ck kv.fst,
       coerceNumeric (isPotNumKeyB gt ck (currentKeyOf gt ck kv.fst)) kv.snd))).map
        Prod.fst).find?
      (fun k => isStrB (findVal (E0.map (fun kv =>
        (currentKeyOf gt ck kv.fst,
         coerceNumeric (isPotNumKeyB gt ck (currentKeyOf gt ck kv.fst)) kv.snd))) k))
      = some ckk := by
    rw [find?_keys_assoc _ isStrB hdP, hPsplit]
    rw [find?_append_left_false _ _ _ ?hl1b]
    · rw [show List.find? (fun kv : String × JSVal => isStrB kv.snd)
          ((ckk, v0) :: l2.map (fun kv =>
            (currentKeyOf gt ck kv.fst,
             coerceNumeric (isPotNumKeyB gt ck (currentKeyOf gt ck kv.fst)) kv.snd)))
          = some (ckk, v0) from List.find?_cons_of_pos _ hp0]
      rfl
    case hl1b =>
      intro y hy
      rcases List.mem_map.mp hy with ⟨kv1, hkv1, hT1⟩
      have hns : isStrB kv1.snd = false := hl1 kv1 hkv1
      rw [← hT1]
      show isStrB (coerceNumeric _ kv1.snd) = false
      rw [coerceNumeric_of_not_str _ _ hns]
      exact hns
  simp only [categoryKeyOf, hpie, Bool.false_eq_true, if_false, hnoname2]
  have hkeys : jsOwnKeys (JSVal.vobj (E0.map (fun kv =>
      (currentKeyOf gt ck kv.fst,
       coerceNumeric (isPotNumKeyB gt ck (currentKeyOf gt ck kv.fst)) kv.snd)))) =
      (E0.map (fun kv =>
      (currentKeyOf gt ck kv.fst,
       coerceNumeric (isPotNumKeyB gt ck (currentKeyOf gt ck kv.fst)) kv.snd))).map
        Prod.fst := by
    show (ownOrder _).map Prod.fst = _
    rw [hoP]
  rw [hkeys]
  rw [show (fun k => isStrB (jsGet (JSVal.vobj (E0.map (fun kv =>
      (currentKeyOf gt ck kv.fst,
       coerceNumeric (isPotNumKeyB gt ck (currentKeyOf gt ck kv.fst)) kv.snd)))) k)) =
    (fun k => isStrB (findVal (E0.map (fun kv =>
      (currentKeyOf gt ck kv.fst,
       coerceNumeric (isPotNumKeyB gt ck (currentKeyOf gt ck kv.fst)) kv.snd))) k)) from rfl]
  rw [hfindP]

theorem categoryKey_after (gt : String) (rfs : List (String × JSVal))
    (hdk : distinctKeysB rfs = true)
    (hpie : (gt == "pie") = false)
    (hscat : (gt == "scatter") = false)
    (hstr : isStrB (findVal rfs (categoryKeyOf gt (.vobj rfs))) = true)
    (hcs : hasKeyB rfs "name" = true ∨
      distinctStringsB (((ownOrder rfs).map Prod.fst).map
        (currentKeyOf gt (categoryKeyOf gt (.vobj rfs)))) = true) :
    categoryKeyOf gt (.vobj (List.foldl
      (pointStep gt (categoryKeyOf gt (.vobj rfs))) ([], false) (ownOrder rfs)).fst) =
    categoryKeyOf gt (.vobj rfs) := by
  by_cases hnm : hasKeyB rfs "name" = true
  · have hown1 : hasOwnP (JSVal.vobj rfs) "name" = true := hnm
    have hck : categoryKeyOf gt (JSVal.vobj rfs) = "name" := by
      simp only [categoryKeyOf, hpie, Bool.false_eq_true, if_false, hown1, if_true]
    have hg : renameGateB gt "name" "name" = false := by
      simp [renameGateB]
    have him : currentKeyOf gt (categoryKeyOf gt (JSVal.vobj rfs)) "name" = "name" := by
      rw [hck]
      simp [currentKeyOf, hg]
    have hmem0 : ("name", findVal rfs "name") ∈ ownOrder rfs :=
      (ownOrder_perm rfs).mem_iff.mpr (mem_of_hasKeyB hnm)
    have hkm := foldl_pointStep_keymem gt (categoryKeyOf gt (JSVal.vobj rfs))
      (ownOrder rfs) [] false "name"
      (Or.inr ⟨("name", findVal rfs "name"), hmem0, him⟩)
    have hown2 : hasOwnP (JSVal.vobj (List.foldl
        (pointStep gt (categoryKeyOf gt (JSVal.vobj rfs))) ([], false)
        (ownOrder rfs)).fst) "name" = true :=
      (hasKeyB_iff_mem _ _).mpr hkm
    rw [hck] at hown2
    rw [hck]
    simp only [categoryKeyOf, hpie, Bool.false_eq_true, if_false, hown2, if_true]
  · have hnm' : hasKeyB rfs "name" = false := by rwa [Bool.not_eq_true] at hnm
    have hinj := hcs.resolve_left hnm
    have hown1 : hasOwnP (JSVal.vobj rfs) "name" = false := hnm'
    have hckdef0 : categoryKeyOf gt (JSVal.vobj rfs) =
        (match ((ownOrder rfs).map Prod.fst).find?
            (fun k => isStrB (findVal rfs k)) with
         | some k => k
         | none => "") := by
      simp only [categoryKeyOf, hpie, Bool.false_eq_true, if_false, hown1]
      rfl
    have hE0dk : distinctKeysB (ownOrder rfs) = true :=
      distinctKeysB_of_perm (ownOrder_perm rfs).symm hdk
    have hcong : ∀ k ∈ (ownOrder rfs).map Prod.fst,
        (fun k => isStrB (findVal rfs k)) k =
          (fun k => isStrB (findVal (ownOrder rfs) k)) k := by
      intro k _
      show isStrB (findVal rfs k) = isStrB (findVal (ownOrder rfs) k)
      rw [findVal_eq_of_perm (ownOrder_perm rfs) hdk k]
    have hkeysfind : ((ownOrder rfs).map Prod.fst).find?
        (fun k => isStrB (findVal rfs k)) =
        ((ownOrder rfs).find? (fun kv => isStrB kv.snd)).map Prod.fst := by
      rw [find?_congr_mem _ _ _ hcong, find?_keys_assoc (ownOrder rfs) isStrB hE0dk]
    cases hfind : (ownOrder rfs).find? (fun kv => isStrB kv.snd) with
    | none =>
      exfalso
      have hnone : ((ownOrder rfs).map Prod.fst).find?
          (fun k => isStrB (findVal rfs k)) = none := by
        rw [hkeysfind, hfind]
        rfl
      have hck : categoryKeyOf gt (JSVal.vobj rfs) = "" := by
        rw [hckdef0, hnone]
      rw [hck] at hstr
      have hne : findVal rfs "" ≠ JSVal.vundef := by
        intro he
        rw [he] at hstr
        simp [isStrB] at hstr
      have hkey : hasKeyB rfs "" = true := hasKeyB_of_findVal_ne rfs "" hne
      have hmem : ("", findVal rfs "") ∈ ownOrder rfs :=
        (ownOrder_perm rfs).mem_iff.mpr (mem_of_hasKeyB hkey)
      exact List.find?_eq_none.mp hfind _ hmem hstr
    | some kv0 =>
      obtain ⟨ckk, v0⟩ := kv0
      have hsome : ((ownOrder rfs).map Prod.fst).find?
          (fun k => isStrB (findVal rfs k)) = some ckk := by
        rw [hkeysfind, hfind]
        rfl
      have hck : categoryKeyOf gt (JSVal.vobj rfs) = ckk := by
        rw [hckdef0, hsome]
      obtain ⟨l1, l2, hE0, hl1, hp0⟩ := find?_split hfind
      have hmm : ((ownOrder rfs).map Prod.fst).map
          (currentKeyOf gt (categoryKeyOf gt (JSVal.vobj rfs))) =
          (ownOrder rfs).map
            (fun kv => currentKeyOf gt (categoryKeyOf gt (JSVal.vobj rfs)) kv.fst) := by
        rw [List.map_map]
        rfl
      rw [hmm] at hinj
      obtain ⟨flag2, hfold2⟩ := foldl_pointStep_inj gt
        (categoryKeyOf gt (JSVal.vobj rfs)) (ownOrder rfs) [] false hinj
        (by intro kv h; rfl)
      obtain ⟨hdP, hsP, hoP⟩ := foldl_ownOrder_shape gt
        (categoryKeyOf gt (JSVal.vobj rfs)) rfs hdk
      have hPdef : (List.foldl (pointStep gt (categoryKeyOf gt (JSVal.vobj rfs)))
          ([], false) (ownOrder rfs)).fst =
          (ownOrder rfs).map (fun kv =>
            (currentKeyOf gt (categoryKeyOf gt (JSVal.vobj rfs)) kv.fst,
             coerceNumeric (isPotNumKeyB gt (categoryKeyOf gt (JSVal.vobj rfs))
               (currentKeyOf gt (categoryKeyOf gt (JSVal.vobj rfs)) kv.fst)) kv.snd)) := by
        rw [hfold2]
        simp
      rw [hPdef] at hdP hoP ⊢
      have hid : currentKeyOf gt (categoryKeyOf gt (JSVal.vobj rfs)) ckk = ckk := by
        have hg : renameGateB gt (categoryKeyOf gt (JSVal.vobj rfs)) ckk = false := by
          rw [hck]
          simp [renameGateB]
        simp [currentKeyOf, hg]
      have hpot : isPotNumKeyB gt (categoryKeyOf gt (JSVal.vobj rfs)) ckk = false := by
        rw [hck]
        simp [isPotNumKeyB, hpie, hscat]
      have hnoname : ∀ kv ∈ ownOrder rfs,
          currentKeyOf gt (categoryKeyOf gt (JSVal.vobj rfs)) kv.fst ≠ "name" := by
        intro kv hkv he
        have hnm2 := currentKey_eq_name _ _ _ he
        have hmemk : hasKeyB rfs "name" = true := by
          rw [hasKeyB_iff_mem, ← hnm2]
          exact List.mem_map.mpr ⟨kv, (ownOrder_perm rfs).mem_iff.mp hkv, rfl⟩
        rw [hnm'] at hmemk
        exact Bool.false_ne_true hmemk
      exact (categoryKey_map_output gt (categoryKeyOf gt (JSVal.vobj rfs))
        (ownOrder rfs) l1 l2 ckk v0 hpie hE0 hl1 hp0 hid hpot hnoname hdP hoP).trans
        hck.symm

theorem jsTrim_keysSanitizedMsg : jsTrim keysSanitizedMsg = keysSanitizedMsg := by
  with_unfolding_all rfl

theorem containsSub_keysSanitizedMsg :
    containsSub keysSanitizedMsg "Keys sanitized" = true := by
  with_unfolding_all rfl

theorem remapConfig_of_cond_false (d : List JSVal) (c : JSVal)
    (hnn : c ≠ .vnull) (hnu : c ≠ .vundef)
    (hcond : (jsTruthy (jsGet c "dataKey") &&
      hasSpecials (jsToString (jsGet c "dataKey"))) = false) :
    remapConfig d c = .ok c := by
  cases c
  case vnull => exact absurd rfl hnn
  case vundef => exact absurd rfl hnu
  all_goals simp [remapConfig, hcond]

theorem remapConfig_idem (d : List JSVal) (c c2 : JSVal)
    (h : remapConfig d c = .ok c2) : remapConfig d c2 = .ok c2 := by
  by_cases hcond : (jsTruthy (jsGet c "dataKey") &&
      hasSpecials (jsToString (jsGet c "dataKey"))) = true
  · cases c with
    | vnull => exact absurd h (by simp [remapConfig])
    | vundef => exact absurd h (by simp [remapConfig])
    | vbool b => exact absurd hcond (by simp [jsGet, jsTruthy])
    | vnum n => exact absurd hcond (by simp [jsGet, jsTruthy])
    | vstr s0 =>
      have hb : ("dataKey" == "length") = false := by decide
      exact absurd hcond (by simp [jsGet, jsTruthy, hb])
    | varr xs =>
      have hb : ("dataKey" == "length") = false := by decide
      have hc : isCanonicalIndex "dataKey" = false := by decide
      exact absurd hcond (by simp [jsGet, jsTruthy, hb, hc])
    | vobj cfs =>
      have hget0 : jsGet (JSVal.vobj cfs) "dataKey" = findVal cfs "dataKey" := rfl
      rw [hget0] at hcond
      cases hdk : findVal cfs "dataKey" with
      | vundef =>
        rw [hdk] at hcond
        simp [jsTruthy] at hcond
      | vnull =>
        rw [hdk] at hcond
        simp [jsTruthy] at hcond
      | vbool b =>
        rw [hdk] at hcond
        cases b with
        | false => simp [jsTruthy] at hcond
        | true =>
          have hjs : jsToString (JSVal.vbool true) = "true" := by with_unfolding_all rfl
          have hsp : hasSpecials (jsToString (JSVal.vbool true)) = false := by
            rw [hjs]
            decide
          rw [hsp] at hcond
          simp at hcond
      | vnum n =>
        exact absurd h (by
          rw [hdk] at hcond
          simp [remapConfig, hget0, hdk, hcond])
      | varr ys =>
        exact absurd h (by
          rw [hdk] at hcond
          simp [remapConfig, hget0, hdk, hcond])
      | vobj ofs =>
        exact absurd h (by
          rw [hdk] at hcond
          simp [remapConfig, hget0, hdk, hcond])
      | vstr s =>
        rw [hdk] at hcond
        have hs : s ≠ "" := by
          intro he
          subst he
          simp [jsTruthy] at hcond
        by_cases hown : hasOwnP (d.headD .vundef) (slugKey s) = true
        · have hown' : hasOwnP (d.head?.getD JSVal.vundef) (slugKey s) = true := by
            cases d with
            | nil => exact hown
            | cons a t => exact hown
          have hr : remapConfig d (JSVal.vobj cfs) =
              .ok (.vobj (setKey cfs "dataKey" (.vstr (slugKey s)))) := by
            simp [remapConfig, hget0, hdk, hcond, hown']
          rw [hr] at h
          have he := Except.ok.inj h
          subst he
          refine remapConfig_of_cond_false d _ (by simp) (by simp) ?_
          have hget2 : jsGet (JSVal.vobj (setKey cfs "dataKey"
              (.vstr (slugKey s)))) "dataKey" = .vstr (slugKey s) :=
            findVal_setKey_self cfs "dataKey" _
          have hjs : jsToString (JSVal.vstr (slugKey s)) = slugKey s := by
            simp [jsToString]
          rw [hget2, hjs, hasSpecials_slugKey s, Bool.and_false]
        · rw [Bool.not_eq_true] at hown
          have hown' : hasOwnP (d.head?.getD JSVal.vundef) (slugKey s) = false := by
            cases d with
            | nil => exact hown
            | cons a t => exact hown
          have hr : remapConfig d (JSVal.vobj cfs) = .ok (JSVal.vobj cfs) := by
            simp [remapConfig, hget0, hdk, hcond, hown']
          rw [hr] at h
          have he := Except.ok.inj h
          subst he
          exact hr
  · have hcond' : (jsTruthy (jsGet c "dataKey") &&
        hasSpecials (jsToString (jsGet c "dataKey"))) = false := by
      rwa [Bool.not_eq_true] at hcond
    have hnn : c ≠ .vnull := by
      rintro rfl
      simp [remapConfig] at h
    have hnu : c ≠ .vundef := by
      rintro rfl
      simp [remapConfig] at h
    have hr := remapConfig_of_cond_false d c hnn hnu hcond'
    rw [hr] at h
    have he := Except.ok.inj h
    subst he
    exact hr

theorem exceptMapList_idem (d : List JSVal) (l l2 : List JSVal)
    (h : exceptMapList (remapConfig d) l = .ok l2) :
    exceptMapList (remapConfig d) l2 = .ok l2 := by
  induction l generalizing l2 with
  | nil =>
    rw [show exceptMapList (remapConfig d) [] = .ok [] from rfl] at h
    have he := Except.ok.inj h
    subst he
    rfl
  | cons x t ih =>
    rw [exceptMapList] at h
    cases hx : remapConfig d x with
    | error e =>
      rw [hx] at h
      exact absurd h (by simp)
    | ok y =>
      rw [hx] at h
      cases ht : exceptMapList (remapConfig d) t with
      | error e =>
        rw [ht] at h
        exact absurd h (by simp)
      | ok ys =>
        rw [ht] at h
        have he : l2 = y :: ys := (Except.ok.inj h).symm
        subst he
        rw [exceptMapList, remapConfig_idem d x y hx, ih ys ht]

theorem noteIncludesTest_of_falsy (ov : JSVal) (hf : jsTruthy ov = false) :
    noteIncludesTest ov = .ok false := by
  cases ov with
  | vundef => rfl
  | vnull => rfl
  | vbool b =>
    cases b with
    | false => rfl
    | true => simp [jsTruthy] at hf
  | vnum n => rfl
  | vstr s =>
    have hb : ("note" == "length") = false := by decide
    simp [noteIncludesTest, jsGet, hb]
  | varr xs => simp [jsTruthy] at hf
  | vobj ofs => simp [jsTruthy] at hf

theorem exceptMapList_ok_of_wf (d : List JSVal) (cfgs : List JSVal)
    (hok : cfgs.all (fun c =>
      match c with
      | .vobj cfs =>
        (match findVal cfs "dataKey" with
         | .vstr _ => true
         | dk => !(jsTruthy dk))
      | _ => false) = true) :
    ∃ cfgs2, exceptMapList (remapConfig d) cfgs = .ok cfgs2 := by
  induction cfgs with
  | nil => exact ⟨[], rfl⟩
  | cons c t ih =>
    rw [List.all_cons, Bool.and_eq_true] at hok
    obtain ⟨hc, ht⟩ := hok
    obtain ⟨t2, ht2⟩ := ih ht
    have hone : ∃ c2, remapConfig d c = .ok c2 := by
      cases c with
      | vobj cfs =>
        have hget0 : jsGet (JSVal.vobj cfs) "dataKey" = findVal cfs "dataKey" := rfl
        cases hdk : findVal cfs "dataKey" with
        | vstr s =>
          by_cases hcond : (jsTruthy (JSVal.vstr s) &&
              hasSpecials (jsToString (JSVal.vstr s))) = true
          · by_cases hown : hasOwnP (d.head?.getD JSVal.vundef) (slugKey s) = true
            · exact ⟨.vobj (setKey cfs "dataKey" (.vstr (slugKey s))),
                by simp [remapConfig, hget0, hdk, hcond, hown]⟩
            · rw [Bool.not_eq_true] at hown
              exact ⟨.vobj cfs, by simp [remapConfig, hget0, hdk, hcond, hown]⟩
          · rw [Bool.not_eq_true] at hcond
            refine ⟨_, remapConfig_of_cond_false d _ (by simp) (by simp) ?_⟩
            rw [hget0, hdk]
            exact hcond
        | vundef =>
          dsimp only at hc
          rw [hdk] at hc
          refine ⟨_, remapConfig_of_cond_false d _ (by simp) (by simp) ?_⟩
          rw [hget0, hdk]
          have hft := by simpa using hc
          simp [hft]
        | vnull =>
          dsimp only at hc
          rw [hdk] at hc
          refine ⟨_, remapConfig_of_cond_false d _ (by simp) (by simp) ?_⟩
          rw [hget0, hdk]
          have hft := by simpa using hc
          simp [hft]
        | vbool b =>
          dsimp only at hc
          rw [hdk] at hc
          refine ⟨_, remapConfig_of_cond_false d _ (by simp) (by simp) ?_⟩
          rw [hget0, hdk]
          have hft := by simpa using hc
          simp [hft]
        | vnum n =>
          dsimp only at hc
          rw [hdk] at hc
          refine ⟨_, remapConfig_of_cond_false d _ (by simp) (by simp) ?_⟩
          rw [hget0, hdk]
          have hft := by simpa using hc
          simp [hft]
        | varr ys =>
          dsimp only at hc
          rw [hdk] at hc
          refine ⟨_, remapConfig_of_cond_false d _ (by simp) (by simp) ?_⟩
          rw [hget0, hdk]
          have hft := by simpa using hc
          simp [hft]
        | vobj ofs2 =>
          dsimp only at hc
          rw [hdk] at hc
          refine ⟨_, remapConfig_of_cond_false d _ (by simp) (by simp) ?_⟩
          rw [hget0, hdk]
          have hft := by simpa using hc
          simp [hft]
      | vundef => simp at hc
      | vnull => simp at hc
      | vbool b => simp at hc
      | vnum n => simp at hc
      | vstr s => simp at hc
      | varr ys => simp at hc
    obtain ⟨c2, hc2⟩ := hone
    exact ⟨c2 :: t2, by rw [exceptMapList, hc2, ht2]⟩

theorem anc_empty_id (fs1 : List (String × JSVal)) (d : List JSVal) (cond2 : Bool)
    (hinc : noteIncludesTest (findVal fs1 "options") = .ok cond2)
    (hdata : findVal fs1 "data" = .varr d)
    (hcfg : ∀ cfgs,
      (if cond2 then optChain1 (findVal fs1 "options") "chartConfig" else .vundef) =
        .varr cfgs →
      ∃ ofs, findVal fs1 "options" = .vobj ofs ∧
        exceptMapList (remapConfig d) cfgs = .ok cfgs ∧
        setKey ofs "chartConfig" (.varr cfgs) = ofs ∧
        setKey fs1 "options" (.vobj ofs) = fs1) :
    applyNoteAndConfig (.vobj fs1) "" d = .ok (.vobj fs1) := by
  have hw : writeNote (JSVal.vobj fs1) "" = .ok (JSVal.vobj fs1) := by simp [writeNote]
  have hgo1 : jsGet (JSVal.vobj fs1) "options" = findVal fs1 "options" := rfl
  have hdid : setKey fs1 "data" (.varr d) = fs1 := by
    refine setKey_same _ _ _ (hasKeyB_of_findVal_ne _ _ ?_) hdata
    rw [hdata]
    intro he
    cases he
  cases hscr : (if cond2 then optChain1 (findVal fs1 "options") "chartConfig"
      else .vundef) with
  | varr cfgs =>
    obtain ⟨ofs, hofs, hmap, hsetcc, hsetopt⟩ := hcfg cfgs hscr
    have hinc2 : noteIncludesTest (JSVal.vobj ofs) = .ok cond2 := by
      rw [← hofs]
      exact hinc
    have hscr2 : (if cond2 then optChain1 (JSVal.vobj ofs) "chartConfig"
        else .vundef) = JSVal.varr cfgs := by
      rw [← hofs]
      exact hscr
    have hrun : applyNoteAndConfig (JSVal.vobj fs1) "" d =
        .ok (.vobj (setKey (setKey fs1 "options"
          (.vobj (setKey ofs "chartConfig" (.varr cfgs)))) "data" (.varr d))) := by
      simp only [applyNoteAndConfig, hw, hgo1, hofs, hinc2, hscr2, hmap]
      rfl
    rw [hrun, hsetcc, hsetopt, hdid]
  | vundef =>
    have hrun : applyNoteAndConfig (JSVal.vobj fs1) "" d =
        .ok (.vobj (setKey fs1 "data" (.varr d))) := by
      simp only [applyNoteAndConfig, hw, hgo1, hinc, hscr]
      rfl
    rw [hrun, hdid]
  | vnull =>
    have hrun : applyNoteAndConfig (JSVal.vobj fs1) "" d =
        .ok (.vobj (setKey fs1 "data" (.varr d))) := by
      simp only [applyNoteAndConfig, hw, hgo1, hinc, hscr]
      rfl
    rw [hrun, hdid]
  | vbool b =>
    have hrun : applyNoteAndConfig (JSVal.vobj fs1) "" d =
        .ok (.vobj (setKey fs1 "data" (.varr d))) := by
      simp only [applyNoteAndConfig, hw, hgo1, hinc, hscr]
      rfl
    rw [hrun, hdid]
  | vnum n =>
    have hrun : applyNoteAndConfig (JSVal.vobj fs1) "" d =
        .ok (.vobj (setKey fs1 "data" (.varr d))) := by
      simp only [applyNoteAndConfig, hw, hgo1, hinc, hscr]
      rfl
    rw [hrun, hdid]
  | vstr s =>
    have hrun : applyNoteAndConfig (JSVal.vobj fs1) "" d =
        .ok (.vobj (setKey fs1 "data" (.varr d))) := by
      simp only [applyNoteAndConfig, hw, hgo1, hinc, hscr]
      rfl
    rw [hrun, hdid]
  | vobj ofs0 =>
    have hrun : applyNoteAndConfig (JSVal.vobj fs1) "" d =
        .ok (.vobj (setKey fs1 "data" (.varr d))) := by
      simp only [applyNoteAndConfig, hw, hgo1, hinc, hscr]
      rfl
    rw [hrun, hdid]

set_option maxHeartbeats 1000000 in
theorem applyNoteAndConfig_idem (fs : List (String × JSVal)) (note : String)
    (d : List JSVal) (g1 : JSVal)
    (hopt : optionsOkB (.vobj fs) = true)
    (hn : note = "" ∨ note = keysSanitizedMsg)
    (h : applyNoteAndConfig (.vobj fs) note d = .ok g1) :
    (∃ fs1, g1 = .vobj fs1) ∧
    jsGet g1 "type" = findVal fs "type" ∧
    jsGet g1 "data" = .varr d ∧
    applyNoteAndConfig g1 "" d = .ok g1 := by
  have hgo : jsGet (JSVal.vobj fs) "options" = findVal fs "options" := rfl
  have hne : (keysSanitizedMsg != "") = true := by decide
  by_cases htr : jsTruthy (findVal fs "options") = true
  · -- options is truthy, hence a well-formed object
    have hovobj : ∃ ofs, findVal fs "options" = .vobj ofs := by
      cases hv : findVal fs "options" with
      | vobj ofs => exact ⟨ofs, rfl⟩
      | vundef => rw [hv] at htr; simp [jsTruthy] at htr
      | vnull => rw [hv] at htr; simp [jsTruthy] at htr
      | vbool b =>
        exfalso
        have ho := hopt
        simp only [optionsOkB] at ho
        rw [hgo, hv] at ho
        rw [hv] at htr
        simp [htr] at ho
      | vnum n =>
        exfalso
        have ho := hopt
        simp only [optionsOkB] at ho
        rw [hgo, hv] at ho
        rw [hv] at htr
        simp [htr] at ho
      | vstr s =>
        exfalso
        have ho := hopt
        simp only [optionsOkB] at ho
        rw [hgo, hv] at ho
        rw [hv] at htr
        simp [htr] at ho
      | varr xs =>
        exfalso
        have ho := hopt
        simp only [optionsOkB] at ho
        rw [hgo, hv] at ho
        rw [hv] at htr
        simp [htr] at ho
    obtain ⟨ofs, hov⟩ := hovobj
    have hnokcok : noteOkB (.vobj ofs) = true ∧ chartConfigOkB (.vobj ofs) = true := by
      have ho := hopt
      simp only [optionsOkB] at ho
      rw [hgo, hov] at ho
      rw [show jsTruthy (JSVal.vobj ofs) = true from rfl] at ho
      simpa using ho
    obtain ⟨hnok, hcok⟩ := hnokcok
    rcases hn with rfl | rfl
    · -- note = "", options object present
      have hw : writeNote (JSVal.vobj fs) "" = .ok (JSVal.vobj fs) := by simp [writeNote]
      cases hnote : findVal ofs "note" with
      | vundef =>
        have hinc1 : noteIncludesTest (JSVal.vobj ofs) = .ok false := by
          simp [noteIncludesTest, jsGet, hnote]
        have hrun : applyNoteAndConfig (JSVal.vobj fs) "" d =
            .ok (.vobj (setKey fs "data" (.varr d))) := by
          simp only [applyNoteAndConfig, hw, hgo, hov, hinc1, Bool.false_eq_true, if_false]
          rfl
        rw [hrun] at h
        have he := Except.ok.inj h
        subst he
        refine ⟨⟨_, rfl⟩, findVal_setKey_ne fs "data" "type" _ (by decide),
          findVal_setKey_self fs "data" _, ?_⟩
        refine anc_empty_id _ d false ?_ (findVal_setKey_self fs "data" _) ?_
        · rw [findVal_setKey_ne fs "data" "options" _ (by decide), hov]
          exact hinc1
        · intro cfgs hc
          simp at hc
      | vnull =>
        have hinc1 : noteIncludesTest (JSVal.vobj ofs) = .ok false := by
          simp [noteIncludesTest, jsGet, hnote]
        have hrun : applyNoteAndConfig (JSVal.vobj fs) "" d =
            .ok (.vobj (setKey fs "data" (.varr d))) := by
          simp only [applyNoteAndConfig, hw, hgo, hov, hinc1, Bool.false_eq_true, if_false]
          rfl
        rw [hrun] at h
        have he := Except.ok.inj h
        subst he
        refine ⟨⟨_, rfl⟩, findVal_setKey_ne fs "data" "type" _ (by decide),
          findVal_setKey_self fs "data" _, ?_⟩
        refine anc_empty_id _ d false ?_ (findVal_setKey_self fs "data" _) ?_
        · rw [findVal_setKey_ne fs "data" "options" _ (by decide), hov]
          exact hinc1
        · intro cfgs hc
          simp at hc
      | vstr ns =>
        cases hcs2 : containsSub ns "Keys sanitized" with
        | false =>
          have hinc1 : noteIncludesTest (JSVal.vobj ofs) = .ok false := by
            simp [noteIncludesTest, jsGet, hnote, hcs2]
          have hrun : applyNoteAndConfig (JSVal.vobj fs) "" d =
              .ok (.vobj (setKey fs "data" (.varr d))) := by
            simp only [applyNoteAndConfig, hw, hgo, hov, hinc1, Bool.false_eq_true, if_false]
            rfl
          rw [hrun] at h
          have he := Except.ok.inj h
          subst he
          refine ⟨⟨_, rfl⟩, findVal_setKey_ne fs "data" "type" _ (by decide),
            findVal_setKey_self fs "data" _, ?_⟩
          refine anc_empty_id _ d false ?_ (findVal_setKey_self fs "data" _) ?_
          · rw [findVal_setKey_ne fs "data" "options" _ (by decide), hov]
            exact hinc1
          · intro cfgs hc
            simp at hc
        | true =>
          have hinc1 : noteIncludesTest (JSVal.vobj ofs) = .ok true := by
            simp [noteIncludesTest, jsGet, hnote, hcs2]
          cases hcc : findVal ofs "chartConfig" with
          | varr cfgs =>
            have hwf : cfgs.all (fun c =>
                match c with
                | .vobj cfs =>
                  (match findVal cfs "dataKey" with
                   | .vstr _ => true
                   | dk => !(jsTruthy dk))
                | _ => false) = true := by
              have hc2 := hcok
              simp only [chartConfigOkB] at hc2
              rw [show jsGet (JSVal.vobj ofs) "chartConfig" =
                findVal ofs "chartConfig" from rfl, hcc] at hc2
              exact hc2
            obtain ⟨cfgs2, hmap⟩ := exceptMapList_ok_of_wf d cfgs hwf
            have hopc : optChain1 (JSVal.vobj ofs) "chartConfig" = JSVal.varr cfgs := by
              rw [show optChain1 (JSVal.vobj ofs) "chartConfig" =
                findVal ofs "chartConfig" from rfl, hcc]
            have hrun : applyNoteAndConfig (JSVal.vobj fs) "" d =
                .ok (.vobj (setKey (setKey fs "options"
                  (.vobj (setKey ofs "chartConfig" (.varr cfgs2)))) "data" (.varr d))) := by
              simp only [applyNoteAndConfig, hw, hgo, hov, hinc1, if_true, hopc, hmap]
              rfl
            rw [hrun] at h
            have he := Except.ok.inj h
            subst he
            have hov2 : findVal (setKey (setKey fs "options"
                (.vobj (setKey ofs "chartConfig" (.varr cfgs2)))) "data" (.varr d))
                "options" = .vobj (setKey ofs "chartConfig" (.varr cfgs2)) := by
              rw [findVal_setKey_ne _ "data" "options" _ (by decide), findVal_setKey_self]
            have hnote2 : findVal (setKey ofs "chartConfig" (.varr cfgs2)) "note" =
                JSVal.vstr ns := by
              rw [findVal_setKey_ne _ "chartConfig" "note" _ (by decide), hnote]
            refine ⟨⟨_, rfl⟩, ?_, findVal_setKey_self _ "data" _, ?_⟩
            · show findVal _ "type" = findVal fs "type"
              rw [findVal_setKey_ne _ "data" "type" _ (by decide),
                findVal_setKey_ne _ "options" "type" _ (by decide)]
            · refine anc_empty_id _ d true ?_ (findVal_setKey_self _ "data" _) ?_
              · rw [hov2]
                simp [noteIncludesTest, jsGet, hnote2, hcs2]
              · intro cfgsx hc
                simp only [if_true] at hc
                rw [hov2] at hc
                rw [show optChain1 (JSVal.vobj (setKey ofs "chartConfig" (.varr cfgs2)))
                  "chartConfig" = findVal (setKey ofs "chartConfig" (.varr cfgs2))
                  "chartConfig" from rfl, findVal_setKey_self] at hc
                obtain rfl := JSVal.varr.inj hc
                refine ⟨setKey ofs "chartConfig" (.varr cfgs2), hov2,
                  exceptMapList_idem d cfgs cfgs2 hmap,
                  setKey_setKey_self ofs "chartConfig" (.varr cfgs2), ?_⟩
                refine setKey_same _ _ _ (hasKeyB_of_findVal_ne _ _ ?_) hov2
                rw [hov2]
                intro he2
                cases he2
          | vundef =>
            have hopc : optChain1 (JSVal.vobj ofs) "chartConfig" = JSVal.vundef := by
              rw [show optChain1 (JSVal.vobj ofs) "chartConfig" =
                findVal ofs "chartConfig" from rfl, hcc]
            have hrun : applyNoteAndConfig (JSVal.vobj fs) "" d =
                .ok (.vobj (setKey fs "data" (.varr d))) := by
              simp only [applyNoteAndConfig, hw, hgo, hov, hinc1, if_true, hopc]
              rfl
            rw [hrun] at h
            have he := Except.ok.inj h
            subst he
            refine ⟨⟨_, rfl⟩, findVal_setKey_ne fs "data" "type" _ (by decide),
              findVal_setKey_self fs "data" _, ?_⟩
            have hov2 : findVal (setKey fs "data" (.varr d)) "options" = .vobj ofs := by
              rw [findVal_setKey_ne fs "data" "options" _ (by decide), hov]
            refine anc_empty_id _ d true ?_ (findVal_setKey_self fs "data" _) ?_
            · rw [hov2]
              exact hinc1
            · intro cfgsx hc
              simp only [if_true] at hc
              rw [hov2] at hc
              rw [show optChain1 (JSVal.vobj ofs) "chartConfig" =
                findVal ofs "chartConfig" from rfl, hcc] at hc
              exact JSVal.noConfusion hc
          | vnull =>
            have hopc : optChain1 (JSVal.vobj ofs) "chartConfig" = JSVal.vnull := by
              rw [show optChain1 (JSVal.vobj ofs) "chartConfig" =
                findVal ofs "chartConfig" from rfl, hcc]
            have hrun : applyNoteAndConfig (JSVal.vobj fs) "" d =
                .ok (.vobj (setKey fs "data" (.varr d))) := by
              simp only [applyNoteAndConfig, hw, hgo, hov, hinc1, if_true, hopc]
              rfl
            rw [hrun] at h
            have he := Except.ok.inj h
            subst he
            refine ⟨⟨_, rfl⟩, findVal_setKey_ne fs "data" "type" _ (by decide),
              findVal_setKey_self fs "data" _, ?_⟩
            have hov2 : findVal (setKey fs "data" (.varr d)) "options" = .vobj ofs := by
              rw [findVal_setKey_ne fs "data" "options" _ (by decide), hov]
            refine anc_empty_id _ d true ?_ (findVal_setKey_self fs "data" _) ?_
            · rw [hov2]
              exact hinc1
            · intro cfgsx hc
              simp only [if_true] at hc
              rw [hov2] at hc
              rw [show optChain1 (JSVal.vobj ofs) "chartConfig" =
                findVal ofs "chartConfig" from rfl, hcc] at hc
              exact JSVal.noConfusion hc
          | vbool b2 =>
            have hopc : optChain1 (JSVal.vobj ofs) "chartConfig" = JSVal.vbool b2 := by
              rw [show optChain1 (JSVal.vobj ofs) "chartConfig" =
                findVal ofs "chartConfig" from rfl, hcc]
            have hrun : applyNoteAndConfig (JSVal.vobj fs) "" d =
                .ok (.vobj (setKey fs "data" (.varr d))) := by
              simp only [applyNoteAndConfig, hw, hgo, hov, hinc1, if_true, hopc]
              rfl
            rw [hrun] at h
            have he := Except.ok.inj h
            subst he
            refine ⟨⟨_, rfl⟩, findVal_setKey_ne fs "data" "type" _ (by decide),
              findVal_setKey_self fs "data" _, ?_⟩
            have hov2 : findVal (setKey fs "data" (.varr d)) "options" = .vobj ofs := by
              rw [findVal_setKey_ne fs "data" "options" _ (by decide), hov]
            refine anc_empty_id _ d true ?_ (findVal_setKey_self fs "data" _) ?_
            · rw [hov2]
              exact hinc1
            · intro cfgsx hc
              simp only [if_true] at hc
              rw [hov2] at hc
              rw [show optChain1 (JSVal.vobj ofs) "chartConfig" =
                findVal ofs "chartConfig" from rfl, hcc] at hc
              exact JSVal.noConfusion hc
          | vnum n2 =>
            have hopc : optChain1 (JSVal.vobj ofs) "chartConfig" = JSVal.vnum n2 := by
              rw [show optChain1 (JSVal.vobj ofs) "chartConfig" =
                findVal ofs "chartConfig" from rfl, hcc]
            have hrun : applyNoteAndConfig (JSVal.vobj fs) "" d =
                .ok (.vobj (setKey fs "data" (.varr d))) := by
              simp only [applyNoteAndConfig, hw, hgo, hov, hinc1, if_true, hopc]
              rfl
            rw [hrun] at h
            have he := Except.ok.inj h
            subst he
            refine ⟨⟨_, rfl⟩, findVal_setKey_ne fs "data" "type" _ (by decide),
              findVal_setKey_self fs "data" _, ?_⟩
            have hov2 : findVal (setKey fs "data" (.varr d)) "options" = .vobj ofs := by
              rw [findVal_setKey_ne fs "data" "options" _ (by decide), hov]
            refine anc_empty_id _ d true ?_ (findVal_setKey_self fs "data" _) ?_
            · rw [hov2]
              exact hinc1
            · intro cfgsx hc
              simp only [if_true] at hc
              rw [hov2] at hc
              rw [show optChain1 (JSVal.vobj ofs) "chartConfig" =
                findVal ofs "chartConfig" from rfl, hcc] at hc
              exact JSVal.noConfusion hc
          | vstr s2 =>
            have hopc : optChain1 (JSVal.vobj ofs) "chartConfig" = JSVal.vstr s2 := by
              rw [show optChain1 (JSVal.vobj ofs) "chartConfig" =
                findVal ofs "chartConfig" from rfl, hcc]
            have hrun : applyNoteAndConfig (JSVal.vobj fs) "" d =
                .ok (.vobj (setKey fs "data" (.varr d))) := by
              simp only [applyNoteAndConfig, hw, hgo, hov, hinc1, if_true, hopc]
              rfl
            rw [hrun] at h
            have he := Except.ok.inj h
            subst he
            refine ⟨⟨_, rfl⟩, findVal_setKey_ne fs "data" "type" _ (by decide),
              findVal_setKey_self fs "data" _, ?_⟩
            have hov2 : findVal (setKey fs "data" (.varr d)) "options" = .vobj ofs := by
              rw [findVal_setKey_ne fs "data" "options" _ (by decide), hov]
            refine anc_empty_id _ d true ?_ (findVal_setKey_self fs "data" _) ?_
            · rw [hov2]
              exact hinc1
            · intro cfgsx hc
              simp only [if_true] at hc
              rw [hov2] at hc
              rw [show optChain1 (JSVal.vobj ofs) "chartConfig" =
                findVal ofs "chartConfig" from rfl, hcc] at hc
              exact JSVal.noConfusion hc
          | vobj o2 =>
            have hopc : optChain1 (JSVal.vobj ofs) "chartConfig" = JSVal.vobj o2 := by
              rw [show optChain1 (JSVal.vobj ofs) "chartConfig" =
                findVal ofs "chartConfig" from rfl, hcc]
            have hrun : applyNoteAndConfig (JSVal.vobj fs) "" d =
                .ok (.vobj (setKey fs "data" (.varr d))) := by
              simp only [applyNoteAndConfig, hw, hgo, hov, hinc1, if_true, hopc]
              rfl
            rw [hrun] at h
            have he := Except.ok.inj h
            subst he
            refine ⟨⟨_, rfl⟩, findVal_setKey_ne fs "data" "type" _ (by decide),
              findVal_setKey_self fs "data" _, ?_⟩
            have hov2 : findVal (setKey fs "data" (.varr d)) "options" = .vobj ofs := by
              rw [findVal_setKey_ne fs "data" "options" _ (by decide), hov]
            refine anc_empty_id _ d true ?_ (findVal_setKey_self fs "data" _) ?_
            · rw [hov2]
              exact hinc1
            · intro cfgsx hc
              simp only [if_true] at hc
              rw [hov2] at hc
              rw [show optChain1 (JSVal.vobj ofs) "chartConfig" =
                findVal ofs "chartConfig" from rfl, hcc] at hc
              exact JSVal.noConfusion hc
      | vbool b3 =>
        exfalso
        have hb := hnok
        simp only [noteOkB] at hb
        rw [show jsGet (JSVal.vobj ofs) "note" = findVal ofs "note" from rfl, hnote] at hb
        simp at hb
      | vnum n3 =>
        exfalso
        have hb := hnok
        simp only [noteOkB] at hb
        rw [show jsGet (JSVal.vobj ofs) "note" = findVal ofs "note" from rfl, hnote] at hb
        simp at hb
      | varr x3 =>
        exfalso
        have hb := hnok
        simp only [noteOkB] at hb
        rw [show jsGet (JSVal.vobj ofs) "note" = findVal ofs "note" from rfl, hnote] at hb
        simp at hb
      | vobj o3 =>
        exfalso
        have hb := hnok
        simp only [noteOkB] at hb
        rw [show jsGet (JSVal.vobj ofs) "note" = findVal ofs "note" from rfl, hnote] at hb
        simp at hb
    · -- note = keysSanitizedMsg, options object present
      have hwn : writeNote (JSVal.vobj fs) keysSanitizedMsg =
          .ok (.vobj (setKey fs "options" (.vobj (setKey ofs "note" (.vstr keysSanitizedMsg))))) := by
        simp only [writeNote, hne, if_true, hgo, hov]
        simp [jsTruthy, jsTrim_keysSanitizedMsg, jsSet]
      have hov1 : findVal (setKey fs "options" (.vobj (setKey ofs "note" (.vstr keysSanitizedMsg)))) "options" = .vobj (setKey ofs "note" (.vstr keysSanitizedMsg)) :=
        findVal_setKey_self fs "options" _
      have hnote1 : findVal (setKey ofs "note" (.vstr keysSanitizedMsg)) "note" = .vstr keysSanitizedMsg :=
        findVal_setKey_self ofs "note" _
      have hinc1 : noteIncludesTest (.vobj (setKey ofs "note" (.vstr keysSanitizedMsg))) = .ok true := by
        simp [noteIncludesTest, jsGet, hnote1, containsSub_keysSanitizedMsg]
      have hgo1 : jsGet (JSVal.vobj (setKey fs "options" (.vobj (setKey ofs "note" (.vstr keysSanitizedMsg))))) "options" =
          findVal (setKey fs "options" (.vobj (setKey ofs "note" (.vstr keysSanitizedMsg)))) "options" := rfl
      have hccm : findVal (setKey ofs "note" (.vstr keysSanitizedMsg)) "chartConfig" = findVal ofs "chartConfig" :=
        findVal_setKey_ne ofs "note" "chartConfig" _ (by decide)
      cases hcc : findVal ofs "chartConfig" with
      | varr cfgs =>
        have hwf : cfgs.all (fun c =>
            match c with
            | .vobj cfs =>
              (match findVal cfs "dataKey" with
               | .vstr _ => true
               | dk => !(jsTruthy dk))
            | _ => false) = true := by
          have hc2 := hcok
          simp only [chartConfigOkB] at hc2
          rw [show jsGet (JSVal.vobj ofs) "chartConfig" =
            findVal ofs "chartConfig" from rfl, hcc] at hc2
          exact hc2
        obtain ⟨cfgs2, hmap⟩ := exceptMapList_ok_of_wf d cfgs hwf
        have hopc : optChain1 (.vobj (setKey ofs "note" (.vstr keysSanitizedMsg))) "chartConfig" = JSVal.varr cfgs := by
          rw [show optChain1 (JSVal.vobj (setKey ofs "note" (.vstr keysSanitizedMsg))) "chartConfig" =
            findVal (setKey ofs "note" (.vstr keysSanitizedMsg)) "chartConfig" from rfl, hccm, hcc]
        have hrun : applyNoteAndConfig (JSVal.vobj fs) keysSanitizedMsg d =
            .ok (.vobj (setKey (setKey (setKey fs "options" (.vobj (setKey ofs "note" (.vstr keysSanitizedMsg)))) "options"
              (.vobj (setKey (setKey ofs "note" (.vstr keysSanitizedMsg)) "chartConfig" (.varr cfgs2)))) "data" (.varr d))) := by
          simp only [applyNoteAndConfig, hwn, hgo1, hov1, hinc1, if_true, hopc, hmap]
          rfl
        rw [hrun] at h
        have he := Except.ok.inj h
        subst he
        have hov2 : findVal (setKey (setKey (setKey fs "options" (.vobj (setKey ofs "note" (.vstr keysSanitizedMsg)))) "options"
            (.vobj (setKey (setKey ofs "note" (.vstr keysSanitizedMsg)) "chartConfig" (.varr cfgs2)))) "data" (.varr d))
            "options" = .vobj (setKey (setKey ofs "note" (.vstr keysSanitizedMsg)) "chartConfig" (.varr cfgs2)) := by
          rw [findVal_setKey_ne _ "data" "options" _ (by decide), findVal_setKey_self]
        have hnote2 : findVal (setKey (setKey ofs "note" (.vstr keysSanitizedMsg)) "chartConfig" (.varr cfgs2)) "note" =
            .vstr keysSanitizedMsg := by
          rw [findVal_setKey_ne _ "chartConfig" "note" _ (by decide), hnote1]
        refine ⟨⟨_, rfl⟩, ?_, findVal_setKey_self _ "data" _, ?_⟩
        · show findVal _ "type" = findVal fs "type"
          rw [findVal_setKey_ne _ "data" "type" _ (by decide),
            findVal_setKey_ne _ "options" "type" _ (by decide),
            findVal_setKey_ne _ "options" "type" _ (by decide)]
        · refine anc_empty_id _ d true ?_ (findVal_setKey_self _ "data" _) ?_
          · rw [hov2]
            simp [noteIncludesTest, jsGet, hnote2, containsSub_keysSanitizedMsg]
          · intro cfgsx hc
            simp only [if_true] at hc
            rw [hov2] at hc
            rw [show optChain1 (JSVal.vobj (setKey (setKey ofs "note" (.vstr keysSanitizedMsg)) "chartConfig" (.varr cfgs2)))
              "chartConfig" = findVal (setKey (setKey ofs "note" (.vstr keysSanitizedMsg)) "chartConfig" (.varr cfgs2))
              "chartConfig" from rfl, findVal_setKey_self] at hc
            obtain rfl := JSVal.varr.inj hc
            refine ⟨setKey (setKey ofs "note" (.vstr keysSanitizedMsg)) "chartConfig" (.varr cfgs2), hov2,
              exceptMapList_idem d cfgs cfgs2 hmap,
              setKey_setKey_self (setKey ofs "note" (.vstr keysSanitizedMsg)) "chartConfig" (.varr cfgs2), ?_⟩
            refine setKey_same _ _ _ (hasKeyB_of_findVal_ne _ _ ?_) hov2
            rw [hov2]
            intro he2
            cases he2
      | vundef =>
        have hopc : optChain1 (.vobj (setKey ofs "note" (.vstr keysSanitizedMsg))) "chartConfig" = JSVal.vundef := by
          rw [show optChain1 (JSVal.vobj (setKey ofs "note" (.vstr keysSanitizedMsg))) "chartConfig" =
            findVal (setKey ofs "note" (.vstr keysSanitizedMsg)) "chartConfig" from rfl, hccm, hcc]
        have hrun : applyNoteAndConfig (JSVal.vobj fs) keysSanitizedMsg d =
            .ok (.vobj (setKey (setKey fs "options" (.vobj (setKey ofs "note" (.vstr keysSanitizedMsg)))) "data" (.varr d))) := by
          simp only [applyNoteAndConfig, hwn, hgo1, hov1, hinc1, if_true, hopc]
          rfl
        rw [hrun] at h
        have he := Except.ok.inj h
        subst he
        have hov2 : findVal (setKey (setKey fs "options" (.vobj (setKey ofs "note" (.vstr keysSanitizedMsg)))) "data" (.varr d)) "options" =
            .vobj (setKey ofs "note" (.vstr keysSanitizedMsg)) := by
          rw [findVal_setKey_ne _ "data" "options" _ (by decide), hov1]
        refine ⟨⟨_, rfl⟩, ?_, findVal_setKey_self _ "data" _, ?_⟩
        · show findVal _ "type" = findVal fs "type"
          rw [findVal_setKey_ne _ "data" "type" _ (by decide),
            findVal_setKey_ne _ "options" "type" _ (by decide)]
        · refine anc_empty_id _ d true ?_ (findVal_setKey_self _ "data" _) ?_
          · rw [hov2]
            exact hinc1
          · intro cfgsx hc
            simp only [if_true] at hc
            rw [hov2] at hc
            rw [show optChain1 (JSVal.vobj (setKey ofs "note" (.vstr keysSanitizedMsg))) "chartConfig" =
              findVal (setKey ofs "note" (.vstr keysSanitizedMsg)) "chartConfig" from rfl, hccm, hcc] at hc
            exact JSVal.noConfusion hc
      | vnull =>
        have hopc : optChain1 (.vobj (setKey ofs "note" (.vstr keysSanitizedMsg))) "chartConfig" = JSVal.vnull := by
          rw [show optChain1 (JSVal.vobj (setKey ofs "note" (.vstr keysSanitizedMsg))) "chartConfig" =
            findVal (setKey ofs "note" (.vstr keysSanitizedMsg)) "chartConfig" from rfl, hccm, hcc]
        have hrun : applyNoteAndConfig (JSVal.vobj fs) keysSanitizedMsg d =
            .ok (.vobj (setKey (setKey fs "options" (.vobj (setKey ofs "note" (.vstr keysSanitizedMsg)))) "data" (.varr d))) := by
          simp only [applyNoteAndConfig, hwn, hgo1, hov1, hinc1, if_true, hopc]
          rfl
        rw [hrun] at h
        have he := Except.ok.inj h
        subst he
        have hov2 : findVal (setKey (setKey fs "options" (.vobj (setKey ofs "note" (.vstr keysSanitizedMsg)))) "data" (.varr d)) "options" =
            .vobj (setKey ofs "note" (.vstr keysSanitizedMsg)) := by
          rw [findVal_setKey_ne _ "data" "options" _ (by decide), hov1]
        refine ⟨⟨_, rfl⟩, ?_, findVal_setKey_self _ "data" _, ?_⟩
        · show findVal _ "type" = findVal fs "type"
          rw [findVal_setKey_ne _ "data" "type" _ (by decide),
            findVal_setKey_ne _ "options" "type" _ (by decide)]
        · refine anc_empty_id _ d true ?_ (findVal_setKey_self _ "data" _) ?_
          · rw [hov2]
            exact hinc1
          · intro cfgsx hc
            simp only [if_true] at hc
            rw [hov2] at hc
            rw [show optChain1 (JSVal.vobj (setKey ofs "note" (.vstr keysSanitizedMsg))) "chartConfig" =
              findVal (setKey ofs "note" (.vstr keysSanitizedMsg)) "chartConfig" from rfl, hccm, hcc] at hc
            exact JSVal.noConfusion hc
      | vbool b2 =>
        have hopc : optChain1 (.vobj (setKey ofs "note" (.vstr keysSanitizedMsg))) "chartConfig" = JSVal.vbool b2 := by
          rw [show optChain1 (JSVal.vobj (setKey ofs "note" (.vstr keysSanitizedMsg))) "chartConfig" =
            findVal (setKey ofs "note" (.vstr keysSanitizedMsg)) "chartConfig" from rfl, hccm, hcc]
        have hrun : applyNoteAndConfig (JSVal.vobj fs) keysSanitizedMsg d =
            .ok (.vobj (setKey (setKey fs "options" (.vobj (setKey ofs "note" (.vstr keysSanitizedMsg)))) "data" (.varr d))) := by
          simp only [applyNoteAndConfig, hwn, hgo1, hov1, hinc1, if_true, hopc]
          rfl
        rw [hrun] at h
        have he := Except.ok.inj h
        subst he
        have hov2 : findVal (setKey (setKey fs "options" (.vobj (setKey ofs "note" (.vstr keysSanitizedMsg)))) "data" (.varr d)) "options" =
            .vobj (setKey ofs "note" (.vstr keysSanitizedMsg)) := by
          rw [findVal_setKey_ne _ "data" "options" _ (by decide), hov1]
        refine ⟨⟨_, rfl⟩, ?_, findVal_setKey_self _ "data" _, ?_⟩
        · show findVal _ "type" = findVal fs "type"
          rw [findVal_setKey_ne _ "data" "type" _ (by decide),
            findVal_setKey_ne _ "options" "type" _ (by decide)]
        · refine anc_empty_id _ d true ?_ (findVal_setKey_self _ "data" _) ?_
          · rw [hov2]
            exact hinc1
          · intro cfgsx hc
            simp only [if_true] at hc
            rw [hov2] at hc
            rw [show optChain1 (JSVal.vobj (setKey ofs "note" (.vstr keysSanitizedMsg))) "chartConfig" =
              findVal (setKey ofs "note" (.vstr keysSanitizedMsg)) "chartConfig" from rfl, hccm, hcc] at hc
            exact JSVal.noConfusion hc
      | vnum n2 =>
        have hopc : optChain1 (.vobj (setKey ofs "note" (.vstr keysSanitizedMsg))) "chartConfig" = JSVal.vnum n2 := by
          rw [show optChain1 (JSVal.vobj (setKey ofs "note" (.vstr keysSanitizedMsg))) "chartConfig" =
            findVal (setKey ofs "note" (.vstr keysSanitizedMsg)) "chartConfig" from rfl, hccm, hcc]
        have hrun : applyNoteAndConfig (JSVal.vobj fs) keysSanitizedMsg d =
            .ok (.vobj (setKey (setKey fs "options" (.vobj (setKey ofs "note" (.vstr keysSanitizedMsg)))) "data" (.varr d))) := by
          simp only [applyNoteAndConfig, hwn, hgo1, hov1, hinc1, if_true, hopc]
          rfl
        rw [hrun] at h
        have he := Except.ok.inj h
        subst he
        have hov2 : findVal (setKey (setKey fs "options" (.vobj (setKey ofs "note" (.vstr keysSanitizedMsg)))) "data" (.varr d)) "options" =
            .vobj (setKey ofs "note" (.vstr keysSanitizedMsg)) := by
          rw [findVal_setKey_ne _ "data" "options" _ (by decide), hov1]
        refine ⟨⟨_, rfl⟩, ?_, findVal_setKey_self _ "data" _, ?_⟩
        · show findVal _ "type" = findVal fs "type"
          rw [findVal_setKey_ne _ "data" "type" _ (by decide),
            findVal_setKey_ne _ "options" "type" _ (by decide)]
        · refine anc_empty_id _ d true ?_ (findVal_setKey_self _ "data" _) ?_
          · rw [hov2]
            exact hinc1
          · intro cfgsx hc
            simp only [if_true] at hc
            rw [hov2] at hc
            rw [show optChain1 (JSVal.vobj (setKey ofs "note" (.vstr keysSanitizedMsg))) "chartConfig" =
              findVal (setKey ofs "note" (.vstr keysSanitizedMsg)) "chartConfig" from rfl, hccm, hcc] at hc
            exact JSVal.noConfusion hc
      | vstr s2 =>
        have hopc : optChain1 (.vobj (setKey ofs "note" (.vstr keysSanitizedMsg))) "chartConfig" = JSVal.vstr s2 := by
          rw [show optChain1 (JSVal.vobj (setKey ofs "note" (.vstr keysSanitizedMsg))) "chartConfig" =
            findVal (setKey ofs "note" (.vstr keysSanitizedMsg)) "chartConfig" from rfl, hccm, hcc]
        have hrun : applyNoteAndConfig (JSVal.vobj fs) keysSanitizedMsg d =
            .ok (.vobj (setKey (setKey fs "options" (.vobj (setKey ofs "note" (.vstr keysSanitizedMsg)))) "data" (.varr d))) := by
          simp only [applyNoteAndConfig, hwn, hgo1, hov1, hinc1, if_true, hopc]
          rfl
        rw [hrun] at h
        have he := Except.ok.inj h
        subst he
        have hov2 : findVal (setKey (setKey fs "options" (.vobj (setKey ofs "note" (.vstr keysSanitizedMsg)))) "data" (.varr d)) "options" =
            .vobj (setKey ofs "note" (.vstr keysSanitizedMsg)) := by
          rw [findVal_setKey_ne _ "data" "options" _ (by decide), hov1]
        refine ⟨⟨_, rfl⟩, ?_, findVal_setKey_self _ "data" _, ?_⟩
        · show findVal _ "type" = findVal fs "type"
          rw [findVal_setKey_ne _ "data" "type" _ (by decide),
            findVal_setKey_ne _ "options" "type" _ (by decide)]
        · refine anc_empty_id _ d true ?_ (findVal_setKey_self _ "data" _) ?_
          · rw [hov2]
            exact hinc1
          · intro cfgsx hc
            simp only [if_true] at hc
            rw [hov2] at hc
            rw [show optChain1 (JSVal.vobj (setKey ofs "note" (.vstr keysSanitizedMsg))) "chartConfig" =
              findVal (setKey ofs "note" (.vstr keysSanitizedMsg)) "chartConfig" from rfl, hccm, hcc] at hc
            exact JSVal.noConfusion hc
      | vobj o2 =>
        have hopc : optChain1 (.vobj (setKey ofs "note" (.vstr keysSanitizedMsg))) "chartConfig" = JSVal.vobj o2 := by
          rw [show optChain1 (JSVal.vobj (setKey ofs "note" (.vstr keysSanitizedMsg))) "chartConfig" =
            findVal (setKey ofs "note" (.vstr keysSanitizedMsg)) "chartConfig" from rfl, hccm, hcc]
        have hrun : applyNoteAndConfig (JSVal.vobj fs) keysSanitizedMsg d =
            .ok (.vobj (setKey (setKey fs "options" (.vobj (setKey ofs "note" (.vstr keysSanitizedMsg)))) "data" (.varr d))) := by
          simp only [applyNoteAndConfig, hwn, hgo1, hov1, hinc1, if_true, hopc]
          rfl
        rw [hrun] at h
        have he := Except.ok.inj h
        subst he
        have hov2 : findVal (setKey (setKey fs "options" (.vobj (setKey ofs "note" (.vstr keysSanitizedMsg)))) "data" (.varr d)) "options" =
            .vobj (setKey ofs "note" (.vstr keysSanitizedMsg)) := by
          rw [findVal_setKey_ne _ "data" "options" _ (by decide), hov1]
        refine ⟨⟨_, rfl⟩, ?_, findVal_setKey_self _ "data" _, ?_⟩
        · show findVal _ "type" = findVal fs "type"
          rw [findVal_setKey_ne _ "data" "type" _ (by decide),
            findVal_setKey_ne _ "options" "type" _ (by decide)]
        · refine anc_empty_id _ d true ?_ (findVal_setKey_self _ "data" _) ?_
          · rw [hov2]
            exact hinc1
          · intro cfgsx hc
            simp only [if_true] at hc
            rw [hov2] at hc
            rw [show optChain1 (JSVal.vobj (setKey ofs "note" (.vstr keysSanitizedMsg))) "chartConfig" =
              findVal (setKey ofs "note" (.vstr keysSanitizedMsg)) "chartConfig" from rfl, hccm, hcc] at hc
            exact JSVal.noConfusion hc
  · have htr2 : jsTruthy (findVal fs "options") = false := by
      rwa [Bool.not_eq_true] at htr
    have hinc0 : noteIncludesTest (findVal fs "options") = .ok false :=
      noteIncludesTest_of_falsy _ htr2
    rcases hn with rfl | rfl
    · -- note = "", options falsy
      have hw : writeNote (JSVal.vobj fs) "" = .ok (JSVal.vobj fs) := by simp [writeNote]
      have hrun : applyNoteAndConfig (JSVal.vobj fs) "" d =
          .ok (.vobj (setKey fs "data" (.varr d))) := by
        simp only [applyNoteAndConfig, hw, hgo, hinc0, Bool.false_eq_true, if_false]
        rfl
      rw [hrun] at h
      have he := Except.ok.inj h
      subst he
      refine ⟨⟨_, rfl⟩, findVal_setKey_ne fs "data" "type" _ (by decide),
        findVal_setKey_self fs "data" _, ?_⟩
      refine anc_empty_id _ d false ?_ (findVal_setKey_self fs "data" _) ?_
      · rw [findVal_setKey_ne fs "data" "options" _ (by decide)]
        exact hinc0
      · intro cfgs hc
        simp at hc
    · -- note = keysSanitizedMsg, options falsy
      have hwn : writeNote (JSVal.vobj fs) keysSanitizedMsg =
          .ok (.vobj (setKey fs "options" (.vobj [("note", .vstr keysSanitizedMsg)]))) := by
        simp only [writeNote, hne, if_true, hgo, htr2]
        simp [jsTrim_keysSanitizedMsg, jsSet]
      have hov1 : findVal (setKey fs "options" (.vobj [("note", .vstr keysSanitizedMsg)])) "options" = .vobj [("note", .vstr keysSanitizedMsg)] :=
        findVal_setKey_self fs "options" _
      have hfv : findVal (([("note", .vstr keysSanitizedMsg)] : List (String × JSVal))) "chartConfig" = .vundef := by
        have hb : ("note" == "chartConfig") = false := by decide
        simp [findVal, hb]
      have hinc1 : noteIncludesTest (.vobj [("note", .vstr keysSanitizedMsg)]) = .ok true := by
        simp [noteIncludesTest, jsGet, findVal, containsSub_keysSanitizedMsg]
      have hgo1 : jsGet (JSVal.vobj (setKey fs "options" (.vobj [("note", .vstr keysSanitizedMsg)]))) "options" =
          findVal (setKey fs "options" (.vobj [("note", .vstr keysSanitizedMsg)])) "options" := rfl
      have hopc : optChain1 (.vobj [("note", .vstr keysSanitizedMsg)]) "chartConfig" = .vundef := by
        rw [show optChain1 (JSVal.vobj [("note", .vstr keysSanitizedMsg)]) "chartConfig" =
          findVal (([("note", .vstr keysSanitizedMsg)] : List (String × JSVal))) "chartConfig" from rfl, hfv]
      have hrun : applyNoteAndConfig (JSVal.vobj fs) keysSanitizedMsg d =
          .ok (.vobj (setKey (setKey fs "options" (.vobj [("note", .vstr keysSanitizedMsg)])) "data" (.varr d))) := by
        simp only [applyNoteAndConfig, hwn, hgo1, hov1, hinc1, if_true, hopc]
        rfl
      rw [hrun] at h
      have he := Except.ok.inj h
      subst he
      have hov2 : findVal (setKey (setKey fs "options" (.vobj [("note", .vstr keysSanitizedMsg)])) "data" (.varr d)) "options" =
          .vobj [("note", .vstr keysSanitizedMsg)] := by
        rw [findVal_setKey_ne _ "data" "options" _ (by decide), hov1]
      refine ⟨⟨_, rfl⟩, ?_, findVal_setKey_self _ "data" _, ?_⟩
      · show findVal _ "type" = findVal fs "type"
        rw [findVal_setKey_ne _ "data" "type" _ (by decide),
          findVal_setKey_ne _ "options" "type" _ (by decide)]
      · refine anc_empty_id _ d true ?_ (findVal_setKey_self _ "data" _) ?_
        · rw [hov2]
          exact hinc1
        · intro cfgsx hc
          simp only [if_true] at hc
          rw [hov2] at hc
          rw [show optChain1 (JSVal.vobj [("note", .vstr keysSanitizedMsg)]) "chartConfig" =
            findVal (([("note", .vstr keysSanitizedMsg)] : List (String × JSVal))) "chartConfig" from rfl, hfv] at hc
          exact JSVal.noConfusion hc

theorem sanitizeDataGeneral_id (gt ck : String) (pts : List JSVal)
    (h : ∀ x ∈ pts, sanitizePoint gt ck x = (x, false)) :
    sanitizeDataGeneral gt ck pts = (pts, false) := by
  induction pts with
  | nil => rfl
  | cons p t ih =>
    have hp := h p (List.mem_cons_self p t)
    have ht := ih (fun x hx => h x (List.mem_cons_of_mem _ hx))
    have h1 : ((t.map (sanitizePoint gt ck)).map Prod.fst) = t := congrArg Prod.fst ht
    have h2 : ((t.map (sanitizePoint gt ck)).any Prod.snd) = false := congrArg Prod.snd ht
    show (((p :: t).map (sanitizePoint gt ck)).map Prod.fst,
      ((p :: t).map (sanitizePoint gt ck)).any Prod.snd) = (p :: t, false)
    rw [List.map_cons, hp, List.map_cons, List.any_cons, h1, h2]
    rfl

theorem pass1_points_stable (gt ck : String) (pts : List JSVal)
    (hrec : recordsOkB ck pts = true) :
    ∀ x ∈ (sanitizeDataGeneral gt ck pts).fst, sanitizePoint gt ck x = (x, false) := by
  intro x hx
  have hx2 : x ∈ (pts.map (sanitizePoint gt ck)).map Prod.fst := hx
  rcases List.mem_map.mp hx2 with ⟨pr, hpr, hfst⟩
  rcases List.mem_map.mp hpr with ⟨dp, hdp, hsan⟩
  have hdprec := List.all_eq_true.mp hrec dp hdp
  cases dp with
  | vobj rfs =>
    dsimp only at hdprec
    rw [Bool.and_eq_true, Bool.and_eq_true] at hdprec
    obtain ⟨⟨hdk, _⟩, _⟩ := hdprec
    obtain ⟨P, flag, heq, hdP, hsP, hoP⟩ := sanitizePoint_output gt ck rfs hdk
    rw [heq] at hsan
    rw [← hsan] at hfst
    rw [← hfst]
    exact sanitizePoint_stable gt ck P hdP hsP hoP
  | vundef => simp at hdprec
  | vnull => simp at hdprec
  | vbool b => simp at hdprec
  | vnum n => simp at hdprec
  | vstr s => simp at hdprec
  | varr xs => simp at hdprec

set_option maxHeartbeats 1000000 in
theorem sanitizeGraphData_idem_of_valid (g g1 : JSVal)
    (hv : validLBA g = true) (hcs : catStable g = true)
    (h1 : sanitizeGraphData g = .ok g1) :
    sanitizeGraphData g1 = .ok g1 := by
  cases g with
  | vundef => simp [validLBA] at hv
  | vnull => simp [validLBA] at hv
  | vbool b5 => simp [validLBA] at hv
  | vnum n5 => simp [validLBA] at hv
  | vstr s5 => simp [validLBA] at hv
  | varr x5 => simp [validLBA] at hv
  | vobj fs =>
    simp only [validLBA] at hv
    rw [Bool.and_eq_true, Bool.and_eq_true, Bool.and_eq_true] at hv
    obtain ⟨⟨⟨hdkfs, hlba⟩, hdata⟩, hoptB⟩ := hv
    have hgo_t : jsGet (JSVal.vobj fs) "type" = findVal fs "type" := rfl
    have hgo_d : jsGet (JSVal.vobj fs) "data" = findVal fs "data" := rfl
    simp only [lbaTypeB, hgo_t] at hlba
    cases hty : findVal fs "type" with
    | vundef =>
      rw [hty] at hlba
      simp at hlba
    | vnull =>
      rw [hty] at hlba
      simp at hlba
    | vbool b6 =>
      rw [hty] at hlba
      simp at hlba
    | vnum n6 =>
      rw [hty] at hlba
      simp at hlba
    | varr x6 =>
      rw [hty] at hlba
      simp at hlba
    | vobj o6 =>
      rw [hty] at hlba
      simp at hlba
    | vstr tys =>
      rw [hty] at hlba
      have hkey : (tys.toLower == "pie") = false ∧ (tys.toLower == "scatter") = false ∧
          (tys == "") = false := by
        rw [Bool.or_eq_true, Bool.or_eq_true] at hlba
        rcases hlba with (hq | hq) | hq <;>
          refine ⟨by rw [eq_of_beq hq]; decide, by rw [eq_of_beq hq]; decide, ?_⟩ <;>
          · rw [beq_eq_false_iff_ne]
            intro h2
            have he := eq_of_beq hq
            rw [h2] at he
            exact absurd he (by with_unfolding_all decide)
      obtain ⟨hpie, hscat, htysne⟩ := hkey
      rw [hgo_d] at hdata
      cases hd : findVal fs "data" with
      | vundef =>
        rw [hd] at hdata
        simp at hdata
      | vnull =>
        rw [hd] at hdata
        simp at hdata
      | vbool b =>
        rw [hd] at hdata
        simp at hdata
      | vnum n =>
        rw [hd] at hdata
        simp at hdata
      | vstr s =>
        rw [hd] at hdata
        simp at hdata
      | vobj o =>
        rw [hd] at hdata
        simp at hdata
      | varr dl =>
        rw [hd] at hdata
        cases dl with
        | nil => simp at hdata
        | cons fp rest =>
          dsimp only at hdata
          have hgt : graphTypeOf (JSVal.vobj fs) = tys.toLower := by
            simp only [graphTypeOf, hgo_t, hty]
          rw [hgt] at hdata
          have hfprec := List.all_eq_true.mp hdata fp (List.mem_cons_self fp rest)
          cases fp with
          | vundef => simp at hfprec
          | vnull => simp at hfprec
          | vbool b4 => simp at hfprec
          | vnum n4 => simp at hfprec
          | vstr s4 => simp at hfprec
          | varr x4 => simp at hfprec
          | vobj rfs =>
            dsimp only at hfprec
            rw [Bool.and_eq_true, Bool.and_eq_true] at hfprec
            obtain ⟨⟨hdk0, hstr0⟩, _⟩ := hfprec
            simp only [catStable, hgo_d, hd, hgt] at hcs
            rw [Bool.or_eq_true] at hcs
            have hguard : (!(jsTruthy (JSVal.vobj fs)) || !(typeofObject (JSVal.vobj fs)) ||
                !(jsTruthy (jsGet (JSVal.vobj fs) "type")) ||
                !(isArrB (jsGet (JSVal.vobj fs) "data"))) = false := by
              rw [hgo_t, hty, hgo_d, hd]
              simp [jsTruthy, typeofObject, isArrB, htysne]
            have hrun1 : sanitizeGraphData (JSVal.vobj fs) =
                sanitizeNonScatter (JSVal.vobj fs) tys.toLower (.vobj rfs)
                  (.vobj rfs :: rest) := by
              have ht1 : jsTruthy (JSVal.vstr tys) = true := by
                simp [jsTruthy, htysne]
              simp only [sanitizeGraphData, hgo_t, hty, hgo_d, hd]
              simp [jsTruthy, typeofObject, isArrB, notNullObject, ht1, hscat, htysne]
            rw [hrun1] at h1
            have h1p : applyNoteAndConfig (JSVal.vobj fs)
                (if (sanitizeDataGeneral tys.toLower (categoryKeyOf tys.toLower (.vobj rfs)) (.vobj rfs :: rest)).snd &&
                    (tys.toLower != "scatter")
                 then keysSanitizedMsg else "")
                (sanitizeDataGeneral tys.toLower (categoryKeyOf tys.toLower (.vobj rfs)) (.vobj rfs :: rest)).fst = .ok g1 := h1
            have hnote12 : (if (sanitizeDataGeneral tys.toLower (categoryKeyOf tys.toLower (.vobj rfs))
                  (.vobj rfs :: rest)).snd && (tys.toLower != "scatter")
                 then keysSanitizedMsg else "") = "" ∨
                (if (sanitizeDataGeneral tys.toLower (categoryKeyOf tys.toLower (.vobj rfs))
                  (.vobj rfs :: rest)).snd && (tys.toLower != "scatter")
                 then keysSanitizedMsg else "") = keysSanitizedMsg := by
              cases hb : (sanitizeDataGeneral tys.toLower (categoryKeyOf tys.toLower (.vobj rfs))
                  (.vobj rfs :: rest)).snd && (tys.toLower != "scatter") with
              | false => exact Or.inl (by simp)
              | true => exact Or.inr (by simp)
            obtain ⟨⟨fs1, rfl⟩, htype1, hdata1, hanc⟩ :=
              applyNoteAndConfig_idem fs _ _ g1 hoptB hnote12 h1p
            have htype1p : findVal fs1 "type" = .vstr tys := by
              have hx := htype1
              rw [hty] at hx
              exact hx
            obtain ⟨P0, flag0, heq0, hdP0, hsP0, hoP0⟩ :=
              sanitizePoint_output tys.toLower (categoryKeyOf tys.toLower (.vobj rfs)) rfs hdk0
            have hfold0 : (List.foldl (pointStep tys.toLower (categoryKeyOf tys.toLower (.vobj rfs)))
                ([], false) (ownOrder rfs)).fst = P0 := by
              have hc : JSVal.vobj (List.foldl (pointStep tys.toLower (categoryKeyOf tys.toLower (.vobj rfs)))
                  ([], false) (ownOrder rfs)).fst = JSVal.vobj P0 :=
                congrArg Prod.fst heq0
              exact JSVal.vobj.inj hc
            have hckeq : categoryKeyOf tys.toLower (.vobj P0) =
                categoryKeyOf tys.toLower (.vobj rfs) := by
              have hres := categoryKey_after tys.toLower rfs hdk0 hpie hscat hstr0 hcs
              rw [hfold0] at hres
              exact hres
            have hstab := pass1_points_stable tys.toLower (categoryKeyOf tys.toLower (.vobj rfs))
              (.vobj rfs :: rest) hdata
            have hdg2 := sanitizeDataGeneral_id tys.toLower (categoryKeyOf tys.toLower (.vobj rfs))
              (sanitizeDataGeneral tys.toLower (categoryKeyOf tys.toLower (.vobj rfs)) (.vobj rfs :: rest)).fst hstab
            have hfp0 : (sanitizePoint tys.toLower (categoryKeyOf tys.toLower (.vobj rfs)) (.vobj rfs)).fst =
                JSVal.vobj P0 := congrArg Prod.fst heq0
            have hdcons : (sanitizeDataGeneral tys.toLower (categoryKeyOf tys.toLower (.vobj rfs)) (.vobj rfs :: rest)).fst =
                JSVal.vobj P0 :: (rest.map (sanitizePoint tys.toLower (categoryKeyOf tys.toLower (.vobj rfs)))).map Prod.fst := by
              rw [show (sanitizeDataGeneral tys.toLower (categoryKeyOf tys.toLower (.vobj rfs)) (.vobj rfs :: rest)).fst =
                (sanitizePoint tys.toLower (categoryKeyOf tys.toLower (.vobj rfs)) (.vobj rfs)).fst :: (rest.map (sanitizePoint tys.toLower (categoryKeyOf tys.toLower (.vobj rfs)))).map Prod.fst from rfl, hfp0]
            have hjt : jsGet (JSVal.vobj fs1) "type" = JSVal.vstr tys := htype1p
            have hjd : jsGet (JSVal.vobj fs1) "data" =
                .varr (sanitizeDataGeneral tys.toLower
                  (categoryKeyOf tys.toLower (.vobj rfs)) (.vobj rfs :: rest)).fst :=
              hdata1
            have hguard2 : (!(jsTruthy (JSVal.vobj fs1)) ||
                !(typeofObject (JSVal.vobj fs1)) ||
                !(jsTruthy (jsGet (JSVal.vobj fs1) "type")) ||
                !(isArrB (jsGet (JSVal.vobj fs1) "data"))) = false := by
              rw [hjt, hjd]
              simp [jsTruthy, typeofObject, isArrB, htysne]
            have hdata1c : jsGet (JSVal.vobj fs1) "data" =
                .varr (JSVal.vobj P0 :: (rest.map (sanitizePoint tys.toLower (categoryKeyOf tys.toLower (.vobj rfs)))).map Prod.fst) := by
              rw [hjd, hdcons]
            have hrun2 : sanitizeGraphData (JSVal.vobj fs1) =
                sanitizeNonScatter (JSVal.vobj fs1) tys.toLower (.vobj P0)
                  (JSVal.vobj P0 :: (rest.map (sanitizePoint tys.toLower (categoryKeyOf tys.toLower (.vobj rfs)))).map Prod.fst) := by
              have ht1 : jsTruthy (JSVal.vstr tys) = true := by
                simp [jsTruthy, htysne]
              simp only [sanitizeGraphData, hjt, hdata1c]
              simp [jsTruthy, typeofObject, isArrB, notNullObject, ht1, hscat, htysne]
            rw [hrun2]
            show applyNoteAndConfig (JSVal.vobj fs1)
                (if (sanitizeDataGeneral tys.toLower (categoryKeyOf tys.toLower (.vobj P0))
                    (JSVal.vobj P0 :: (rest.map (sanitizePoint tys.toLower (categoryKeyOf tys.toLower (.vobj rfs)))).map Prod.fst)).snd && (tys.toLower != "scatter")
                 then keysSanitizedMsg else "")
                ((sanitizeDataGeneral tys.toLower (categoryKeyOf tys.toLower (.vobj P0))
                  (JSVal.vobj P0 :: (rest.map (sanitizePoint tys.toLower (categoryKeyOf tys.toLower (.vobj rfs)))).map Prod.fst)).fst) = .ok (JSVal.vobj fs1)
            rw [hckeq, ← hdcons, hdg2]
            simpa using hanc


/-- Claim C2 (amended): `sanitizeGraphData` is idempotent on valid `line`,
`bar` or `area` payloads whose category key is stable under the key renaming
(the first record has a `name` key, or the slug renaming identifies no two of
its keys): re-sanitizing the sanitized payload returns it unchanged. -/
theorem claim_C2_amended (g g1 : JSVal) (hv : validLBA g = true)
    (hcs : catStable g = true) (h1 : sanitizeGraphData g = .ok g1) :
    sanitizeGraphData g1 = .ok g1 :=
  sanitizeGraphData_idem_of_valid g g1 hv hcs h1

set_option maxRecDepth 100000 in
/-- Witness for the amended claim C2: a concrete valid line payload whose key
`my series` is slug-renamed to `my_series`; the sanitized payload re-sanitizes
to itself. -/
theorem claim_C2_witness :
    validLBA (.vobj [("type", .vstr "line"),
      ("data", .varr [
        .vobj [("name", .vstr "Jan"), ("my series", .vnum (.fin 40))],
        .vobj [("name", .vstr "Feb"), ("my series", .vnum (.fin 2))]])]) = true ∧
    catStable (.vobj [("type", .vstr "line"),
      ("data", .varr [
        .vobj [("name", .vstr "Jan"), ("my series", .vnum (.fin 40))],
        .vobj [("name", .vstr "Feb"), ("my series", .vnum (.fin 2))]])]) = true ∧
    sanitizeGraphData (.vobj [("type", .vstr "line"),
      ("data", .varr [
        .vobj [("name", .vstr "Jan"), ("my series", .vnum (.fin 40))],
        .vobj [("name", .vstr "Feb"), ("my series", .vnum (.fin 2))]])]) =
      .ok (.vobj [("type", .vstr "line"),
        ("data", .varr [
          .vobj [("name", .vstr "Jan"), ("my_series", .vnum (.fin 40))],
          .vobj [("name", .vstr "Feb"), ("my_series", .vnum (.fin 2))]]),
        ("options", .vobj [("note", .vstr keysSanitizedMsg)])]) ∧
    sanitizeGraphData (.vobj [("type", .vstr "line"),
        ("data", .varr [
          .vobj [("name", .vstr "Jan"), ("my_series", .vnum (.fin 40))],
          .vobj [("name", .vstr "Feb"), ("my_series", .vnum (.fin 2))]]),
        ("options", .vobj [("note", .vstr keysSanitizedMsg)])]) =
      .ok (.vobj [("type", .vstr "line"),
        ("data", .varr [
          .vobj [("name", .vstr "Jan"), ("my_series", .vnum (.fin 40))],
          .vobj [("name", .vstr "Feb"), ("my_series", .vnum (.fin 2))]]),
        ("options", .vobj [("note", .vstr keysSanitizedMsg)])]) := by
  refine ⟨by with_unfolding_all rfl, by with_unfolding_all rfl,
    by with_unfolding_all rfl, ?_⟩
  exact claim_C2_amended
    (.vobj [("type", .vstr "line"),
      ("data", .varr [
        .vobj [("name", .vstr "Jan"), ("my series", .vnum (.fin 40))],
        .vobj [("name", .vstr "Feb"), ("my series", .vnum (.fin 2))]])])
    (.vobj [("type", .vstr "line"),
      ("data", .varr [
        .vobj [("name", .vstr "Jan"), ("my_series", .vnum (.fin 40))],
        .vobj [("name", .vstr "Feb"), ("my_series", .vnum (.fin 2))]]),
      ("options", .vobj [("note", .vstr keysSanitizedMsg)])])
    (by with_unfolding_all rfl)
    (by with_unfolding_all rfl) (by with_unfolding_all rfl)
